import Mathlib

/-!
# Smart pointers: SharedPtr / WeakPtr over reference-counted control blocks, and UniquePtr

A shallow embedding of `src/shared_and_weak_ptr/shared.h` and
`src/shared_and_weak_ptr/weak.h`, followed by one of `src/unique_ptr/unique.h`
(section `UniquePtr`, with its own program state: the `UniquePtr` objects and
the log of release action invocations).

The C++ objects live in an explicit program state:

* the heap of control blocks (`BlockBase` with its two implementations
  `Block<T>` and `BlockHolder<T>`), addressed by natural numbers; a freed
  block stays in the table as `none`, so an access through a stale pointer is
  visible as a fault instead of being silently accepted;
* the `SharedPtr` and the `WeakPtr` objects of the program, addressed by their
  index; an object whose lifetime has ended stays in the table as `none`;
* a log of the resource destructors that were run and a log of the blocks that
  were deallocated, both in chronological order.

Every member function becomes a function `State → ... → Except Fault State`.
The counters are C++ `int`s: they are integers here, and an increment or
decrement that leaves the range of `int` is a fault (signed overflow is
undefined behaviour in C++).  The converting member templates
(`SharedPtr(const SharedPtr<U>&)`, `Reset(U*)`, ...) have the same bodies as
the non-template members and are covered by the same definitions.
-/

namespace SmartPtr

/-! ## Data model -/

/-- Raw pointer values: the null pointer, the address of a separately
allocated object, or the address of the `storage_` member of the
`BlockHolder` allocated at the given block address (`GetRawPtr`). -/
inductive RawPtr where
  | null
  | obj (addr : Nat)
  | storage (block : Nat)
  deriving DecidableEq, Repr

/-- Ways in which an operation does not complete normally. -/
inductive Fault where
  /-- The exception `BadWeakPtr` was thrown. -/
  | BadWeakPtr
  /-- A handle object was used outside of its lifetime. -/
  | deadObject
  /-- A control block was accessed after it was deleted. -/
  | useAfterFree
  /-- An `int` counter left the range of `int`. -/
  | intOverflow
  deriving DecidableEq, Repr

/-- Largest value of a C++ `int` (32 bits). -/
def INT_MAX : Int := 2147483647

/-- Smallest value of a C++ `int` (32 bits). -/
def INT_MIN : Int := -2147483648

/-- The operation `++c` on an `int`. -/
def intInc (c : Int) : Except Fault Int :=
  if c = INT_MAX then .error .intOverflow else .ok (c + 1)

/-- The operation `--c` on an `int`. -/
def intDec (c : Int) : Except Fault Int :=
  if c = INT_MIN then .error .intOverflow else .ok (c - 1)

/-- Conversion of an `int` to `size_t` (64 bits): reduction modulo `2^64`. -/
def toSizeT (c : Int) : Nat := (c % 2 ^ 64).toNat

/-- The two implementations of `BlockBase`: `Block<T>` with its member
`ptr_`, and `BlockHolder<T>` whose resource lives in its own `storage_`. -/
inductive BlockImpl where
  | Block (ptr_ : RawPtr)
  | BlockHolder
  deriving DecidableEq, Repr

/-- A control block: `class BlockBase` together with its dynamic type. -/
structure BlockBase where
  shared_ref_counter_ : Int
  weak_ref_counter_ : Int
  impl : BlockImpl
  deriving DecidableEq, Repr

/-- The members shared by `SharedPtr<T>` and `WeakPtr<T>`: `T* ptr_` and
`BlockBase* block_` (`none` is the null block pointer). -/
structure Handle where
  ptr_ : RawPtr
  block_ : Option Nat
  deriving DecidableEq, Repr

/-- The class `SharedPtr<T>`: members `ptr_` and `block_`. -/
abbrev SharedPtr := Handle

/-- The class `WeakPtr<T>`: members `ptr_` and `block_`. -/
abbrev WeakPtr := Handle

/-- The handle with `ptr_ = nullptr` and `block_ = nullptr`. -/
def Handle.empty : Handle := ⟨.null, none⟩

/-- Program state. -/
structure State where
  /-- Heap of control blocks; `none` marks a deallocated block. -/
  blocks : List (Option BlockBase)
  /-- The `SharedPtr` objects; `none` marks an object whose lifetime ended. -/
  shared : List (Option SharedPtr)
  /-- The `WeakPtr` objects; `none` marks an object whose lifetime ended. -/
  weak : List (Option WeakPtr)
  /-- Resource destructor runs (`delete ptr_` on a non-null pointer, or
  `~T()` on the embedded storage), oldest first. -/
  dtor_log : List RawPtr
  /-- Control block deallocations, oldest first. -/
  free_log : List Nat
  deriving DecidableEq, Repr

/-- The state of a program that has created nothing yet. -/
def State.init : State := ⟨[], [], [], [], []⟩

/-- Entry `i` of a table of objects, `none` when absent or no longer live. -/
def slot {α : Type} (l : List (Option α)) (i : Nat) : Option α :=
  match l[i]? with
  | some (some a) => some a
  | _ => none

/-- The live control block at address `b`, if any. -/
def State.blockAt (s : State) (b : Nat) : Option BlockBase := slot s.blocks b

/-- The live `SharedPtr` object number `h`, if any. -/
def State.sharedAt (s : State) (h : Nat) : Option SharedPtr := slot s.shared h

/-- The live `WeakPtr` object number `h`, if any. -/
def State.weakAt (s : State) (h : Nat) : Option WeakPtr := slot s.weak h

/-- Dereference of a block pointer. -/
def State.block (s : State) (b : Nat) : Except Fault BlockBase :=
  match s.blockAt b with
  | some blk => .ok blk
  | none => .error .useAfterFree

/-- Access to a `SharedPtr` object. -/
def State.sharedObj (s : State) (h : Nat) : Except Fault SharedPtr :=
  match s.sharedAt h with
  | some x => .ok x
  | none => .error .deadObject

/-- Access to a `WeakPtr` object. -/
def State.weakObj (s : State) (h : Nat) : Except Fault WeakPtr :=
  match s.weakAt h with
  | some x => .ok x
  | none => .error .deadObject

/-- Write to the control block at address `b`. -/
def State.setBlock (s : State) (b : Nat) (blk : BlockBase) : State :=
  { s with blocks := s.blocks.set b (some blk) }

/-- Write to the members of `SharedPtr` object `h`. -/
def State.setShared (s : State) (h : Nat) (x : SharedPtr) : State :=
  { s with shared := s.shared.set h (some x) }

/-- Write to the members of `WeakPtr` object `h`. -/
def State.setWeak (s : State) (h : Nat) (x : WeakPtr) : State :=
  { s with weak := s.weak.set h (some x) }

/-- A new `SharedPtr` object with the given members; it gets the index
`s.shared.length`. -/
def State.newShared (s : State) (x : SharedPtr) : State :=
  { s with shared := s.shared ++ [some x] }

/-- A new `WeakPtr` object with the given members; it gets the index
`s.weak.length`. -/
def State.newWeak (s : State) (x : WeakPtr) : State :=
  { s with weak := s.weak ++ [some x] }

/-- End of the lifetime of `SharedPtr` object `h`. -/
def State.endShared (s : State) (h : Nat) : State :=
  { s with shared := s.shared.set h none }

/-- End of the lifetime of `WeakPtr` object `h`. -/
def State.endWeak (s : State) (h : Nat) : State :=
  { s with weak := s.weak.set h none }

/-- The expression `new Block<T>(...)` or `new BlockHolder<T>(...)`: a fresh block at
address `s.blocks.length`, built by `BlockBase()` with
`shared_ref_counter_ = 1` and `weak_ref_counter_ = 0`. -/
def State.newBlock (s : State) (impl : BlockImpl) : State :=
  { s with blocks := s.blocks ++ [some ⟨1, 0, impl⟩] }

/-- The block a table entry points to: `block_` of a live handle. -/
def owner (h : Option Handle) : Option Nat := h.bind Handle.block_

/-- Number of live handles of a table whose `block_` is the block at `b`. -/
def refs (l : List (Option Handle)) (b : Nat) : Nat :=
  l.countP (fun h => decide (owner h = some b))

/-! ## Control blocks -/

/-- The virtual function `BlockBase::Clear`.  `Block<T>::Clear` is
`delete ptr_; ptr_ = nullptr;` (deleting a null pointer runs no destructor);
`BlockHolder<T>::Clear` runs `~T()` on the embedded storage. -/
def BlockBase.Clear (s : State) (b : Nat) : Except Fault State := do
  let blk ← s.block b
  match blk.impl with
  | .Block p =>
    let log := if p = .null then s.dtor_log else s.dtor_log ++ [p]
    pure ({ s with dtor_log := log }.setBlock b { blk with impl := .Block .null })
  | .BlockHolder =>
    pure { s with dtor_log := s.dtor_log ++ [.storage b] }

/-- The expression `delete block_`: the virtual destructor (`~Block` and `~BlockHolder`
both call `Clear()`), then the deallocation of the block. -/
def deleteBlock (s : State) (b : Nat) : Except Fault State := do
  let s1 ← BlockBase.Clear s b
  pure { s1 with blocks := s1.blocks.set b none, free_log := s1.free_log ++ [b] }

/-! ## SharedPtr -/

/-- The private member `SharedPtr::Clear` (shared.h, lines 71-86). -/
def SharedPtr.Clear (s : State) (h : Nat) : Except Fault State := do
  let self ← s.sharedObj h
  let s1 ← match self.block_ with
    | none => pure s
    | some b => do
      let blk ← s.block b
      if blk.shared_ref_counter_ > 1 then
        let c ← intDec blk.shared_ref_counter_
        pure (s.setBlock b { blk with shared_ref_counter_ := c })
      else if blk.weak_ref_counter_ < 1 then
        deleteBlock s b
      else
        let s2 ← BlockBase.Clear s b
        let blk2 ← s2.block b
        let c ← intDec blk2.shared_ref_counter_
        pure (s2.setBlock b { blk2 with shared_ref_counter_ := c })
  pure (s1.setShared h ⟨.null, none⟩)

/-- The private member `SharedPtr::IncreaseRefCounter` (shared.h, lines 88-92). -/
def SharedPtr.IncreaseRefCounter (s : State) (h : Nat) : Except Fault State := do
  let self ← s.sharedObj h
  match self.block_ with
  | none => pure s
  | some b => do
    let blk ← s.block b
    let c ← intInc blk.shared_ref_counter_
    pure (s.setBlock b { blk with shared_ref_counter_ := c })

/-- The constructors `SharedPtr()` and `SharedPtr(std::nullptr_t)`. -/
def SharedPtr.default (s : State) : Except Fault State :=
  pure (s.newShared ⟨.null, none⟩)

/-- The constructor `SharedPtr(U* ptr)`: `ptr_(ptr), block_(new Block<U>(ptr))`. -/
def SharedPtr.fromRaw (s : State) (ptr : RawPtr) : Except Fault State :=
  pure ((s.newBlock (.Block ptr)).newShared ⟨ptr, some s.blocks.length⟩)

/-- The copy constructor `SharedPtr(const SharedPtr& other)`. -/
def SharedPtr.copy (s : State) (o : Nat) : Except Fault State := do
  let other ← s.sharedObj o
  SharedPtr.IncreaseRefCounter (s.newShared ⟨other.ptr_, other.block_⟩) s.shared.length

/-- The move constructor `SharedPtr(SharedPtr&& other)`: the members are
copied (`std::move` of a raw pointer copies it), the counter is increased and
`other.Clear()` is called. -/
def SharedPtr.move (s : State) (o : Nat) : Except Fault State := do
  let other ← s.sharedObj o
  let s1 ← SharedPtr.IncreaseRefCounter (s.newShared ⟨other.ptr_, other.block_⟩) s.shared.length
  SharedPtr.Clear s1 o

/-- The aliasing constructor `SharedPtr(const SharedPtr<Y>& other, T* ptr)`. -/
def SharedPtr.alias (s : State) (o : Nat) (ptr : RawPtr) : Except Fault State := do
  let other ← s.sharedObj o
  SharedPtr.IncreaseRefCounter (s.newShared ⟨ptr, other.block_⟩) s.shared.length

/-- The constructor `explicit SharedPtr(const WeakPtr<T>& other)`
(shared.h, lines 138-143).  When it throws, no object comes into being. -/
def SharedPtr.fromWeak (s : State) (w : Nat) : Except Fault State := do
  let other ← s.weakObj w
  match other.block_ with
  | none => throw .BadWeakPtr
  | some _ =>
    SharedPtr.IncreaseRefCounter (s.newShared ⟨other.ptr_, other.block_⟩) s.shared.length

/-- The destructor `~SharedPtr()`: `Clear()`, then the lifetime of the object ends. -/
def SharedPtr.dtor (s : State) (h : Nat) : Except Fault State := do
  let s1 ← SharedPtr.Clear s h
  pure (s1.endShared h)

/-- Copy assignment `operator=(const SharedPtr& other)` (shared.h, lines
149-155).  `other` is a reference: its members are read after `Clear()`. -/
def SharedPtr.copyAssign (s : State) (h o : Nat) : Except Fault State := do
  let s1 ← SharedPtr.Clear s h
  let other ← s1.sharedObj o
  SharedPtr.IncreaseRefCounter (s1.setShared h ⟨other.ptr_, other.block_⟩) h

/-- Move assignment `operator=(SharedPtr&& other)` (shared.h, lines 157-163).
`other` is a reference: its members are read after `Clear()`, and it is not
written to. -/
def SharedPtr.moveAssign (s : State) (h o : Nat) : Except Fault State := do
  let s1 ← SharedPtr.Clear s h
  let other ← s1.sharedObj o
  SharedPtr.IncreaseRefCounter (s1.setShared h ⟨other.ptr_, other.block_⟩) h

/-- The member `Get`. -/
def SharedPtr.Get (self : SharedPtr) : RawPtr := self.ptr_

/-- The member `Reset(T* ptr = nullptr)` (shared.h, lines 165-173). -/
def SharedPtr.Reset (s : State) (h : Nat) (ptr : RawPtr) : Except Fault State := do
  let self ← s.sharedObj h
  if ptr ≠ SharedPtr.Get self then
    let s1 ← SharedPtr.Clear s h
    if ptr ≠ .null then
      pure ((s1.newBlock (.Block ptr)).setShared h ⟨ptr, some s1.blocks.length⟩)
    else
      pure s1
  else
    pure s

/-- The member `Swap`: `std::swap` of both members. -/
def SharedPtr.Swap (s : State) (h o : Nat) : Except Fault State := do
  let self ← s.sharedObj h
  let other ← s.sharedObj o
  pure ((s.setShared h ⟨other.ptr_, other.block_⟩).setShared o ⟨self.ptr_, self.block_⟩)

/-- The member `UseCount`: the strong counter converted to `size_t`, or `0`
without a block. -/
def SharedPtr.UseCount (s : State) (self : SharedPtr) : Except Fault Nat :=
  match self.block_ with
  | some b => do
    let blk ← s.block b
    pure (toSizeT blk.shared_ref_counter_)
  | none => pure 0

/-- The function `MakeShared<T>(args...)` (shared.h, lines 220-227): a local
`sp`, a new `BlockHolder`, the two member writes, and `return sp`, which is
modelled without copy elision: the result (object `s.shared.length + 1`) is
move-constructed from `sp` and `sp` is destroyed. -/
def MakeShared (s : State) : Except Fault State := do
  let sp := s.shared.length
  let s1 ← SharedPtr.default s
  let block := s1.blocks.length
  let s2 := s1.newBlock .BlockHolder
  let s3 := s2.setShared sp ⟨.storage block, some block⟩
  let s4 ← SharedPtr.move s3 sp
  SharedPtr.dtor s4 sp

/-! ## WeakPtr -/

/-- The private member `WeakPtr::Clear` (weak.h, lines 15-27). -/
def WeakPtr.Clear (s : State) (h : Nat) : Except Fault State := do
  let self ← s.weakObj h
  let s1 ← match self.block_ with
    | none => pure s
    | some b => do
      let blk ← s.block b
      if blk.weak_ref_counter_ > 1 then
        let c ← intDec blk.weak_ref_counter_
        pure (s.setBlock b { blk with weak_ref_counter_ := c })
      else if blk.shared_ref_counter_ < 1 then
        deleteBlock s b
      else
        let c ← intDec blk.weak_ref_counter_
        pure (s.setBlock b { blk with weak_ref_counter_ := c })
  pure (s1.setWeak h ⟨.null, none⟩)

/-- The private member `WeakPtr::IncreaseRefCounter` (weak.h, lines 29-33). -/
def WeakPtr.IncreaseRefCounter (s : State) (h : Nat) : Except Fault State := do
  let self ← s.weakObj h
  match self.block_ with
  | none => pure s
  | some b => do
    let blk ← s.block b
    let c ← intInc blk.weak_ref_counter_
    pure (s.setBlock b { blk with weak_ref_counter_ := c })

/-- The constructor `WeakPtr()`. -/
def WeakPtr.default (s : State) : Except Fault State :=
  pure (s.newWeak ⟨.null, none⟩)

/-- The copy constructor `WeakPtr(const WeakPtr& other)`. -/
def WeakPtr.copy (s : State) (o : Nat) : Except Fault State := do
  let other ← s.weakObj o
  WeakPtr.IncreaseRefCounter (s.newWeak ⟨other.ptr_, other.block_⟩) s.weak.length

/-- The move constructor `WeakPtr(WeakPtr&& other)`. -/
def WeakPtr.move (s : State) (o : Nat) : Except Fault State := do
  let other ← s.weakObj o
  let s1 ← WeakPtr.IncreaseRefCounter (s.newWeak ⟨other.ptr_, other.block_⟩) s.weak.length
  WeakPtr.Clear s1 o

/-- The constructor `WeakPtr(const SharedPtr<T>& other)`. -/
def WeakPtr.fromShared (s : State) (o : Nat) : Except Fault State := do
  let other ← s.sharedObj o
  WeakPtr.IncreaseRefCounter (s.newWeak ⟨other.ptr_, other.block_⟩) s.weak.length

/-- Copy assignment `operator=(const WeakPtr& other)` (weak.h, lines 55-61). -/
def WeakPtr.copyAssign (s : State) (h o : Nat) : Except Fault State := do
  let s1 ← WeakPtr.Clear s h
  let other ← s1.weakObj o
  WeakPtr.IncreaseRefCounter (s1.setWeak h ⟨other.ptr_, other.block_⟩) h

/-- Move assignment `operator=(WeakPtr&& other)` (weak.h, lines 63-74):
`Clear()`, then each member is copied from `other` and set to null in
`other`, then `IncreaseRefCounter()`. -/
def WeakPtr.moveAssign (s : State) (h o : Nat) : Except Fault State := do
  let s1 ← WeakPtr.Clear s h
  -- ptr_ = std::move(other.ptr_); other.ptr_ = nullptr;
  let other ← s1.weakObj o
  let self ← s1.weakObj h
  let s2 := s1.setWeak h ⟨other.ptr_, self.block_⟩
  let other2 ← s2.weakObj o
  let s3 := s2.setWeak o ⟨.null, other2.block_⟩
  -- block_ = std::move(other.block_); other.block_ = nullptr;
  let other3 ← s3.weakObj o
  let self3 ← s3.weakObj h
  let s4 := s3.setWeak h ⟨self3.ptr_, other3.block_⟩
  let other4 ← s4.weakObj o
  let s5 := s4.setWeak o ⟨other4.ptr_, none⟩
  WeakPtr.IncreaseRefCounter s5 h

/-- The destructor `~WeakPtr()`. -/
def WeakPtr.dtor (s : State) (h : Nat) : Except Fault State := do
  let s1 ← WeakPtr.Clear s h
  pure (s1.endWeak h)

/-- The member `WeakPtr::Reset`. -/
def WeakPtr.Reset (s : State) (h : Nat) : Except Fault State :=
  WeakPtr.Clear s h

/-- The member `WeakPtr::Swap`. -/
def WeakPtr.Swap (s : State) (h o : Nat) : Except Fault State := do
  let self ← s.weakObj h
  let other ← s.weakObj o
  pure ((s.setWeak h ⟨other.ptr_, other.block_⟩).setWeak o ⟨self.ptr_, self.block_⟩)

/-- The member `WeakPtr::UseCount`: the strong counter of the block. -/
def WeakPtr.UseCount (s : State) (self : WeakPtr) : Except Fault Nat :=
  match self.block_ with
  | some b => do
    let blk ← s.block b
    pure (toSizeT blk.shared_ref_counter_)
  | none => pure 0

/-- The member `WeakPtr::Expired`: `UseCount() == 0`. -/
def WeakPtr.Expired (s : State) (self : WeakPtr) : Except Fault Bool := do
  let n ← WeakPtr.UseCount s self
  pure (n == 0)

/-- The member `WeakPtr::Lock` (weak.h, lines 100-105); the result is the new
`SharedPtr` object `s.shared.length`. -/
def WeakPtr.Lock (s : State) (w : Nat) : Except Fault State := do
  let self ← s.weakObj w
  if (← WeakPtr.Expired s self) then
    SharedPtr.default s
  else
    SharedPtr.fromWeak s w

/-! ## Programs -/

/-- The operations a program can perform on its handles. -/
inductive Op where
  | sharedDefault
  | sharedFromRaw (ptr : RawPtr)
  | makeShared
  | sharedCopy (o : Nat)
  | sharedMove (o : Nat)
  | sharedAlias (o : Nat) (ptr : RawPtr)
  | sharedFromWeak (w : Nat)
  | sharedDtor (h : Nat)
  | sharedCopyAssign (h o : Nat)
  | sharedMoveAssign (h o : Nat)
  | sharedReset (h : Nat) (ptr : RawPtr)
  | sharedSwap (h o : Nat)
  | weakDefault
  | weakCopy (o : Nat)
  | weakMove (o : Nat)
  | weakFromShared (o : Nat)
  | weakCopyAssign (h o : Nat)
  | weakMoveAssign (h o : Nat)
  | weakDtor (h : Nat)
  | weakReset (h : Nat)
  | weakSwap (h o : Nat)
  | weakLock (w : Nat)
  deriving DecidableEq, Repr

/-- One operation of the program. -/
def step (s : State) : Op → Except Fault State
  | .sharedDefault => SharedPtr.default s
  | .sharedFromRaw ptr => SharedPtr.fromRaw s ptr
  | .makeShared => MakeShared s
  | .sharedCopy o => SharedPtr.copy s o
  | .sharedMove o => SharedPtr.move s o
  | .sharedAlias o ptr => SharedPtr.alias s o ptr
  | .sharedFromWeak w => SharedPtr.fromWeak s w
  | .sharedDtor h => SharedPtr.dtor s h
  | .sharedCopyAssign h o => SharedPtr.copyAssign s h o
  | .sharedMoveAssign h o => SharedPtr.moveAssign s h o
  | .sharedReset h ptr => SharedPtr.Reset s h ptr
  | .sharedSwap h o => SharedPtr.Swap s h o
  | .weakDefault => WeakPtr.default s
  | .weakCopy o => WeakPtr.copy s o
  | .weakMove o => WeakPtr.move s o
  | .weakFromShared o => WeakPtr.fromShared s o
  | .weakCopyAssign h o => WeakPtr.copyAssign s h o
  | .weakMoveAssign h o => WeakPtr.moveAssign s h o
  | .weakDtor h => WeakPtr.dtor s h
  | .weakReset h => WeakPtr.Reset s h
  | .weakSwap h o => WeakPtr.Swap s h o
  | .weakLock w => WeakPtr.Lock s w

/-- A sequence of operations, stopping at the first one that does not
complete. -/
def run (s : State) : List Op → Except Fault State
  | [] => .ok s
  | op :: ops => do
    let s1 ← step s op
    run s1 ops

/-- The states a program can be in: those reached from the initial state by
operations that completed. -/
inductive Reachable : State → Prop where
  | init : Reachable State.init
  | step (s s1 : State) (op : Op) : Reachable s → step s op = .ok s1 → Reachable s1

/-! ## Release operations -/

/-- The handle object a release operation acts on: `.inl h` for the
`SharedPtr` object `h`, `.inr h` for the `WeakPtr` object `h`; `none` for the
operations that are not a destruction or a `Reset`. -/
def Op.target : Op → Option (Nat ⊕ Nat)
  | .sharedDtor h => some (.inl h)
  | .sharedReset h _ => some (.inl h)
  | .weakDtor h => some (.inr h)
  | .weakReset h => some (.inr h)
  | _ => none

/-- Whether `op` releases, in state `s`, a live handle whose `block_` is `b`:
the destruction of such a `SharedPtr` or `WeakPtr`, `WeakPtr::Reset` on it, or
`SharedPtr::Reset(ptr)` on it with `ptr != Get()`. -/
def releases (s : State) (b : Nat) : Op → Bool
  | .sharedDtor h =>
    match s.sharedAt h with
    | some x => decide (x.block_ = some b)
    | none => false
  | .sharedReset h ptr =>
    match s.sharedAt h with
    | some x => decide (x.block_ = some b) && decide (ptr ≠ SharedPtr.Get x)
    | none => false
  | .weakDtor h =>
    match s.weakAt h with
    | some x => decide (x.block_ = some b)
    | none => false
  | .weakReset h =>
    match s.weakAt h with
    | some x => decide (x.block_ = some b)
    | none => false
  | _ => false

/-! ## Auxiliary definitions for the proofs -/

/-- The state after `BlockBase::Clear` on the live block `blk` at `b`. -/
def cleared (s : State) (b : Nat) (blk : BlockBase) : State :=
  match blk.impl with
  | .Block p =>
    { s with dtor_log := if p = RawPtr.null then s.dtor_log else s.dtor_log ++ [p] }.setBlock b
      { blk with impl := .Block .null }
  | .BlockHolder => { s with dtor_log := s.dtor_log ++ [RawPtr.storage b] }

/-- The block `blk` after `BlockBase::Clear`. -/
def BlockBase.afterClear (blk : BlockBase) : BlockBase :=
  match blk.impl with
  | .Block _ => { blk with impl := .Block .null }
  | .BlockHolder => blk

/-- The state after `delete block_` on the live block `blk` at `b`. -/
def deleted (s : State) (b : Nat) (blk : BlockBase) : State :=
  { cleared s b blk with
    blocks := (cleared s b blk).blocks.set b none,
    free_log := (cleared s b blk).free_log ++ [b] }

/-- The counters of block `b` agree with the handles of the state: a live
block has a strong counter equal to the number of live `SharedPtr` objects
pointing to it, a weak counter at least the number of live `WeakPtr` objects
pointing to it, and both within the range of `int`; a block that is not live
has no handle pointing to it. -/
def Good (s : State) (b : Nat) : Prop :=
  (∀ blk, s.blockAt b = some blk →
      blk.shared_ref_counter_ = (refs s.shared b : Int) ∧
      (refs s.weak b : Int) ≤ blk.weak_ref_counter_ ∧
      blk.shared_ref_counter_ ≤ INT_MAX ∧ blk.weak_ref_counter_ ≤ INT_MAX) ∧
  (s.blockAt b = none → refs s.shared b = 0 ∧ refs s.weak b = 0)

/-- The invariant of the program state: every block address is `Good`. -/
def Inv (s : State) : Prop := ∀ b, Good s b

/-! ## Example states -/

/-- The state after `SharedPtr a(p); SharedPtr b(a); SharedPtr c(b);` and the
destruction of `c`. -/
def C1_state : State :=
  ⟨[some ⟨2, 0, .Block (.obj 7)⟩],
    [some ⟨.obj 7, some 0⟩, some ⟨.obj 7, some 0⟩, none], [], [], []⟩

/-- The state after `SharedPtr a(p); WeakPtr w(a);` and the destruction of `a`. -/
def C6_state : State :=
  ⟨[some ⟨0, 1, .Block .null⟩], [none], [some ⟨.obj 7, some 0⟩], [.obj 7], []⟩

/-- The state after `SharedPtr a(p); SharedPtr b(a);`. -/
def C8_state : State :=
  ⟨[some ⟨2, 0, .Block (.obj 7)⟩], [some ⟨.obj 7, some 0⟩, some ⟨.obj 7, some 0⟩], [], [], []⟩

/-- The state after `SharedPtr a(p); WeakPtr w(a);`. -/
def C5_state : State :=
  ⟨[some ⟨1, 1, .Block (.obj 7)⟩], [some ⟨.obj 7, some 0⟩], [some ⟨.obj 7, some 0⟩], [], []⟩

/-- The effect on block `b` of releasing one of its handles, from state `s`
to state `s1`, when the counters of `b` agree with the handles: one handle
less, and either the block is deallocated (no handle is left) or it is kept
with counters that agree with the remaining handles. -/
def ReleasedOne (s s1 : State) (b : Nat) : Prop :=
  refs s1.shared b + refs s1.weak b + 1 = refs s.shared b + refs s.weak b ∧
  ((s1.blockAt b = none ∧ s1.free_log = s.free_log ++ [b] ∧
      refs s1.shared b + refs s1.weak b = 0) ∨
   (s1.free_log = s.free_log ∧ 1 ≤ refs s1.shared b + refs s1.weak b ∧
      ∃ blk1, s1.blockAt b = some blk1 ∧
        blk1.shared_ref_counter_ = (refs s1.shared b : Int) ∧
        blk1.weak_ref_counter_ = (refs s1.weak b : Int)))

/-- The state after `SharedPtr a(p); SharedPtr b(a); WeakPtr w(a);`. -/
def release_example_state : State :=
  ⟨[some ⟨2, 1, .Block (.obj 7)⟩], [some ⟨.obj 7, some 0⟩, some ⟨.obj 7, some 0⟩],
    [some ⟨.obj 7, some 0⟩], [], []⟩

/-- The state after `SharedPtr a(p); SharedPtr h(a, nullptr);` (aliasing
constructor with a null raw pointer). -/
def C19_state : State :=
  ⟨[some ⟨2, 0, .Block (.obj 7)⟩], [some ⟨.obj 7, some 0⟩, some ⟨.null, some 0⟩], [], [], []⟩

/-! ## Strong ownership as seen from outside -/

/-- The resource destructors that `BlockBase::Clear` runs on a block at
address `b` with the given implementation. -/
def dtorRuns (b : Nat) : BlockImpl → List RawPtr
  | .Block p => if p = RawPtr.null then [] else [p]
  | .BlockHolder => [RawPtr.storage b]

/-- What concerns strong ownership in the block at `b`: whether it is
allocated, its strong counter and the state of its resource. -/
def strongView (s : State) (b : Nat) : Option (Int × BlockImpl) :=
  (s.blockAt b).map (fun blk => (blk.shared_ref_counter_, blk.impl))

/-- The operations of `WeakPtr` other than `Lock`. -/
def Op.weakNotLock : Op → Bool
  | .weakDefault => true
  | .weakCopy _ => true
  | .weakMove _ => true
  | .weakFromShared _ => true
  | .weakCopyAssign _ _ => true
  | .weakMoveAssign _ _ => true
  | .weakDtor _ => true
  | .weakReset _ => true
  | .weakSwap _ _ => true
  | _ => false

/-- Nothing that concerns strong ownership differs between `s` and `s2`. -/
def Quiet (s s2 : State) : Prop :=
  s2.shared = s.shared ∧ s2.dtor_log = s.dtor_log ∧ s2.free_log = s.free_log ∧
  ∀ c, strongView s2 c = strongView s c

/-- Between `s` and `s2` either nothing that concerns strong ownership has
changed, or exactly one block, whose strong counter was below 1, has been
deallocated (the destructor of a block runs `Clear()`), all other blocks
keeping their strong counter and their resource. -/
def StrongFrame (s s2 : State) : Prop :=
  Quiet s s2 ∨
  (s2.shared = s.shared ∧
    ∃ b c i, strongView s b = some (c, i) ∧ c < 1 ∧ strongView s2 b = none ∧
      (∀ d, d ≠ b → strongView s2 d = strongView s d) ∧
      s2.dtor_log = s.dtor_log ++ dtorRuns b i ∧ s2.free_log = s.free_log ++ [b])

/-! ## UniquePtr

A shallow embedding of `src/unique_ptr/unique.h` over
`src/unique_ptr/compressed_pair.h`.  The primary template `UniquePtr<T, Deleter>`
and the specialisation `UniquePtr<T[], Deleter>` have the same constructors,
assignment operators, `Release`, `Reset`, `Swap` and destructor, and are
covered by the same definitions. -/

/-- A release action: the value of the `Deleter` object of a `UniquePtr`,
identified by a number. -/
abbrev Deleter := Nat

/-- The class `CompressedPair<F, S>`: the values held by its two
`CompressedPairElement` bases. -/
structure CompressedPair (F S : Type) where
  first : F
  second : S
  deriving DecidableEq, Repr

/-- The member `CompressedPair::GetFirst`. -/
def CompressedPair.GetFirst {F S : Type} (p : CompressedPair F S) : F := p.first

/-- The member `CompressedPair::GetSecond`. -/
def CompressedPair.GetSecond {F S : Type} (p : CompressedPair F S) : S := p.second

/-- The class `UniquePtr`: its member `CompressedPair<T*, Deleter> ptr_pair_`. -/
structure UniquePtr where
  ptr_pair_ : CompressedPair RawPtr Deleter
  deriving DecidableEq, Repr

/-- State of a program over `UniquePtr` objects. -/
structure UState where
  /-- The `UniquePtr` objects; `none` marks an object whose lifetime ended. -/
  unique : List (Option UniquePtr)
  /-- Invocations of release actions, oldest first: which action was invoked
  and on which pointer. -/
  calls : List (Deleter × RawPtr)
  deriving DecidableEq, Repr

/-- The live `UniquePtr` object number `u`, if any. -/
def UState.uniqueAt (s : UState) (u : Nat) : Option UniquePtr := slot s.unique u

/-- Access to a `UniquePtr` object. -/
def UState.uniqueObj (s : UState) (u : Nat) : Except Fault UniquePtr :=
  match s.uniqueAt u with
  | some x => .ok x
  | none => .error .deadObject

/-- Write to the member of `UniquePtr` object `u`. -/
def UState.setUnique (s : UState) (u : Nat) (x : UniquePtr) : UState :=
  { s with unique := s.unique.set u (some x) }

/-- A new `UniquePtr` object; it gets the index `s.unique.length`. -/
def UState.newUnique (s : UState) (x : UniquePtr) : UState :=
  { s with unique := s.unique ++ [some x] }

/-- End of the lifetime of `UniquePtr` object `u`. -/
def UState.endUnique (s : UState) (u : Nat) : UState :=
  { s with unique := s.unique.set u none }

/-- The member `UniquePtr::Get`: `ptr_pair_.GetFirst()`. -/
def UniquePtr.Get (self : UniquePtr) : RawPtr := self.ptr_pair_.GetFirst

/-- The member `UniquePtr::GetDeleter`: `ptr_pair_.GetSecond()`. -/
def UniquePtr.GetDeleter (self : UniquePtr) : Deleter := self.ptr_pair_.GetSecond

/-- The constructors `UniquePtr(T* ptr = nullptr)`, where `deleter` is the
value-initialised `Deleter{}`, and `UniquePtr(T* ptr, D&& deleter)`:
`ptr_pair_(ptr, deleter)`. -/
def UniquePtr.ctor (s : UState) (ptr : RawPtr) (deleter : Deleter) : Except Fault UState :=
  pure (s.newUnique ⟨⟨ptr, deleter⟩⟩)

/-- The move constructor `UniquePtr(UniquePtr&& other)` (unique.h, lines
30-35); `dflt` is the value of the default-constructed deleter that
`ptr_pair_` holds before the assignments of the body. -/
def UniquePtr.move (s : UState) (o : Nat) (dflt : Deleter) : Except Fault UState := do
  let u := s.unique.length
  let s0 := s.newUnique ⟨⟨.null, dflt⟩⟩
  -- ptr_pair_.GetFirst() = other.ptr_pair_.GetFirst();
  let other ← s0.uniqueObj o
  let self ← s0.uniqueObj u
  let s1 := s0.setUnique u ⟨{ self.ptr_pair_ with first := other.ptr_pair_.GetFirst }⟩
  -- other.ptr_pair_.GetFirst() = nullptr;
  let other1 ← s1.uniqueObj o
  let s2 := s1.setUnique o ⟨{ other1.ptr_pair_ with first := .null }⟩
  -- ptr_pair_.GetSecond() = std::forward<Deleter>(other.ptr_pair_.GetSecond());
  let other2 ← s2.uniqueObj o
  let self2 ← s2.uniqueObj u
  pure (s2.setUnique u ⟨{ self2.ptr_pair_ with second := other2.ptr_pair_.GetSecond }⟩)

/-- The member `UniquePtr::Release` (unique.h, lines 70-74): returns the
pointer and the new state. -/
def UniquePtr.Release (s : UState) (u : Nat) : Except Fault (RawPtr × UState) := do
  let self ← s.uniqueObj u
  let temp := UniquePtr.Get self
  pure (temp, s.setUnique u ⟨{ self.ptr_pair_ with first := .null }⟩)

/-- The member `UniquePtr::Reset(T* ptr = nullptr)` (unique.h, lines 76-82):
when `ptr != Get()`, the pointer is stored and the release action is invoked
on the previous pointer. -/
def UniquePtr.Reset (s : UState) (u : Nat) (ptr : RawPtr) : Except Fault UState := do
  let self ← s.uniqueObj u
  if ptr ≠ UniquePtr.Get self then
    let temp := UniquePtr.Get self
    let s1 := s.setUnique u ⟨{ self.ptr_pair_ with first := ptr }⟩
    let self1 ← s1.uniqueObj u
    -- ptr_pair_.GetSecond()(temp);
    pure { s1 with calls := s1.calls ++ [(self1.ptr_pair_.GetSecond, temp)] }
  else
    pure s

/-- Move assignment `operator=(UniquePtr&& other)` (unique.h, lines 48-52):
`Reset(other.Release())`, then the release action of `other` is assigned. -/
def UniquePtr.moveAssign (s : UState) (u o : Nat) : Except Fault UState := do
  let (p, s1) ← UniquePtr.Release s o
  let s2 ← UniquePtr.Reset s1 u p
  let other ← s2.uniqueObj o
  let self ← s2.uniqueObj u
  pure (s2.setUnique u ⟨{ self.ptr_pair_ with second := other.ptr_pair_.GetSecond }⟩)

/-- The assignment `operator=(std::nullptr_t)`: `Reset()`. -/
def UniquePtr.assignNull (s : UState) (u : Nat) : Except Fault UState :=
  UniquePtr.Reset s u .null

/-- The destructor `~UniquePtr()`: `Reset()`, then the lifetime of the object
ends. -/
def UniquePtr.dtor (s : UState) (u : Nat) : Except Fault UState := do
  let s1 ← UniquePtr.Reset s u .null
  pure (s1.endUnique u)

/-- The member `UniquePtr::Swap`: `std::swap` of the two pointers; the release
actions stay. -/
def UniquePtr.Swap (s : UState) (u o : Nat) : Except Fault UState := do
  let self ← s.uniqueObj u
  let other ← s.uniqueObj o
  let s1 := s.setUnique u ⟨{ self.ptr_pair_ with first := other.ptr_pair_.GetFirst }⟩
  let other1 ← s1.uniqueObj o
  pure (s1.setUnique o ⟨{ other1.ptr_pair_ with first := self.ptr_pair_.GetFirst }⟩)

/-- A `UniquePtr` object `a` that owns `q` with release action 1 and an object
`b` that owns `r` with release action 2. -/
def C14_state : UState :=
  ⟨[some ⟨⟨.obj 7, 1⟩⟩, some ⟨⟨.obj 9, 2⟩⟩], []⟩

/-- One `UniquePtr` object that owns `p` with the release action 1. -/
def C12_state : UState := ⟨[some ⟨⟨.obj 7, 1⟩⟩], []⟩

/-- One empty `UniquePtr` object with the release action 1. -/
def C18_state : UState := ⟨[some ⟨⟨.null, 1⟩⟩], []⟩

/-! ## Resources whose destructor releases handles

In `BlockBase.Clear` above the destructor `~T()` of the resource is only
recorded.  A resource can have handles among its members (a node that holds a
`WeakPtr` to itself); their destructors then run inside `~T()`, that is inside
`delete ptr_` of `Block<T>::Clear` or inside `~T()` of `BlockHolder<T>::Clear`.
The definitions below repeat `BlockBase::Clear`, `delete block_`,
`SharedPtr::Clear` and `~SharedPtr` with the destructor of the resource type
as a parameter. -/

/-- The destructor `~T()` of the resource type: what it does to the program
state after it has been recorded in `dtor_log`, as a function of the address
of the resource (for example the destruction of the handles that are members
of the resource). -/
abbrev ResourceDtor := RawPtr → State → Except Fault State

/-- The destructor of a resource type without handles among its members. -/
def ResourceDtor.plain : ResourceDtor := fun _ s => pure s

/-- The virtual function `BlockBase::Clear` for a resource type with the
destructor `dtorT`.  `Block<T>::Clear` is `delete ptr_; ptr_ = nullptr;`, where
`delete` of a non-null pointer runs `~T()`; `BlockHolder<T>::Clear` runs `~T()`
on the embedded storage. -/
def BlockBase.ClearWith (dtorT : ResourceDtor) (s : State) (b : Nat) : Except Fault State := do
  let blk ← s.block b
  match blk.impl with
  | .Block p =>
    -- delete ptr_;
    let s1 ← if p = .null then pure s else dtorT p { s with dtor_log := s.dtor_log ++ [p] }
    -- ptr_ = nullptr;
    let blk1 ← s1.block b
    pure (s1.setBlock b { blk1 with impl := .Block .null })
  | .BlockHolder =>
    dtorT (.storage b) { s with dtor_log := s.dtor_log ++ [.storage b] }

/-- The expression `delete block_` for a resource type with the destructor
`dtorT`: the virtual destructor calls `Clear()`, then the block is
deallocated. -/
def deleteBlockWith (dtorT : ResourceDtor) (s : State) (b : Nat) : Except Fault State := do
  let s1 ← BlockBase.ClearWith dtorT s b
  pure { s1 with blocks := s1.blocks.set b none, free_log := s1.free_log ++ [b] }

/-- The private member `SharedPtr::Clear` (shared.h, lines 71-86) for a
resource type with the destructor `dtorT`. -/
def SharedPtr.ClearWith (dtorT : ResourceDtor) (s : State) (h : Nat) : Except Fault State := do
  let self ← s.sharedObj h
  let s1 ← match self.block_ with
    | none => pure s
    | some b => do
      let blk ← s.block b
      if blk.shared_ref_counter_ > 1 then
        let c ← intDec blk.shared_ref_counter_
        pure (s.setBlock b { blk with shared_ref_counter_ := c })
      else if blk.weak_ref_counter_ < 1 then
        deleteBlockWith dtorT s b
      else
        let s2 ← BlockBase.ClearWith dtorT s b
        let blk2 ← s2.block b
        let c ← intDec blk2.shared_ref_counter_
        pure (s2.setBlock b { blk2 with shared_ref_counter_ := c })
  pure (s1.setShared h ⟨.null, none⟩)

/-- The destructor `~SharedPtr()` for a resource type with the destructor
`dtorT`. -/
def SharedPtr.dtorWith (dtorT : ResourceDtor) (s : State) (h : Nat) : Except Fault State := do
  let s1 ← SharedPtr.ClearWith dtorT s h
  pure (s1.endShared h)

/-- The destructor of `struct Node { WeakPtr<Node> self; }` for the node at
address `obj 7`, whose member `self` is the `WeakPtr` object 0: the member is
destroyed. -/
def Node_dtor : ResourceDtor := fun p s =>
  if p = RawPtr.obj 7 then WeakPtr.dtor s 0 else pure s

/-- The state after `SharedPtr<Node> a(new Node); WeakPtr<Node> w(a); a->self = w;`
and the destruction of `w`: the member `self` of the node (the `WeakPtr`
object 0) observes the block of `a`. -/
def C4_node_state : State :=
  ⟨[some ⟨1, 1, .Block (.obj 7)⟩], [some ⟨.obj 7, some 0⟩],
    [some ⟨.obj 7, some 0⟩, none], [], []⟩

/-! ## Tables of objects -/

theorem slot_lt {α : Type} (l : List (Option α)) (i : Nat) (a : α) (h : slot l i = some a) :
    i < l.length := by
  by_contra hlt
  have : l[i]? = none := List.getElem?_eq_none (by omega)
  simp [slot, this] at h

theorem slot_set_some {α : Type} (l : List (Option α)) (i j : Nat) (v : α) (hi : i < l.length) :
    slot (l.set i (some v)) j = if j = i then some v else slot l j := by
  unfold slot
  by_cases hji : j = i
  · subst hji
    simp [List.getElem?_set, hi]
  · have : i ≠ j := fun h => hji h.symm
    simp [List.getElem?_set, hji, this]

theorem slot_set_none {α : Type} (l : List (Option α)) (i j : Nat) :
    slot (l.set i none) j = if j = i then none else slot l j := by
  unfold slot
  by_cases hji : j = i
  · subst hji
    by_cases hi : j < l.length
    · simp [List.getElem?_set, hi]
    · have : (l.set j none)[j]? = none := List.getElem?_eq_none (by simp; omega)
      simp [this]
  · have : i ≠ j := fun h => hji h.symm
    simp [List.getElem?_set, hji, this]

theorem slot_append {α : Type} (l : List (Option α)) (v : Option α) (j : Nat) :
    slot (l ++ [v]) j = if j = l.length then v else slot l j := by
  unfold slot
  by_cases hj : j < l.length
  · have hne : j ≠ l.length := by omega
    simp [List.getElem?_append_left hj, hne]
  · by_cases hje : j = l.length
    · subst hje
      cases v <;> simp
    · have h1 : (l ++ [v])[j]? = none := List.getElem?_eq_none (by simp; omega)
      have h2 : l[j]? = none := List.getElem?_eq_none (by omega)
      simp [h1, h2, hje]

theorem refs_append (l : List (Option Handle)) (v : Option Handle) (b : Nat) :
    refs (l ++ [v]) b = refs l b + (if owner v = some b then 1 else 0) := by
  unfold refs
  rw [List.countP_append]
  by_cases h : owner v = some b <;> simp [List.countP_cons, h]

theorem refs_set (l : List (Option Handle)) (i : Nat) (v : Option Handle) (b : Nat)
    (hi : i < l.length) :
    refs (l.set i v) b + (if owner (slot l i) = some b then 1 else 0)
      = refs l b + (if owner v = some b then 1 else 0) := by
  induction l generalizing i with
  | nil => simp at hi
  | cons x xs ih =>
    cases i with
    | zero =>
      have hs : owner (slot (x :: xs) 0) = owner x := by
        cases x <;> simp [slot]
      rw [hs]
      simp only [List.set_cons_zero, refs, List.countP_cons]
      by_cases h1 : owner x = some b <;> by_cases h2 : owner v = some b <;> simp [h1, h2]
    | succ n =>
      have hn : n < xs.length := by simpa using hi
      have hs : slot (x :: xs) (n + 1) = slot xs n := by simp [slot]
      rw [hs]
      have := ih n hn
      simp only [List.set_cons_succ, refs, List.countP_cons] at this ⊢
      omega

theorem refs_zero_of_slot (l : List (Option Handle)) (i b : Nat) (x : Handle)
    (h : slot l i = some x) (hb : x.block_ = some b) : 0 < refs l b := by
  unfold refs
  rw [List.countP_pos_iff]
  have hi := slot_lt l i x h
  refine ⟨l[i], List.getElem_mem _, ?_⟩
  have : l[i]? = some l[i] := List.getElem?_eq_getElem hi
  unfold slot at h
  rw [this] at h
  cases hx : l[i] with
  | none => simp [hx] at h
  | some y =>
    simp [hx] at h
    subst h
    simp [owner, hb]

/-! ## Reading the state after a write -/

theorem blockAt_setBlock (s : State) (b c : Nat) (old blk : BlockBase)
    (h : s.blockAt b = some old) :
    (s.setBlock b blk).blockAt c = if c = b then some blk else s.blockAt c :=
  slot_set_some s.blocks b c blk (slot_lt _ _ _ h)

theorem blockAt_newBlock (s : State) (impl : BlockImpl) (c : Nat) :
    (s.newBlock impl).blockAt c
      = if c = s.blocks.length then some ⟨1, 0, impl⟩ else s.blockAt c :=
  slot_append s.blocks _ c

theorem sharedAt_setShared (s : State) (h j : Nat) (old x : SharedPtr)
    (hh : s.sharedAt h = some old) :
    (s.setShared h x).sharedAt j = if j = h then some x else s.sharedAt j :=
  slot_set_some s.shared h j x (slot_lt _ _ _ hh)

theorem sharedAt_newShared (s : State) (x : SharedPtr) (j : Nat) :
    (s.newShared x).sharedAt j = if j = s.shared.length then some x else s.sharedAt j :=
  slot_append s.shared _ j

theorem sharedAt_endShared (s : State) (h j : Nat) :
    (s.endShared h).sharedAt j = if j = h then none else s.sharedAt j :=
  slot_set_none s.shared h j

theorem weakAt_setWeak (s : State) (h j : Nat) (old x : WeakPtr)
    (hh : s.weakAt h = some old) :
    (s.setWeak h x).weakAt j = if j = h then some x else s.weakAt j :=
  slot_set_some s.weak h j x (slot_lt _ _ _ hh)

theorem weakAt_newWeak (s : State) (x : WeakPtr) (j : Nat) :
    (s.newWeak x).weakAt j = if j = s.weak.length then some x else s.weakAt j :=
  slot_append s.weak _ j

theorem weakAt_endWeak (s : State) (h j : Nat) :
    (s.endWeak h).weakAt j = if j = h then none else s.weakAt j :=
  slot_set_none s.weak h j

theorem block_of_blockAt (s : State) (b : Nat) (blk : BlockBase) (h : s.blockAt b = some blk) :
    s.block b = .ok blk := by
  simp [State.block, h]

theorem sharedObj_of_sharedAt (s : State) (h : Nat) (x : SharedPtr)
    (hx : s.sharedAt h = some x) : s.sharedObj h = .ok x := by
  simp [State.sharedObj, hx]

theorem weakObj_of_weakAt (s : State) (h : Nat) (x : WeakPtr)
    (hx : s.weakAt h = some x) : s.weakObj h = .ok x := by
  simp [State.weakObj, hx]

theorem sharedAt_of_sharedObj (s : State) (h : Nat) (x : SharedPtr)
    (hx : s.sharedObj h = .ok x) : s.sharedAt h = some x := by
  unfold State.sharedObj at hx
  split at hx
  · rename_i y hy
    cases hx
    exact hy
  · cases hx

theorem weakAt_of_weakObj (s : State) (h : Nat) (x : WeakPtr)
    (hx : s.weakObj h = .ok x) : s.weakAt h = some x := by
  unfold State.weakObj at hx
  split at hx
  · rename_i y hy
    cases hx
    exact hy
  · cases hx

theorem blockAt_of_block (s : State) (b : Nat) (blk : BlockBase)
    (hx : s.block b = .ok blk) : s.blockAt b = some blk := by
  unfold State.block at hx
  split at hx
  · rename_i y hy
    cases hx
    exact hy
  · cases hx

theorem BlockBase.Clear_eq (s : State) (b : Nat) (blk : BlockBase)
    (h : s.blockAt b = some blk) : BlockBase.Clear s b = .ok (cleared s b blk) := by
  unfold BlockBase.Clear cleared
  rw [block_of_blockAt s b blk h]
  cases himpl : blk.impl <;> simp [bind, Except.bind, himpl, pure, Except.pure]

theorem cleared_shared (s : State) (b : Nat) (blk : BlockBase) :
    (cleared s b blk).shared = s.shared := by
  unfold cleared; cases blk.impl <;> rfl

theorem cleared_weak (s : State) (b : Nat) (blk : BlockBase) :
    (cleared s b blk).weak = s.weak := by
  unfold cleared; cases blk.impl <;> rfl

theorem cleared_free_log (s : State) (b : Nat) (blk : BlockBase) :
    (cleared s b blk).free_log = s.free_log := by
  unfold cleared; cases blk.impl <;> rfl

theorem cleared_blocks_length (s : State) (b : Nat) (blk : BlockBase) :
    (cleared s b blk).blocks.length = s.blocks.length := by
  unfold cleared; cases blk.impl <;> simp [State.setBlock]

theorem blockAt_cleared (s : State) (b c : Nat) (blk : BlockBase)
    (h : s.blockAt b = some blk) :
    (cleared s b blk).blockAt c = if c = b then some blk.afterClear else s.blockAt c := by
  unfold cleared BlockBase.afterClear
  cases himpl : blk.impl with
  | Block p =>
    simp only
    exact slot_set_some s.blocks b c _ (slot_lt _ _ _ h)
  | BlockHolder =>
    simp only
    by_cases hc : c = b
    · subst hc; simp [State.blockAt] at h ⊢; exact h
    · simp [hc, State.blockAt]

theorem deleteBlock_eq (s : State) (b : Nat) (blk : BlockBase)
    (h : s.blockAt b = some blk) : deleteBlock s b = .ok (deleted s b blk) := by
  unfold deleteBlock
  rw [BlockBase.Clear_eq s b blk h]
  rfl

theorem deleted_shared (s : State) (b : Nat) (blk : BlockBase) :
    (deleted s b blk).shared = s.shared := cleared_shared s b blk

theorem deleted_weak (s : State) (b : Nat) (blk : BlockBase) :
    (deleted s b blk).weak = s.weak := cleared_weak s b blk

theorem blockAt_deleted (s : State) (b c : Nat) (blk : BlockBase)
    (h : s.blockAt b = some blk) :
    (deleted s b blk).blockAt c = if c = b then none else s.blockAt c := by
  have h1 : (deleted s b blk).blockAt c
      = if c = b then none else (cleared s b blk).blockAt c :=
    slot_set_none (cleared s b blk).blocks b c
  rw [h1, blockAt_cleared s b c blk h]
  by_cases hc : c = b <;> simp [hc]

theorem refs_setShared (s : State) (h c : Nat) (old x : SharedPtr)
    (hh : s.sharedAt h = some old) :
    refs (s.setShared h x).shared c + (if old.block_ = some c then 1 else 0)
      = refs s.shared c + (if x.block_ = some c then 1 else 0) := by
  have := refs_set s.shared h (some x) c (slot_lt _ _ _ hh)
  have e : slot s.shared h = some old := hh
  rw [e] at this
  simpa [owner, State.setShared] using this

theorem refs_endShared (s : State) (h c : Nat) (old : SharedPtr)
    (hh : s.sharedAt h = some old) :
    refs (s.endShared h).shared c + (if old.block_ = some c then 1 else 0)
      = refs s.shared c := by
  have := refs_set s.shared h none c (slot_lt _ _ _ hh)
  have e : slot s.shared h = some old := hh
  rw [e] at this
  simpa [owner, State.endShared] using this

theorem refs_newShared (s : State) (c : Nat) (x : SharedPtr) :
    refs (s.newShared x).shared c = refs s.shared c + (if x.block_ = some c then 1 else 0) := by
  have := refs_append s.shared (some x) c
  simpa [owner, State.newShared] using this

theorem refs_setWeak (s : State) (h c : Nat) (old x : WeakPtr)
    (hh : s.weakAt h = some old) :
    refs (s.setWeak h x).weak c + (if old.block_ = some c then 1 else 0)
      = refs s.weak c + (if x.block_ = some c then 1 else 0) := by
  have := refs_set s.weak h (some x) c (slot_lt _ _ _ hh)
  have e : slot s.weak h = some old := hh
  rw [e] at this
  simpa [owner, State.setWeak] using this

theorem refs_endWeak (s : State) (h c : Nat) (old : WeakPtr)
    (hh : s.weakAt h = some old) :
    refs (s.endWeak h).weak c + (if old.block_ = some c then 1 else 0)
      = refs s.weak c := by
  have := refs_set s.weak h none c (slot_lt _ _ _ hh)
  have e : slot s.weak h = some old := hh
  rw [e] at this
  simpa [owner, State.endWeak] using this

theorem refs_newWeak (s : State) (c : Nat) (x : WeakPtr) :
    refs (s.newWeak x).weak c = refs s.weak c + (if x.block_ = some c then 1 else 0) := by
  have := refs_append s.weak (some x) c
  simpa [owner, State.newWeak] using this

theorem refs_shared_pos (s : State) (h b : Nat) (x : SharedPtr)
    (hx : s.sharedAt h = some x) (hb : x.block_ = some b) : 0 < refs s.shared b :=
  refs_zero_of_slot s.shared h b x hx hb

theorem refs_weak_pos (s : State) (h b : Nat) (x : WeakPtr)
    (hx : s.weakAt h = some x) (hb : x.block_ = some b) : 0 < refs s.weak b :=
  refs_zero_of_slot s.weak h b x hx hb

/-! ## What `Clear` and `IncreaseRefCounter` compute -/

theorem SharedPtr_Clear_none (s : State) (h : Nat) (x : SharedPtr)
    (hx : s.sharedAt h = some x) (hb : x.block_ = none) :
    SharedPtr.Clear s h = .ok (s.setShared h ⟨.null, none⟩) := by
  simp [SharedPtr.Clear, sharedObj_of_sharedAt s h x hx, hb, bind, Except.bind, pure, Except.pure]

theorem SharedPtr_Clear_dec (s : State) (h b : Nat) (x : SharedPtr) (blk : BlockBase)
    (hx : s.sharedAt h = some x) (hb : x.block_ = some b) (hblk : s.blockAt b = some blk)
    (hc : 1 < blk.shared_ref_counter_) :
    SharedPtr.Clear s h
      = .ok ((s.setBlock b { blk with shared_ref_counter_ := blk.shared_ref_counter_ - 1 }).setShared
          h ⟨.null, none⟩) := by
  have hmin : blk.shared_ref_counter_ ≠ INT_MIN := by unfold INT_MIN; omega
  simp [SharedPtr.Clear, sharedObj_of_sharedAt s h x hx, hb, block_of_blockAt s b blk hblk,
    bind, Except.bind, pure, Except.pure, hc, intDec, hmin]

theorem SharedPtr_Clear_delete (s : State) (h b : Nat) (x : SharedPtr) (blk : BlockBase)
    (hx : s.sharedAt h = some x) (hb : x.block_ = some b) (hblk : s.blockAt b = some blk)
    (hc : blk.shared_ref_counter_ ≤ 1) (hw : blk.weak_ref_counter_ < 1) :
    SharedPtr.Clear s h = .ok ((deleted s b blk).setShared h ⟨.null, none⟩) := by
  have hc2 : ¬ 1 < blk.shared_ref_counter_ := by omega
  simp [SharedPtr.Clear, sharedObj_of_sharedAt s h x hx, hb, block_of_blockAt s b blk hblk,
    bind, Except.bind, pure, Except.pure, hc2, hw, deleteBlock_eq s b blk hblk]

theorem SharedPtr_Clear_last (s : State) (h b : Nat) (x : SharedPtr) (blk : BlockBase)
    (hx : s.sharedAt h = some x) (hb : x.block_ = some b) (hblk : s.blockAt b = some blk)
    (hc : blk.shared_ref_counter_ ≤ 1) (hw : 1 ≤ blk.weak_ref_counter_)
    (hmin : blk.shared_ref_counter_ ≠ INT_MIN) :
    SharedPtr.Clear s h
      = .ok (((cleared s b blk).setBlock b
          { blk.afterClear with shared_ref_counter_ := blk.shared_ref_counter_ - 1 }).setShared
          h ⟨.null, none⟩) := by
  have hc2 : ¬ 1 < blk.shared_ref_counter_ := by omega
  have hw2 : ¬ blk.weak_ref_counter_ < 1 := by omega
  have hb2 : (cleared s b blk).block b = .ok blk.afterClear := by
    apply block_of_blockAt
    rw [blockAt_cleared s b b blk hblk]; simp
  have hcnt : blk.afterClear.shared_ref_counter_ = blk.shared_ref_counter_ := by
    unfold BlockBase.afterClear; cases blk.impl <;> rfl
  simp [SharedPtr.Clear, sharedObj_of_sharedAt s h x hx, hb, block_of_blockAt s b blk hblk,
    bind, Except.bind, pure, Except.pure, hc2, hw2, BlockBase.Clear_eq s b blk hblk, hb2,
    intDec, hcnt, hmin]

theorem SharedPtr_IncreaseRefCounter_none (s : State) (h : Nat) (x : SharedPtr)
    (hx : s.sharedAt h = some x) (hb : x.block_ = none) :
    SharedPtr.IncreaseRefCounter s h = .ok s := by
  simp [SharedPtr.IncreaseRefCounter, sharedObj_of_sharedAt s h x hx, hb, bind, Except.bind,
    pure, Except.pure]

theorem SharedPtr_IncreaseRefCounter_some (s : State) (h b : Nat) (x : SharedPtr)
    (blk : BlockBase) (hx : s.sharedAt h = some x) (hb : x.block_ = some b)
    (hblk : s.blockAt b = some blk) (hmax : blk.shared_ref_counter_ ≠ INT_MAX) :
    SharedPtr.IncreaseRefCounter s h
      = .ok (s.setBlock b { blk with shared_ref_counter_ := blk.shared_ref_counter_ + 1 }) := by
  simp [SharedPtr.IncreaseRefCounter, sharedObj_of_sharedAt s h x hx, hb,
    block_of_blockAt s b blk hblk, bind, Except.bind, pure, Except.pure, intInc, hmax]

theorem SharedPtr_IncreaseRefCounter_overflow (s : State) (h b : Nat) (x : SharedPtr)
    (blk : BlockBase) (hx : s.sharedAt h = some x) (hb : x.block_ = some b)
    (hblk : s.blockAt b = some blk) (hmax : blk.shared_ref_counter_ = INT_MAX) :
    SharedPtr.IncreaseRefCounter s h = .error .intOverflow := by
  simp [SharedPtr.IncreaseRefCounter, sharedObj_of_sharedAt s h x hx, hb,
    block_of_blockAt s b blk hblk, bind, Except.bind, intInc, hmax]

theorem WeakPtr_Clear_none (s : State) (h : Nat) (x : WeakPtr)
    (hx : s.weakAt h = some x) (hb : x.block_ = none) :
    WeakPtr.Clear s h = .ok (s.setWeak h ⟨.null, none⟩) := by
  simp [WeakPtr.Clear, weakObj_of_weakAt s h x hx, hb, bind, Except.bind, pure, Except.pure]

theorem WeakPtr_Clear_dec (s : State) (h b : Nat) (x : WeakPtr) (blk : BlockBase)
    (hx : s.weakAt h = some x) (hb : x.block_ = some b) (hblk : s.blockAt b = some blk)
    (hc : 1 < blk.weak_ref_counter_) :
    WeakPtr.Clear s h
      = .ok ((s.setBlock b { blk with weak_ref_counter_ := blk.weak_ref_counter_ - 1 }).setWeak
          h ⟨.null, none⟩) := by
  have hmin : blk.weak_ref_counter_ ≠ INT_MIN := by unfold INT_MIN; omega
  simp [WeakPtr.Clear, weakObj_of_weakAt s h x hx, hb, block_of_blockAt s b blk hblk,
    bind, Except.bind, pure, Except.pure, hc, intDec, hmin]

theorem WeakPtr_Clear_delete (s : State) (h b : Nat) (x : WeakPtr) (blk : BlockBase)
    (hx : s.weakAt h = some x) (hb : x.block_ = some b) (hblk : s.blockAt b = some blk)
    (hc : blk.weak_ref_counter_ ≤ 1) (hw : blk.shared_ref_counter_ < 1) :
    WeakPtr.Clear s h = .ok ((deleted s b blk).setWeak h ⟨.null, none⟩) := by
  have hc2 : ¬ 1 < blk.weak_ref_counter_ := by omega
  simp [WeakPtr.Clear, weakObj_of_weakAt s h x hx, hb, block_of_blockAt s b blk hblk,
    bind, Except.bind, pure, Except.pure, hc2, hw, deleteBlock_eq s b blk hblk]

theorem WeakPtr_Clear_last (s : State) (h b : Nat) (x : WeakPtr) (blk : BlockBase)
    (hx : s.weakAt h = some x) (hb : x.block_ = some b) (hblk : s.blockAt b = some blk)
    (hc : blk.weak_ref_counter_ ≤ 1) (hw : 1 ≤ blk.shared_ref_counter_)
    (hmin : blk.weak_ref_counter_ ≠ INT_MIN) :
    WeakPtr.Clear s h
      = .ok ((s.setBlock b { blk with weak_ref_counter_ := blk.weak_ref_counter_ - 1 }).setWeak
          h ⟨.null, none⟩) := by
  have hc2 : ¬ 1 < blk.weak_ref_counter_ := by omega
  have hw2 : ¬ blk.shared_ref_counter_ < 1 := by omega
  simp [WeakPtr.Clear, weakObj_of_weakAt s h x hx, hb, block_of_blockAt s b blk hblk,
    bind, Except.bind, pure, Except.pure, hc2, hw2, intDec, hmin]

theorem WeakPtr_IncreaseRefCounter_none (s : State) (h : Nat) (x : WeakPtr)
    (hx : s.weakAt h = some x) (hb : x.block_ = none) :
    WeakPtr.IncreaseRefCounter s h = .ok s := by
  simp [WeakPtr.IncreaseRefCounter, weakObj_of_weakAt s h x hx, hb, bind, Except.bind,
    pure, Except.pure]

theorem WeakPtr_IncreaseRefCounter_some (s : State) (h b : Nat) (x : WeakPtr)
    (blk : BlockBase) (hx : s.weakAt h = some x) (hb : x.block_ = some b)
    (hblk : s.blockAt b = some blk) (hmax : blk.weak_ref_counter_ ≠ INT_MAX) :
    WeakPtr.IncreaseRefCounter s h
      = .ok (s.setBlock b { blk with weak_ref_counter_ := blk.weak_ref_counter_ + 1 }) := by
  simp [WeakPtr.IncreaseRefCounter, weakObj_of_weakAt s h x hx, hb,
    block_of_blockAt s b blk hblk, bind, Except.bind, pure, Except.pure, intInc, hmax]

theorem WeakPtr_IncreaseRefCounter_overflow (s : State) (h b : Nat) (x : WeakPtr)
    (blk : BlockBase) (hx : s.weakAt h = some x) (hb : x.block_ = some b)
    (hblk : s.blockAt b = some blk) (hmax : blk.weak_ref_counter_ = INT_MAX) :
    WeakPtr.IncreaseRefCounter s h = .error .intOverflow := by
  simp [WeakPtr.IncreaseRefCounter, weakObj_of_weakAt s h x hx, hb,
    block_of_blockAt s b blk hblk, bind, Except.bind, intInc, hmax]

/-! ## The counting invariant -/

@[simp] theorem blockAt_setShared (s : State) (h c : Nat) (x : SharedPtr) :
    (s.setShared h x).blockAt c = s.blockAt c := rfl

@[simp] theorem blockAt_setWeak (s : State) (h c : Nat) (x : WeakPtr) :
    (s.setWeak h x).blockAt c = s.blockAt c := rfl

@[simp] theorem blockAt_newShared (s : State) (c : Nat) (x : SharedPtr) :
    (s.newShared x).blockAt c = s.blockAt c := rfl

@[simp] theorem blockAt_newWeak (s : State) (c : Nat) (x : WeakPtr) :
    (s.newWeak x).blockAt c = s.blockAt c := rfl

@[simp] theorem blockAt_endShared (s : State) (h c : Nat) :
    (s.endShared h).blockAt c = s.blockAt c := rfl

@[simp] theorem blockAt_endWeak (s : State) (h c : Nat) :
    (s.endWeak h).blockAt c = s.blockAt c := rfl

@[simp] theorem shared_setBlock (s : State) (b : Nat) (x : BlockBase) :
    (s.setBlock b x).shared = s.shared := rfl

@[simp] theorem weak_setBlock (s : State) (b : Nat) (x : BlockBase) :
    (s.setBlock b x).weak = s.weak := rfl

@[simp] theorem shared_newBlock (s : State) (i : BlockImpl) :
    (s.newBlock i).shared = s.shared := rfl

@[simp] theorem weak_newBlock (s : State) (i : BlockImpl) :
    (s.newBlock i).weak = s.weak := rfl

@[simp] theorem weak_setShared (s : State) (h : Nat) (x : SharedPtr) :
    (s.setShared h x).weak = s.weak := rfl

@[simp] theorem weak_newShared (s : State) (x : SharedPtr) :
    (s.newShared x).weak = s.weak := rfl

@[simp] theorem weak_endShared (s : State) (h : Nat) :
    (s.endShared h).weak = s.weak := rfl

@[simp] theorem shared_setWeak (s : State) (h : Nat) (x : WeakPtr) :
    (s.setWeak h x).shared = s.shared := rfl

@[simp] theorem shared_newWeak (s : State) (x : WeakPtr) :
    (s.newWeak x).shared = s.shared := rfl

@[simp] theorem shared_endWeak (s : State) (h : Nat) :
    (s.endWeak h).shared = s.shared := rfl

@[simp] theorem sharedAt_setBlock (s : State) (b h : Nat) (x : BlockBase) :
    (s.setBlock b x).sharedAt h = s.sharedAt h := rfl

@[simp] theorem weakAt_setBlock (s : State) (b h : Nat) (x : BlockBase) :
    (s.setBlock b x).weakAt h = s.weakAt h := rfl

@[simp] theorem sharedAt_newBlock (s : State) (i : BlockImpl) (h : Nat) :
    (s.newBlock i).sharedAt h = s.sharedAt h := rfl

@[simp] theorem weakAt_newBlock (s : State) (i : BlockImpl) (h : Nat) :
    (s.newBlock i).weakAt h = s.weakAt h := rfl

@[simp] theorem sharedAt_setWeak (s : State) (h j : Nat) (x : WeakPtr) :
    (s.setWeak h x).sharedAt j = s.sharedAt j := rfl

@[simp] theorem sharedAt_newWeak (s : State) (j : Nat) (x : WeakPtr) :
    (s.newWeak x).sharedAt j = s.sharedAt j := rfl

@[simp] theorem sharedAt_endWeak (s : State) (h j : Nat) :
    (s.endWeak h).sharedAt j = s.sharedAt j := rfl

@[simp] theorem weakAt_setShared (s : State) (h j : Nat) (x : SharedPtr) :
    (s.setShared h x).weakAt j = s.weakAt j := rfl

@[simp] theorem weakAt_newShared (s : State) (j : Nat) (x : SharedPtr) :
    (s.newShared x).weakAt j = s.weakAt j := rfl

@[simp] theorem weakAt_endShared (s : State) (h j : Nat) :
    (s.endShared h).weakAt j = s.weakAt j := rfl

@[simp] theorem sharedAt_cleared (s : State) (b h : Nat) (x : BlockBase) :
    (cleared s b x).sharedAt h = s.sharedAt h := by
  unfold State.sharedAt; rw [cleared_shared]

@[simp] theorem weakAt_cleared (s : State) (b h : Nat) (x : BlockBase) :
    (cleared s b x).weakAt h = s.weakAt h := by
  unfold State.weakAt; rw [cleared_weak]

@[simp] theorem sharedAt_deleted (s : State) (b h : Nat) (x : BlockBase) :
    (deleted s b x).sharedAt h = s.sharedAt h := by
  unfold State.sharedAt; rw [deleted_shared]

@[simp] theorem weakAt_deleted (s : State) (b h : Nat) (x : BlockBase) :
    (deleted s b x).weakAt h = s.weakAt h := by
  unfold State.weakAt; rw [deleted_weak]

attribute [simp] cleared_shared cleared_weak deleted_shared deleted_weak

theorem Good.frame (s s2 : State) (c : Nat) (hb : s2.blockAt c = s.blockAt c)
    (hs : refs s2.shared c = refs s.shared c) (hw : refs s2.weak c = refs s.weak c)
    (hg : Good s c) : Good s2 c := by
  unfold Good at hg ⊢
  rw [hb, hs, hw]
  exact hg

theorem Good.live (s : State) (c : Nat) (blk : BlockBase) (hb : s.blockAt c = some blk)
    (h1 : blk.shared_ref_counter_ = (refs s.shared c : Int))
    (h2 : (refs s.weak c : Int) ≤ blk.weak_ref_counter_)
    (h3 : blk.shared_ref_counter_ ≤ INT_MAX) (h4 : blk.weak_ref_counter_ ≤ INT_MAX) :
    Good s c := by
  refine ⟨fun blk2 hb2 => ?_, fun hb2 => ?_⟩
  · rw [hb] at hb2
    cases hb2
    exact ⟨h1, h2, h3, h4⟩
  · rw [hb] at hb2
    cases hb2

theorem Good.dead (s : State) (c : Nat) (hb : s.blockAt c = none)
    (h1 : refs s.shared c = 0) (h2 : refs s.weak c = 0) : Good s c := by
  refine ⟨fun blk2 hb2 => ?_, fun _ => ⟨h1, h2⟩⟩
  rw [hb] at hb2
  cases hb2

theorem Inv.init : Inv State.init := by
  intro b
  simp [Good, State.init, State.blockAt, slot, refs]

theorem Inv.live_of_shared (s : State) (hinv : Inv s) (h b : Nat) (x : SharedPtr)
    (hx : s.sharedAt h = some x) (hb : x.block_ = some b) :
    ∃ blk, s.blockAt b = some blk ∧ 1 ≤ blk.shared_ref_counter_ ∧
      blk.shared_ref_counter_ = (refs s.shared b : Int) ∧
      (refs s.weak b : Int) ≤ blk.weak_ref_counter_ ∧
      blk.shared_ref_counter_ ≤ INT_MAX ∧ blk.weak_ref_counter_ ≤ INT_MAX := by
  have hpos := refs_shared_pos s h b x hx hb
  cases hblk : s.blockAt b with
  | none =>
    have := ((hinv b).2 hblk).1
    omega
  | some blk =>
    obtain ⟨h1, h2, h3, h4⟩ := (hinv b).1 blk hblk
    exact ⟨blk, rfl, by omega, h1, h2, h3, h4⟩

theorem Inv.live_of_weak (s : State) (hinv : Inv s) (h b : Nat) (x : WeakPtr)
    (hx : s.weakAt h = some x) (hb : x.block_ = some b) :
    ∃ blk, s.blockAt b = some blk ∧ 1 ≤ blk.weak_ref_counter_ ∧
      blk.shared_ref_counter_ = (refs s.shared b : Int) ∧
      (refs s.weak b : Int) ≤ blk.weak_ref_counter_ ∧
      blk.shared_ref_counter_ ≤ INT_MAX ∧ blk.weak_ref_counter_ ≤ INT_MAX := by
  have hpos := refs_weak_pos s h b x hx hb
  cases hblk : s.blockAt b with
  | none =>
    have := ((hinv b).2 hblk).2
    omega
  | some blk =>
    obtain ⟨h1, h2, h3, h4⟩ := (hinv b).1 blk hblk
    exact ⟨blk, rfl, by omega, h1, h2, h3, h4⟩

theorem sharedObj_error_of_none (s : State) (h : Nat) (hx : s.sharedAt h = none) :
    s.sharedObj h = .error .deadObject := by
  simp [State.sharedObj, hx]

theorem weakObj_error_of_none (s : State) (h : Nat) (hx : s.weakAt h = none) :
    s.weakObj h = .error .deadObject := by
  simp [State.weakObj, hx]

theorem SharedPtr_Clear_live (s s2 : State) (h : Nat) (hok : SharedPtr.Clear s h = .ok s2) :
    ∃ x, s.sharedAt h = some x := by
  cases hx : s.sharedAt h with
  | some x => exact ⟨x, rfl⟩
  | none =>
    simp [SharedPtr.Clear, sharedObj_error_of_none s h hx, bind, Except.bind] at hok

theorem WeakPtr_Clear_live (s s2 : State) (h : Nat) (hok : WeakPtr.Clear s h = .ok s2) :
    ∃ x, s.weakAt h = some x := by
  cases hx : s.weakAt h with
  | some x => exact ⟨x, rfl⟩
  | none =>
    simp [WeakPtr.Clear, weakObj_error_of_none s h hx, bind, Except.bind] at hok

theorem afterClear_shared (blk : BlockBase) :
    blk.afterClear.shared_ref_counter_ = blk.shared_ref_counter_ := by
  unfold BlockBase.afterClear; cases blk.impl <;> rfl

theorem afterClear_weak (blk : BlockBase) :
    blk.afterClear.weak_ref_counter_ = blk.weak_ref_counter_ := by
  unfold BlockBase.afterClear; cases blk.impl <;> rfl

theorem some_ne_some (b c : Nat) (h : c ≠ b) : ¬ (some b = some c) := by
  intro e; cases e; exact h rfl

/-- `SharedPtr::Clear` keeps the invariant. -/
theorem SharedPtr_Clear_inv (s s2 : State) (h : Nat) (hinv : Inv s)
    (hok : SharedPtr.Clear s h = .ok s2) : Inv s2 := by
  obtain ⟨x, hx⟩ := SharedPtr_Clear_live s s2 h hok
  cases hb : x.block_ with
  | none =>
    rw [SharedPtr_Clear_none s h x hx hb] at hok
    cases hok
    intro c
    have hr := refs_setShared s h c x ⟨.null, none⟩ hx
    simp [hb] at hr
    exact Good.frame s _ c rfl hr rfl (hinv c)
  | some b =>
    obtain ⟨blk, hblk, h1, hs, hw, hmS, hmW⟩ := Inv.live_of_shared s hinv h b x hx hb
    by_cases hc : 1 < blk.shared_ref_counter_
    · rw [SharedPtr_Clear_dec s h b x blk hx hb hblk hc] at hok
      cases hok
      intro c
      have hr := refs_setShared (s.setBlock b
        { blk with shared_ref_counter_ := blk.shared_ref_counter_ - 1 }) h c x ⟨.null, none⟩ hx
      have hbl := blockAt_setBlock s b c blk
        { blk with shared_ref_counter_ := blk.shared_ref_counter_ - 1 } hblk
      by_cases hcb : c = b
      · subst hcb
        simp [hb] at hr
        refine Good.live _ c { blk with shared_ref_counter_ := blk.shared_ref_counter_ - 1 }
          (by simp [hbl]) ?_ (by simpa using hw) ?_ (by simpa using hmW)
          <;> simp only <;> omega
      · simp [hb, some_ne_some b c hcb] at hr
        exact Good.frame s _ c (by simp [hbl, hcb]) hr rfl (hinv c)
    · have hc1 : blk.shared_ref_counter_ ≤ 1 := by omega
      by_cases hwk : blk.weak_ref_counter_ < 1
      · rw [SharedPtr_Clear_delete s h b x blk hx hb hblk hc1 hwk] at hok
        cases hok
        intro c
        have hr := refs_setShared (deleted s b blk) h c x ⟨.null, none⟩ (by simpa using hx)
        have hbl := blockAt_deleted s b c blk hblk
        by_cases hcb : c = b
        · subst hcb
          simp [hb] at hr
          refine Good.dead _ c (by simp [hbl]) ?_ ?_
          · omega
          · simp; omega
        · simp [hb, some_ne_some b c hcb] at hr
          exact Good.frame s _ c (by simp [hbl, hcb]) hr (by simp) (hinv c)
      · have hmin : blk.shared_ref_counter_ ≠ INT_MIN := by unfold INT_MIN; omega
        rw [SharedPtr_Clear_last s h b x blk hx hb hblk hc1 (by omega) hmin] at hok
        cases hok
        intro c
        have hbl0 := blockAt_cleared s b b blk hblk
        simp at hbl0
        have hr := refs_setShared ((cleared s b blk).setBlock b
          { blk.afterClear with shared_ref_counter_ := blk.shared_ref_counter_ - 1 })
          h c x ⟨.null, none⟩ (by simpa using hx)
        have hbl := blockAt_setBlock (cleared s b blk) b c blk.afterClear
          { blk.afterClear with shared_ref_counter_ := blk.shared_ref_counter_ - 1 } hbl0
        have hbl1 := blockAt_cleared s b c blk hblk
        by_cases hcb : c = b
        · subst hcb
          simp [hb] at hr
          refine Good.live _ c
            { blk.afterClear with shared_ref_counter_ := blk.shared_ref_counter_ - 1 }
            (by simp [hbl]) ?_ (by simpa [afterClear_weak] using hw) ?_
            (by simpa [afterClear_weak] using hmW) <;> simp only <;> omega
        · simp [hb, some_ne_some b c hcb] at hr
          exact Good.frame s _ c (by simp [hbl, hbl1, hcb]) hr (by simp) (hinv c)

/-- `WeakPtr::Clear` keeps the invariant. -/
theorem WeakPtr_Clear_inv (s s2 : State) (h : Nat) (hinv : Inv s)
    (hok : WeakPtr.Clear s h = .ok s2) : Inv s2 := by
  obtain ⟨x, hx⟩ := WeakPtr_Clear_live s s2 h hok
  cases hb : x.block_ with
  | none =>
    rw [WeakPtr_Clear_none s h x hx hb] at hok
    cases hok
    intro c
    have hr := refs_setWeak s h c x ⟨.null, none⟩ hx
    simp [hb] at hr
    exact Good.frame s _ c rfl rfl hr (hinv c)
  | some b =>
    obtain ⟨blk, hblk, h1, hs, hw, hmS, hmW⟩ := Inv.live_of_weak s hinv h b x hx hb
    have hpos := refs_weak_pos s h b x hx hb
    by_cases hc : 1 < blk.weak_ref_counter_
    · rw [WeakPtr_Clear_dec s h b x blk hx hb hblk hc] at hok
      cases hok
      intro c
      have hr := refs_setWeak (s.setBlock b
        { blk with weak_ref_counter_ := blk.weak_ref_counter_ - 1 }) h c x ⟨.null, none⟩ hx
      have hbl := blockAt_setBlock s b c blk
        { blk with weak_ref_counter_ := blk.weak_ref_counter_ - 1 } hblk
      by_cases hcb : c = b
      · subst hcb
        simp [hb] at hr
        refine Good.live _ c { blk with weak_ref_counter_ := blk.weak_ref_counter_ - 1 }
          (by simp [hbl]) (by simpa using hs) ?_ (by simpa using hmS) ?_
          <;> simp only <;> omega
      · simp [hb, some_ne_some b c hcb] at hr
        exact Good.frame s _ c (by simp [hbl, hcb]) rfl hr (hinv c)
    · have hc1 : blk.weak_ref_counter_ ≤ 1 := by omega
      by_cases hsk : blk.shared_ref_counter_ < 1
      · rw [WeakPtr_Clear_delete s h b x blk hx hb hblk hc1 hsk] at hok
        cases hok
        intro c
        have hr := refs_setWeak (deleted s b blk) h c x ⟨.null, none⟩ (by simpa using hx)
        have hbl := blockAt_deleted s b c blk hblk
        by_cases hcb : c = b
        · subst hcb
          simp [hb] at hr
          refine Good.dead _ c (by simp [hbl]) ?_ ?_
          · simp; omega
          · omega
        · simp [hb, some_ne_some b c hcb] at hr
          exact Good.frame s _ c (by simp [hbl, hcb]) (by simp) hr (hinv c)
      · have hmin : blk.weak_ref_counter_ ≠ INT_MIN := by unfold INT_MIN; omega
        rw [WeakPtr_Clear_last s h b x blk hx hb hblk hc1 (by omega) hmin] at hok
        cases hok
        intro c
        have hr := refs_setWeak (s.setBlock b
          { blk with weak_ref_counter_ := blk.weak_ref_counter_ - 1 }) h c x ⟨.null, none⟩ hx
        have hbl := blockAt_setBlock s b c blk
          { blk with weak_ref_counter_ := blk.weak_ref_counter_ - 1 } hblk
        by_cases hcb : c = b
        · subst hcb
          simp [hb] at hr
          refine Good.live _ c { blk with weak_ref_counter_ := blk.weak_ref_counter_ - 1 }
            (by simp [hbl]) (by simpa using hs) ?_ (by simpa using hmS) ?_
            <;> simp only <;> omega
        · simp [hb, some_ne_some b c hcb] at hr
          exact Good.frame s _ c (by simp [hbl, hcb]) rfl hr (hinv c)

theorem Good.frame_le (s s2 : State) (c : Nat) (hb : s2.blockAt c = s.blockAt c)
    (hs : refs s2.shared c = refs s.shared c) (hw : refs s2.weak c ≤ refs s.weak c)
    (hg : Good s c) : Good s2 c := by
  unfold Good at hg ⊢
  rw [hb, hs]
  refine ⟨fun blk hblk => ?_, fun hblk => ?_⟩
  · obtain ⟨g1, g2, g3, g4⟩ := hg.1 blk hblk
    exact ⟨g1, by omega, g3, g4⟩
  · obtain ⟨g1, g2⟩ := hg.2 hblk
    exact ⟨g1, by omega⟩

theorem Inv.of_same (s s2 : State) (hinv : Inv s)
    (hb : ∀ c, s2.blockAt c = s.blockAt c)
    (hs : ∀ c, refs s2.shared c = refs s.shared c)
    (hw : ∀ c, refs s2.weak c = refs s.weak c) : Inv s2 :=
  fun c => Good.frame s s2 c (hb c) (hs c) (hw c) (hinv c)

theorem SharedPtr_IncreaseRefCounter_live (s s2 : State) (h : Nat)
    (hok : SharedPtr.IncreaseRefCounter s h = .ok s2) : ∃ x, s.sharedAt h = some x := by
  cases hx : s.sharedAt h with
  | some x => exact ⟨x, rfl⟩
  | none =>
    simp [SharedPtr.IncreaseRefCounter, sharedObj_error_of_none s h hx, bind, Except.bind] at hok

theorem WeakPtr_IncreaseRefCounter_live (s s2 : State) (h : Nat)
    (hok : WeakPtr.IncreaseRefCounter s h = .ok s2) : ∃ x, s.weakAt h = some x := by
  cases hx : s.weakAt h with
  | some x => exact ⟨x, rfl⟩
  | none =>
    simp [WeakPtr.IncreaseRefCounter, weakObj_error_of_none s h hx, bind, Except.bind] at hok

/-- A `SharedPtr` object that has just been given the members `⟨p, bo⟩`
(not yet counted) and then calls `IncreaseRefCounter`. -/
theorem SharedPtr_acquire_inv (s s1 s2 : State) (h : Nat) (p : RawPtr) (bo : Option Nat)
    (hinv : Inv s) (hblocks : ∀ c, s1.blockAt c = s.blockAt c)
    (hweak : ∀ c, refs s1.weak c = refs s.weak c)
    (hh : s1.sharedAt h = some ⟨p, bo⟩)
    (hrefs : ∀ c, refs s1.shared c = refs s.shared c + if bo = some c then 1 else 0)
    (hlive : ∀ b, bo = some b → s.blockAt b ≠ none)
    (hok : SharedPtr.IncreaseRefCounter s1 h = .ok s2) : Inv s2 := by
  cases hbo : bo with
  | none =>
    subst hbo
    rw [SharedPtr_IncreaseRefCounter_none s1 h _ hh rfl] at hok
    cases hok
    exact Inv.of_same s _ hinv hblocks (fun c => by simpa using hrefs c) hweak
  | some b =>
    subst hbo
    cases hblk : s.blockAt b with
    | none => exact absurd hblk (hlive b rfl)
    | some blk =>
      have hblk1 : s1.blockAt b = some blk := by rw [hblocks]; exact hblk
      obtain ⟨g1, g2, g3, g4⟩ := (hinv b).1 blk hblk
      by_cases hmax : blk.shared_ref_counter_ = INT_MAX
      · rw [SharedPtr_IncreaseRefCounter_overflow s1 h b _ blk hh rfl hblk1 hmax] at hok
        cases hok
      · rw [SharedPtr_IncreaseRefCounter_some s1 h b _ blk hh rfl hblk1 hmax] at hok
        cases hok
        intro c
        have hbl := blockAt_setBlock s1 b c blk
          { blk with shared_ref_counter_ := blk.shared_ref_counter_ + 1 } hblk1
        have hr := hrefs c
        have hwk := hweak c
        by_cases hcb : c = b
        · subst hcb
          simp at hr
          refine Good.live _ c { blk with shared_ref_counter_ := blk.shared_ref_counter_ + 1 }
            (by simp [hbl]) ?_ ?_ ?_ ?_ <;> simp only [shared_setBlock, weak_setBlock] <;> omega
        · simp [some_ne_some b c hcb] at hr
          exact Good.frame s _ c (by simp [hbl, hcb, hblocks]) hr hwk (hinv c)

/-- A `WeakPtr` object that has just been given the members `⟨p, bo⟩` and
then calls `IncreaseRefCounter`. -/
theorem WeakPtr_acquire_inv (s s1 s2 : State) (h : Nat) (p : RawPtr) (bo : Option Nat)
    (hinv : Inv s) (hblocks : ∀ c, s1.blockAt c = s.blockAt c)
    (hshared : ∀ c, refs s1.shared c = refs s.shared c)
    (hh : s1.weakAt h = some ⟨p, bo⟩)
    (hrefs : ∀ c, refs s1.weak c ≤ refs s.weak c + if bo = some c then 1 else 0)
    (hlive : ∀ b, bo = some b → s.blockAt b ≠ none)
    (hok : WeakPtr.IncreaseRefCounter s1 h = .ok s2) : Inv s2 := by
  cases hbo : bo with
  | none =>
    subst hbo
    rw [WeakPtr_IncreaseRefCounter_none s1 h _ hh rfl] at hok
    cases hok
    exact fun c => Good.frame_le s _ c (hblocks c) (hshared c) (by simpa using hrefs c) (hinv c)
  | some b =>
    subst hbo
    cases hblk : s.blockAt b with
    | none => exact absurd hblk (hlive b rfl)
    | some blk =>
      have hblk1 : s1.blockAt b = some blk := by rw [hblocks]; exact hblk
      obtain ⟨g1, g2, g3, g4⟩ := (hinv b).1 blk hblk
      by_cases hmax : blk.weak_ref_counter_ = INT_MAX
      · rw [WeakPtr_IncreaseRefCounter_overflow s1 h b _ blk hh rfl hblk1 hmax] at hok
        cases hok
      · rw [WeakPtr_IncreaseRefCounter_some s1 h b _ blk hh rfl hblk1 hmax] at hok
        cases hok
        intro c
        have hbl := blockAt_setBlock s1 b c blk
          { blk with weak_ref_counter_ := blk.weak_ref_counter_ + 1 } hblk1
        have hr := hrefs c
        have hsh := hshared c
        by_cases hcb : c = b
        · subst hcb
          simp at hr
          refine Good.live _ c { blk with weak_ref_counter_ := blk.weak_ref_counter_ + 1 }
            (by simp [hbl]) ?_ ?_ ?_ ?_ <;> simp only [shared_setBlock, weak_setBlock] <;> omega
        · simp [some_ne_some b c hcb] at hr
          exact Good.frame_le s _ c (by simp [hbl, hcb, hblocks]) hsh hr (hinv c)

/-- A fresh block (counters 1 and 0) together with one new reference to it
from a `SharedPtr` object. -/
theorem adopt_inv (s s2 : State) (impl : BlockImpl) (hinv : Inv s)
    (hb : ∀ c, s2.blockAt c
      = if c = s.blocks.length then some ⟨1, 0, impl⟩ else s.blockAt c)
    (hs : ∀ c, refs s2.shared c = refs s.shared c + if c = s.blocks.length then 1 else 0)
    (hw : ∀ c, refs s2.weak c = refs s.weak c) : Inv s2 := by
  intro c
  have hdead : s.blockAt s.blocks.length = none := by
    cases hx : s.blockAt s.blocks.length with
    | none => rfl
    | some blk => exact absurd (slot_lt _ _ _ hx) (by omega)
  have h0 := (hinv s.blocks.length).2 hdead
  by_cases hc : c = s.blocks.length
  · subst hc
    have e1 := hs s.blocks.length
    have e2 := hw s.blocks.length
    simp at e1
    refine Good.live _ _ ⟨1, 0, impl⟩ (by simp [hb]) ?_ ?_ ?_ ?_ <;>
      simp only [INT_MAX] <;> omega
  · have e1 := hs c
    simp [hc] at e1
    exact Good.frame s _ c (by simp [hb, hc]) e1 (hw c) (hinv c)

theorem block_error_of_none (s : State) (b : Nat) (hx : s.blockAt b = none) :
    s.block b = .error .useAfterFree := by
  simp [State.block, hx]

/-- The four ways in which `SharedPtr::Clear` completes. -/
theorem SharedPtr_Clear_cases (s s2 : State) (h : Nat) (hok : SharedPtr.Clear s h = .ok s2) :
    ∃ x, s.sharedAt h = some x ∧
      ((x.block_ = none ∧ s2 = s.setShared h ⟨.null, none⟩) ∨
       ∃ b blk, x.block_ = some b ∧ s.blockAt b = some blk ∧
        ((1 < blk.shared_ref_counter_ ∧
            s2 = (s.setBlock b
              { blk with shared_ref_counter_ := blk.shared_ref_counter_ - 1 }).setShared
              h ⟨.null, none⟩) ∨
         (blk.shared_ref_counter_ ≤ 1 ∧ blk.weak_ref_counter_ < 1 ∧
            s2 = (deleted s b blk).setShared h ⟨.null, none⟩) ∨
         (blk.shared_ref_counter_ ≤ 1 ∧ 1 ≤ blk.weak_ref_counter_ ∧
            s2 = ((cleared s b blk).setBlock b
              { blk.afterClear with shared_ref_counter_ := blk.shared_ref_counter_ - 1 }).setShared
              h ⟨.null, none⟩))) := by
  obtain ⟨x, hx⟩ := SharedPtr_Clear_live s s2 h hok
  refine ⟨x, hx, ?_⟩
  cases hb : x.block_ with
  | none =>
    rw [SharedPtr_Clear_none s h x hx hb] at hok
    cases hok
    exact Or.inl ⟨rfl, rfl⟩
  | some b =>
    right
    cases hblk : s.blockAt b with
    | none =>
      simp [SharedPtr.Clear, sharedObj_of_sharedAt s h x hx, hb, block_error_of_none s b hblk,
        bind, Except.bind] at hok
    | some blk =>
      refine ⟨b, blk, rfl, hblk, ?_⟩
      by_cases hc : 1 < blk.shared_ref_counter_
      · rw [SharedPtr_Clear_dec s h b x blk hx hb hblk hc] at hok
        cases hok
        exact Or.inl ⟨hc, rfl⟩
      · have hc1 : blk.shared_ref_counter_ ≤ 1 := by omega
        by_cases hwk : blk.weak_ref_counter_ < 1
        · rw [SharedPtr_Clear_delete s h b x blk hx hb hblk hc1 hwk] at hok
          cases hok
          exact Or.inr (Or.inl ⟨hc1, hwk, rfl⟩)
        · by_cases hmin : blk.shared_ref_counter_ = INT_MIN
          · have hb2 : (cleared s b blk).block b = .ok blk.afterClear := by
              apply block_of_blockAt
              rw [blockAt_cleared s b b blk hblk]; simp
            simp [SharedPtr.Clear, sharedObj_of_sharedAt s h x hx, hb,
              block_of_blockAt s b blk hblk, bind, Except.bind, hc, hwk,
              BlockBase.Clear_eq s b blk hblk, hb2, intDec, afterClear_shared, hmin] at hok
          · rw [SharedPtr_Clear_last s h b x blk hx hb hblk hc1 (by omega) hmin] at hok
            cases hok
            exact Or.inr (Or.inr ⟨hc1, by omega, rfl⟩)

/-- The ways in which `WeakPtr::Clear` completes. -/
theorem WeakPtr_Clear_cases (s s2 : State) (h : Nat) (hok : WeakPtr.Clear s h = .ok s2) :
    ∃ x, s.weakAt h = some x ∧
      ((x.block_ = none ∧ s2 = s.setWeak h ⟨.null, none⟩) ∨
       ∃ b blk, x.block_ = some b ∧ s.blockAt b = some blk ∧
        ((blk.weak_ref_counter_ ≤ 1 ∧ blk.shared_ref_counter_ < 1 ∧
            s2 = (deleted s b blk).setWeak h ⟨.null, none⟩) ∨
         ((1 < blk.weak_ref_counter_ ∨ 1 ≤ blk.shared_ref_counter_) ∧
            s2 = (s.setBlock b
              { blk with weak_ref_counter_ := blk.weak_ref_counter_ - 1 }).setWeak
              h ⟨.null, none⟩))) := by
  obtain ⟨x, hx⟩ := WeakPtr_Clear_live s s2 h hok
  refine ⟨x, hx, ?_⟩
  cases hb : x.block_ with
  | none =>
    rw [WeakPtr_Clear_none s h x hx hb] at hok
    cases hok
    exact Or.inl ⟨rfl, rfl⟩
  | some b =>
    right
    cases hblk : s.blockAt b with
    | none =>
      simp [WeakPtr.Clear, weakObj_of_weakAt s h x hx, hb, block_error_of_none s b hblk,
        bind, Except.bind] at hok
    | some blk =>
      refine ⟨b, blk, rfl, hblk, ?_⟩
      by_cases hc : 1 < blk.weak_ref_counter_
      · rw [WeakPtr_Clear_dec s h b x blk hx hb hblk hc] at hok
        cases hok
        exact Or.inr ⟨Or.inl hc, rfl⟩
      · have hc1 : blk.weak_ref_counter_ ≤ 1 := by omega
        by_cases hsk : blk.shared_ref_counter_ < 1
        · rw [WeakPtr_Clear_delete s h b x blk hx hb hblk hc1 hsk] at hok
          cases hok
          exact Or.inl ⟨hc1, hsk, rfl⟩
        · by_cases hmin : blk.weak_ref_counter_ = INT_MIN
          · simp [WeakPtr.Clear, weakObj_of_weakAt s h x hx, hb,
              block_of_blockAt s b blk hblk, bind, Except.bind, hc, hsk, intDec, hmin] at hok
          · rw [WeakPtr_Clear_last s h b x blk hx hb hblk hc1 (by omega) hmin] at hok
            cases hok
            exact Or.inr ⟨Or.inr (by omega), rfl⟩

/-- After `SharedPtr::Clear` the object is empty, the other `SharedPtr`
objects and all `WeakPtr` objects are as before. -/
theorem SharedPtr_Clear_handles (s s2 : State) (h : Nat) (hok : SharedPtr.Clear s h = .ok s2) :
    (∀ j, s2.sharedAt j = if j = h then some ⟨.null, none⟩ else s.sharedAt j) ∧
    s2.weak = s.weak ∧ s2.shared.length = s.shared.length := by
  obtain ⟨x, hx, hcase⟩ := SharedPtr_Clear_cases s s2 h hok
  rcases hcase with ⟨_, rfl⟩ | ⟨b, blk, _, hblk, ⟨_, rfl⟩ | ⟨_, _, rfl⟩ | ⟨_, _, rfl⟩⟩
  · exact ⟨fun j => sharedAt_setShared s h j x _ hx, rfl, by simp [State.setShared]⟩
  · refine ⟨fun j => ?_, rfl, by simp [State.setShared]⟩
    rw [sharedAt_setShared _ h j x _ (by simpa using hx)]; simp
  · refine ⟨fun j => ?_, by simp, by simp [State.setShared]⟩
    rw [sharedAt_setShared _ h j x _ (by simpa using hx)]; simp
  · refine ⟨fun j => ?_, by simp, by simp [State.setShared]⟩
    rw [sharedAt_setShared _ h j x _ (by simpa using hx)]; simp

/-- After `WeakPtr::Clear` the object is empty, the other `WeakPtr` objects
and all `SharedPtr` objects are as before. -/
theorem WeakPtr_Clear_handles (s s2 : State) (h : Nat) (hok : WeakPtr.Clear s h = .ok s2) :
    (∀ j, s2.weakAt j = if j = h then some ⟨.null, none⟩ else s.weakAt j) ∧
    s2.shared = s.shared ∧ s2.weak.length = s.weak.length := by
  obtain ⟨x, hx, hcase⟩ := WeakPtr_Clear_cases s s2 h hok
  rcases hcase with ⟨_, rfl⟩ | ⟨b, blk, _, hblk, ⟨_, _, rfl⟩ | ⟨_, rfl⟩⟩
  · exact ⟨fun j => weakAt_setWeak s h j x _ hx, rfl, by simp [State.setWeak]⟩
  · refine ⟨fun j => ?_, by simp, by simp [State.setWeak]⟩
    rw [weakAt_setWeak _ h j x _ (by simpa using hx)]; simp
  · refine ⟨fun j => ?_, rfl, by simp [State.setWeak]⟩
    rw [weakAt_setWeak _ h j x _ (by simpa using hx)]; simp

/-! ## Every operation keeps the invariant -/

theorem SharedPtr_default_inv (s s2 : State) (hinv : Inv s)
    (hok : SharedPtr.default s = .ok s2) : Inv s2 := by
  cases hok
  exact Inv.of_same s _ hinv (fun _ => rfl)
    (fun c => by simpa using refs_newShared s c ⟨.null, none⟩) (fun _ => rfl)

theorem SharedPtr_fromRaw_inv (s s2 : State) (ptr : RawPtr) (hinv : Inv s)
    (hok : SharedPtr.fromRaw s ptr = .ok s2) : Inv s2 := by
  cases hok
  refine adopt_inv s _ (.Block ptr) hinv (fun c => ?_) (fun c => ?_) (fun _ => rfl)
  · simp [blockAt_newBlock]
  · have := refs_newShared (s.newBlock (.Block ptr)) c ⟨ptr, some s.blocks.length⟩
    simp at this
    rw [this]
    simp [eq_comm]

/-- The pattern shared by the copying constructors: a new object with the
members `⟨p, bo⟩`, then `IncreaseRefCounter`. -/
theorem SharedPtr_construct_inv (s s2 : State) (p : RawPtr) (bo : Option Nat) (hinv : Inv s)
    (hlive : ∀ b, bo = some b → s.blockAt b ≠ none)
    (hok : SharedPtr.IncreaseRefCounter (s.newShared ⟨p, bo⟩) s.shared.length = .ok s2) :
    Inv s2 :=
  SharedPtr_acquire_inv s (s.newShared ⟨p, bo⟩) s2 s.shared.length p bo hinv (fun _ => rfl)
    (fun _ => rfl) (by simp [sharedAt_newShared]) (fun c => refs_newShared s c ⟨p, bo⟩)
    hlive hok

theorem Inv.shared_live (s : State) (hinv : Inv s) (o : Nat) (other : SharedPtr)
    (ho : s.sharedAt o = some other) : ∀ b, other.block_ = some b → s.blockAt b ≠ none := by
  intro b hb
  obtain ⟨blk, hblk, _⟩ := Inv.live_of_shared s hinv o b other ho hb
  simp [hblk]

theorem Inv.weak_live (s : State) (hinv : Inv s) (o : Nat) (other : WeakPtr)
    (ho : s.weakAt o = some other) : ∀ b, other.block_ = some b → s.blockAt b ≠ none := by
  intro b hb
  obtain ⟨blk, hblk, _⟩ := Inv.live_of_weak s hinv o b other ho hb
  simp [hblk]

theorem SharedPtr_copy_inv (s s2 : State) (o : Nat) (hinv : Inv s)
    (hok : SharedPtr.copy s o = .ok s2) : Inv s2 := by
  cases ho : s.sharedAt o with
  | none => simp [SharedPtr.copy, sharedObj_error_of_none s o ho, bind, Except.bind] at hok
  | some other =>
    simp only [SharedPtr.copy, sharedObj_of_sharedAt s o other ho, bind, Except.bind] at hok
    exact SharedPtr_construct_inv s s2 _ _ hinv (Inv.shared_live s hinv o other ho) hok

theorem SharedPtr_alias_inv (s s2 : State) (o : Nat) (ptr : RawPtr) (hinv : Inv s)
    (hok : SharedPtr.alias s o ptr = .ok s2) : Inv s2 := by
  cases ho : s.sharedAt o with
  | none => simp [SharedPtr.alias, sharedObj_error_of_none s o ho, bind, Except.bind] at hok
  | some other =>
    simp only [SharedPtr.alias, sharedObj_of_sharedAt s o other ho, bind, Except.bind] at hok
    exact SharedPtr_construct_inv s s2 _ _ hinv (Inv.shared_live s hinv o other ho) hok

theorem bind_ok {α β : Type} (x : Except Fault α) (f : α → Except Fault β) (r : β)
    (h : (x >>= f) = .ok r) : ∃ a, x = .ok a ∧ f a = .ok r := by
  cases x with
  | error e => simp [bind, Except.bind] at h
  | ok a => exact ⟨a, rfl, h⟩

theorem SharedPtr_move_inv (s s2 : State) (o : Nat) (hinv : Inv s)
    (hok : SharedPtr.move s o = .ok s2) : Inv s2 := by
  obtain ⟨other, h0, hrest⟩ := bind_ok _ _ _ hok
  have ho := sharedAt_of_sharedObj s o other h0
  obtain ⟨s1, h1, h2⟩ := bind_ok _ _ _ hrest
  exact SharedPtr_Clear_inv s1 s2 o
    (SharedPtr_construct_inv s s1 _ _ hinv (Inv.shared_live s hinv o other ho) h1) h2

theorem SharedPtr_fromWeak_inv (s s2 : State) (w : Nat) (hinv : Inv s)
    (hok : SharedPtr.fromWeak s w = .ok s2) : Inv s2 := by
  cases ho : s.weakAt w with
  | none => simp [SharedPtr.fromWeak, weakObj_error_of_none s w ho, bind, Except.bind] at hok
  | some other =>
    simp only [SharedPtr.fromWeak, weakObj_of_weakAt s w other ho, bind, Except.bind] at hok
    cases hb : other.block_ with
    | none => simp [hb, throw, throwThe, MonadExceptOf.throw] at hok
    | some b =>
      simp only [hb] at hok
      refine SharedPtr_construct_inv s s2 other.ptr_ (some b) hinv ?_ hok
      intro b2 hb2
      cases hb2
      exact Inv.weak_live s hinv w other ho b hb

theorem SharedPtr_dtor_inv (s s2 : State) (h : Nat) (hinv : Inv s)
    (hok : SharedPtr.dtor s h = .ok s2) : Inv s2 := by
  obtain ⟨s1, h1, h2⟩ := bind_ok _ _ _ hok
  cases h2
  have hi1 := SharedPtr_Clear_inv s s1 h hinv h1
  have hh := (SharedPtr_Clear_handles s s1 h h1).1 h
  simp at hh
  exact Inv.of_same s1 _ hi1 (fun _ => rfl)
    (fun c => by simpa using refs_endShared s1 h c _ hh) (fun _ => rfl)

/-- The pattern shared by the two assignment operators: `Clear()`, the two
member writes from `other`, `IncreaseRefCounter()`. -/
theorem SharedPtr_assign_inv (s s2 : State) (h o : Nat) (hinv : Inv s)
    (hok : SharedPtr.copyAssign s h o = .ok s2) : Inv s2 := by
  obtain ⟨s1, h1, h2⟩ := bind_ok _ _ _ hok
  have hi1 := SharedPtr_Clear_inv s s1 h hinv h1
  have hh := (SharedPtr_Clear_handles s s1 h h1).1 h
  simp at hh
  obtain ⟨other, h3, h4⟩ := bind_ok _ _ _ h2
  have ho := sharedAt_of_sharedObj s1 o other h3
  refine SharedPtr_acquire_inv s1 (s1.setShared h ⟨other.ptr_, other.block_⟩) s2 h
    other.ptr_ other.block_ hi1 (fun _ => rfl)
    (fun _ => rfl) (by simp [sharedAt_setShared s1 h h _ _ hh]) (fun c => ?_)
    (Inv.shared_live s1 hi1 o other ho) h4
  have := refs_setShared s1 h c _ ⟨other.ptr_, other.block_⟩ hh
  simpa using this

theorem SharedPtr_moveAssign_eq (s : State) (h o : Nat) :
    SharedPtr.moveAssign s h o = SharedPtr.copyAssign s h o := rfl

theorem SharedPtr_Reset_inv (s s2 : State) (h : Nat) (ptr : RawPtr) (hinv : Inv s)
    (hok : SharedPtr.Reset s h ptr = .ok s2) : Inv s2 := by
  obtain ⟨self, h0, h1⟩ := bind_ok _ _ _ hok
  by_cases hne : ptr ≠ SharedPtr.Get self
  · rw [if_pos hne] at h1
    obtain ⟨s1, h2, h3⟩ := bind_ok _ _ _ h1
    have hi1 := SharedPtr_Clear_inv s s1 h hinv h2
    have hh := (SharedPtr_Clear_handles s s1 h h2).1 h
    simp at hh
    by_cases hp : ptr ≠ RawPtr.null
    · rw [if_pos hp] at h3
      cases h3
      refine adopt_inv s1 _ (.Block ptr) hi1 (fun c => ?_) (fun c => ?_) (fun _ => rfl)
      · simp [blockAt_newBlock]
      · have := refs_setShared (s1.newBlock (.Block ptr)) h c _ ⟨ptr, some s1.blocks.length⟩
          (by simpa using hh)
        simp at this
        rw [this]
        simp [eq_comm]
    · rw [if_neg hp] at h3
      cases h3
      exact hi1
  · rw [if_neg hne] at h1
    cases h1
    exact hinv

theorem SharedPtr_Swap_inv (s s2 : State) (h o : Nat) (hinv : Inv s)
    (hok : SharedPtr.Swap s h o = .ok s2) : Inv s2 := by
  obtain ⟨self, h0, h1⟩ := bind_ok _ _ _ hok
  obtain ⟨other, h2, h3⟩ := bind_ok _ _ _ h1
  cases h3
  have hs := sharedAt_of_sharedObj s h self h0
  have ho := sharedAt_of_sharedObj s o other h2
  refine Inv.of_same s _ hinv (fun _ => rfl) (fun c => ?_) (fun _ => rfl)
  have e1 := refs_setShared s h c self ⟨other.ptr_, other.block_⟩ hs
  have hmid := sharedAt_setShared s h o self ⟨other.ptr_, other.block_⟩ hs
  by_cases hoh : o = h
  · subst hoh
    rw [hs] at ho
    cases ho
    simp at hmid
    have e2 := refs_setShared _ o c _ ⟨self.ptr_, self.block_⟩ hmid
    simp only at e1 e2
    omega
  · simp [hoh] at hmid
    rw [ho] at hmid
    have e2 := refs_setShared _ o c _ ⟨self.ptr_, self.block_⟩ hmid
    simp only at e1 e2
    omega

theorem MakeShared_inv (s s2 : State) (hinv : Inv s) (hok : MakeShared s = .ok s2) :
    Inv s2 := by
  unfold MakeShared at hok
  obtain ⟨s1, h1, h2⟩ := bind_ok _ _ _ hok
  cases h1
  obtain ⟨s4, h3, h4⟩ := bind_ok _ _ _ h2
  have hi1 : Inv (s.newShared ⟨.null, none⟩) := SharedPtr_default_inv s _ hinv rfl
  have hsp : (s.newShared ⟨.null, none⟩).sharedAt s.shared.length = some ⟨.null, none⟩ := by
    simp [sharedAt_newShared]
  have hi3 : Inv (((s.newShared ⟨.null, none⟩).newBlock .BlockHolder).setShared s.shared.length
      ⟨.storage (s.newShared ⟨.null, none⟩).blocks.length,
        some (s.newShared ⟨.null, none⟩).blocks.length⟩) := by
    refine adopt_inv (s.newShared ⟨.null, none⟩) _ .BlockHolder hi1 (fun c => ?_) (fun c => ?_)
      (fun _ => rfl)
    · simp [blockAt_newBlock]
    · have := refs_setShared ((s.newShared ⟨.null, none⟩).newBlock .BlockHolder)
        s.shared.length c _ ⟨.storage (s.newShared ⟨.null, none⟩).blocks.length,
          some (s.newShared ⟨.null, none⟩).blocks.length⟩ (by simpa using hsp)
      simp at this
      rw [this]
      simp [eq_comm]
  exact SharedPtr_dtor_inv s4 s2 _ (SharedPtr_move_inv _ s4 _ hi3 h3) h4

theorem WeakPtr_default_inv (s s2 : State) (hinv : Inv s)
    (hok : WeakPtr.default s = .ok s2) : Inv s2 := by
  cases hok
  exact Inv.of_same s _ hinv (fun _ => rfl) (fun _ => rfl)
    (fun c => by simpa using refs_newWeak s c ⟨.null, none⟩)

/-- The pattern shared by the copying constructors of `WeakPtr`. -/
theorem WeakPtr_construct_inv (s s2 : State) (p : RawPtr) (bo : Option Nat) (hinv : Inv s)
    (hlive : ∀ b, bo = some b → s.blockAt b ≠ none)
    (hok : WeakPtr.IncreaseRefCounter (s.newWeak ⟨p, bo⟩) s.weak.length = .ok s2) :
    Inv s2 :=
  WeakPtr_acquire_inv s (s.newWeak ⟨p, bo⟩) s2 s.weak.length p bo hinv (fun _ => rfl)
    (fun _ => rfl) (by simp [weakAt_newWeak]) (fun c => le_of_eq (refs_newWeak s c ⟨p, bo⟩))
    hlive hok

theorem WeakPtr_copy_inv (s s2 : State) (o : Nat) (hinv : Inv s)
    (hok : WeakPtr.copy s o = .ok s2) : Inv s2 := by
  obtain ⟨other, h0, h1⟩ := bind_ok _ _ _ hok
  have ho := weakAt_of_weakObj s o other h0
  exact WeakPtr_construct_inv s s2 _ _ hinv (Inv.weak_live s hinv o other ho) h1

theorem WeakPtr_fromShared_inv (s s2 : State) (o : Nat) (hinv : Inv s)
    (hok : WeakPtr.fromShared s o = .ok s2) : Inv s2 := by
  obtain ⟨other, h0, h1⟩ := bind_ok _ _ _ hok
  have ho := sharedAt_of_sharedObj s o other h0
  exact WeakPtr_construct_inv s s2 _ _ hinv (Inv.shared_live s hinv o other ho) h1

theorem WeakPtr_move_inv (s s2 : State) (o : Nat) (hinv : Inv s)
    (hok : WeakPtr.move s o = .ok s2) : Inv s2 := by
  obtain ⟨other, h0, hrest⟩ := bind_ok _ _ _ hok
  have ho := weakAt_of_weakObj s o other h0
  obtain ⟨s1, h1, h2⟩ := bind_ok _ _ _ hrest
  exact WeakPtr_Clear_inv s1 s2 o
    (WeakPtr_construct_inv s s1 _ _ hinv (Inv.weak_live s hinv o other ho) h1) h2

theorem WeakPtr_dtor_inv (s s2 : State) (h : Nat) (hinv : Inv s)
    (hok : WeakPtr.dtor s h = .ok s2) : Inv s2 := by
  obtain ⟨s1, h1, h2⟩ := bind_ok _ _ _ hok
  cases h2
  have hi1 := WeakPtr_Clear_inv s s1 h hinv h1
  have hh := (WeakPtr_Clear_handles s s1 h h1).1 h
  simp at hh
  exact Inv.of_same s1 _ hi1 (fun _ => rfl) (fun _ => rfl)
    (fun c => by simpa using refs_endWeak s1 h c _ hh)

theorem WeakPtr_copyAssign_inv (s s2 : State) (h o : Nat) (hinv : Inv s)
    (hok : WeakPtr.copyAssign s h o = .ok s2) : Inv s2 := by
  obtain ⟨s1, h1, h2⟩ := bind_ok _ _ _ hok
  have hi1 := WeakPtr_Clear_inv s s1 h hinv h1
  have hh := (WeakPtr_Clear_handles s s1 h h1).1 h
  simp at hh
  obtain ⟨other, h3, h4⟩ := bind_ok _ _ _ h2
  have ho := weakAt_of_weakObj s1 o other h3
  refine WeakPtr_acquire_inv s1 (s1.setWeak h ⟨other.ptr_, other.block_⟩) s2 h
    other.ptr_ other.block_ hi1 (fun _ => rfl)
    (fun _ => rfl) (by simp [weakAt_setWeak s1 h h _ _ hh]) (fun c => ?_)
    (Inv.weak_live s1 hi1 o other ho) h4
  have := refs_setWeak s1 h c _ ⟨other.ptr_, other.block_⟩ hh
  simp at this
  omega

theorem weakObj_setWeak (s : State) (h j : Nat) (old x : WeakPtr)
    (hh : s.weakAt h = some old) :
    (s.setWeak h x).weakObj j = if j = h then .ok x else s.weakObj j := by
  unfold State.weakObj
  rw [weakAt_setWeak s h j old x hh]
  by_cases hj : j = h <;> simp [hj]

/-- The member writes of `WeakPtr::operator=(WeakPtr&&)` after `Clear()`,
grouped per object: this object receives both members of `other`, and `other`
receives two null pointers. -/
theorem WeakPtr_moveAssign_eq (s s1 : State) (h o : Nat) (other : WeakPtr)
    (hclear : WeakPtr.Clear s h = .ok s1) (ho : s1.weakAt o = some other) :
    WeakPtr.moveAssign s h o
      = WeakPtr.IncreaseRefCounter
          ((s1.setWeak h ⟨other.ptr_, other.block_⟩).setWeak o ⟨.null, none⟩) h := by
  have hh := (WeakPtr_Clear_handles s s1 h hclear).1 h
  simp at hh
  unfold WeakPtr.moveAssign
  rw [hclear]
  simp only [bind, Except.bind]
  rw [weakObj_of_weakAt s1 o other ho, weakObj_of_weakAt s1 h _ hh]
  simp only
  by_cases hoh : o = h
  · subst hoh
    rw [hh] at ho
    cases ho
    have a2 := weakAt_setWeak s1 o o _ ⟨.null, none⟩ hh
    simp at a2
    rw [weakObj_of_weakAt _ o _ a2]
    simp only
    have a3 := weakAt_setWeak _ o o _ ⟨.null, none⟩ a2
    simp at a3
    rw [weakObj_of_weakAt _ o _ a3]
    simp only
    have a4 := weakAt_setWeak _ o o _ ⟨.null, none⟩ a3
    simp at a4
    rw [weakObj_of_weakAt _ o _ a4]
    simp only [State.setWeak, List.set_set]
  · have hho : h ≠ o := fun e => hoh e.symm
    have a2 := weakAt_setWeak s1 h o _ ⟨other.ptr_, none⟩ hh
    simp [hoh, ho] at a2
    rw [weakObj_of_weakAt _ o _ a2]
    simp only
    have a3o := weakAt_setWeak _ o o _ ⟨.null, other.block_⟩ a2
    simp at a3o
    have a3h := weakAt_setWeak _ o h _ ⟨.null, other.block_⟩ a2
    simp [hho, weakAt_setWeak s1 h h _ ⟨other.ptr_, none⟩ hh] at a3h
    rw [weakObj_of_weakAt _ o _ a3o, weakObj_of_weakAt _ h _ a3h]
    simp only
    have a4o := weakAt_setWeak _ h o _ ⟨other.ptr_, other.block_⟩ a3h
    simp [hoh, a3o] at a4o
    rw [weakObj_of_weakAt _ o _ a4o]
    simp only [State.setWeak]
    congr 2
    rw [List.set_comm _ _ _ hho, List.set_set, List.set_comm _ _ _ hoh, List.set_set]

theorem WeakPtr_moveAssign_inv (s s2 : State) (h o : Nat) (hinv : Inv s)
    (hok : WeakPtr.moveAssign s h o = .ok s2) : Inv s2 := by
  have hok0 := hok
  unfold WeakPtr.moveAssign at hok0
  obtain ⟨s1, h1, h2⟩ := bind_ok _ _ _ hok0
  obtain ⟨other, h3, _⟩ := bind_ok _ _ _ h2
  have ho := weakAt_of_weakObj s1 o other h3
  rw [WeakPtr_moveAssign_eq s s1 h o other h1 ho] at hok
  have hi1 := WeakPtr_Clear_inv s s1 h hinv h1
  have hh := (WeakPtr_Clear_handles s s1 h h1).1 h
  simp at hh
  have e1 : ∀ c, refs (s1.setWeak h ⟨other.ptr_, other.block_⟩).weak c + _ = _ :=
    fun c => refs_setWeak s1 h c _ ⟨other.ptr_, other.block_⟩ hh
  have hmid := weakAt_setWeak s1 h o _ ⟨other.ptr_, other.block_⟩ hh
  by_cases hoh : o = h
  · subst hoh
    simp at hmid
    have hfin := weakAt_setWeak _ o o _ ⟨.null, none⟩ hmid
    simp at hfin
    refine WeakPtr_acquire_inv s1
      ((s1.setWeak o ⟨other.ptr_, other.block_⟩).setWeak o ⟨.null, none⟩) s2 o .null none hi1
      (fun _ => rfl) (fun _ => rfl) hfin
      (fun c => ?_) (fun b hb => by cases hb) hok
    have e2 := refs_setWeak _ o c _ ⟨.null, none⟩ hmid
    have e1c := e1 c
    simp only at e1c e2
    simp at e1c e2 ⊢
    omega
  · simp [hoh, ho] at hmid
    have hfin := weakAt_setWeak _ o h _ ⟨.null, none⟩ hmid
    have hho : h ≠ o := fun e => hoh e.symm
    simp [hho, weakAt_setWeak s1 h h _ ⟨other.ptr_, other.block_⟩ hh] at hfin
    refine WeakPtr_acquire_inv s1
      ((s1.setWeak h ⟨other.ptr_, other.block_⟩).setWeak o ⟨.null, none⟩) s2 h
      other.ptr_ other.block_ hi1 (fun _ => rfl)
      (fun _ => rfl) hfin (fun c => ?_) (Inv.weak_live s1 hi1 o other ho) hok
    have e2 := refs_setWeak _ o c _ ⟨.null, none⟩ hmid
    have e1c := e1 c
    simp at e1c e2 ⊢
    omega

theorem WeakPtr_Swap_inv (s s2 : State) (h o : Nat) (hinv : Inv s)
    (hok : WeakPtr.Swap s h o = .ok s2) : Inv s2 := by
  obtain ⟨self, h0, h1⟩ := bind_ok _ _ _ hok
  obtain ⟨other, h2, h3⟩ := bind_ok _ _ _ h1
  cases h3
  have hs := weakAt_of_weakObj s h self h0
  have ho := weakAt_of_weakObj s o other h2
  refine Inv.of_same s _ hinv (fun _ => rfl) (fun _ => rfl) (fun c => ?_)
  have e1 := refs_setWeak s h c self ⟨other.ptr_, other.block_⟩ hs
  have hmid := weakAt_setWeak s h o self ⟨other.ptr_, other.block_⟩ hs
  by_cases hoh : o = h
  · subst hoh
    rw [hs] at ho
    cases ho
    simp at hmid
    have e2 := refs_setWeak _ o c _ ⟨self.ptr_, self.block_⟩ hmid
    simp only at e1 e2
    omega
  · simp [hoh] at hmid
    rw [ho] at hmid
    have e2 := refs_setWeak _ o c _ ⟨self.ptr_, self.block_⟩ hmid
    simp only at e1 e2
    omega

theorem WeakPtr_Lock_inv (s s2 : State) (w : Nat) (hinv : Inv s)
    (hok : WeakPtr.Lock s w = .ok s2) : Inv s2 := by
  obtain ⟨self, h0, h1⟩ := bind_ok _ _ _ hok
  obtain ⟨e, h2, h3⟩ := bind_ok _ _ _ h1
  cases e with
  | true => exact SharedPtr_default_inv s s2 hinv h3
  | false => exact SharedPtr_fromWeak_inv s s2 w hinv h3

/-- Every operation that completes keeps the invariant. -/
theorem step_inv (s s2 : State) (op : Op) (hinv : Inv s) (hok : step s op = .ok s2) :
    Inv s2 := by
  cases op with
  | sharedDefault => exact SharedPtr_default_inv s s2 hinv hok
  | sharedFromRaw ptr => exact SharedPtr_fromRaw_inv s s2 ptr hinv hok
  | makeShared => exact MakeShared_inv s s2 hinv hok
  | sharedCopy o => exact SharedPtr_copy_inv s s2 o hinv hok
  | sharedMove o => exact SharedPtr_move_inv s s2 o hinv hok
  | sharedAlias o ptr => exact SharedPtr_alias_inv s s2 o ptr hinv hok
  | sharedFromWeak w => exact SharedPtr_fromWeak_inv s s2 w hinv hok
  | sharedDtor h => exact SharedPtr_dtor_inv s s2 h hinv hok
  | sharedCopyAssign h o => exact SharedPtr_assign_inv s s2 h o hinv hok
  | sharedMoveAssign h o => exact SharedPtr_assign_inv s s2 h o hinv hok
  | sharedReset h ptr => exact SharedPtr_Reset_inv s s2 h ptr hinv hok
  | sharedSwap h o => exact SharedPtr_Swap_inv s s2 h o hinv hok
  | weakDefault => exact WeakPtr_default_inv s s2 hinv hok
  | weakCopy o => exact WeakPtr_copy_inv s s2 o hinv hok
  | weakMove o => exact WeakPtr_move_inv s s2 o hinv hok
  | weakFromShared o => exact WeakPtr_fromShared_inv s s2 o hinv hok
  | weakCopyAssign h o => exact WeakPtr_copyAssign_inv s s2 h o hinv hok
  | weakMoveAssign h o => exact WeakPtr_moveAssign_inv s s2 h o hinv hok
  | weakDtor h => exact WeakPtr_dtor_inv s s2 h hinv hok
  | weakReset h => exact WeakPtr_Clear_inv s s2 h hinv hok
  | weakSwap h o => exact WeakPtr_Swap_inv s s2 h o hinv hok
  | weakLock w => exact WeakPtr_Lock_inv s s2 w hinv hok

/-- Every reachable state satisfies the invariant. -/
theorem Reachable.inv (s : State) (hr : Reachable s) : Inv s := by
  induction hr with
  | init => exact Inv.init
  | step s s1 op _ hok ih => exact step_inv s s1 op ih hok

/-! ## Reachable states -/

theorem Reachable.run (s s2 : State) (ops : List Op) (hr : Reachable s)
    (hok : run s ops = .ok s2) : Reachable s2 := by
  induction ops generalizing s with
  | nil =>
    cases hok
    exact hr
  | cons op ops ih =>
    obtain ⟨s1, h1, h2⟩ := bind_ok _ _ _ hok
    exact ih s1 (Reachable.step s s1 op hr h1) h2

theorem toSizeT_natCast (n : Nat) (h : (n : Int) ≤ INT_MAX) : toSizeT (n : Int) = n := by
  unfold toSizeT
  unfold INT_MAX at h
  have h2 : (n : Int) % 2 ^ 64 = n := Int.emod_eq_of_lt (by omega) (by omega)
  rw [h2]
  simp

/-- No live handle of the table points to `b` exactly when the count is `0`. -/
theorem refs_eq_zero_iff (l : List (Option Handle)) (b : Nat) :
    refs l b = 0 ↔ ∀ i x, slot l i = some x → x.block_ ≠ some b := by
  constructor
  · intro h0 i x hx hb
    have := refs_zero_of_slot l i b x hx hb
    omega
  · intro hall
    unfold refs
    rw [List.countP_eq_zero]
    intro e he
    simp only [decide_eq_true_eq]
    intro hown
    obtain ⟨i, hi, hget⟩ := List.getElem_of_mem he
    cases e with
    | none => simp [owner] at hown
    | some x =>
      have hs : slot l i = some x := by
        unfold slot
        rw [List.getElem?_eq_getElem hi, hget]
      exact hall i x hs (by simpa [owner] using hown)

/-! ## Claims -/

/-- C1: in every reachable state, for every live control block, the strong
counter `shared_ref_counter_` equals the number of live `SharedPtr` objects
whose `block_` is that block, and `UseCount()` of each such object returns
that number. -/
theorem C1_use_count_counts_owners (s : State) (hr : Reachable s) (b : Nat) (blk : BlockBase)
    (hb : s.blockAt b = some blk) :
    blk.shared_ref_counter_ = (refs s.shared b : Int) ∧
    ∀ h x, s.sharedAt h = some x → x.block_ = some b →
      SharedPtr.UseCount s x = .ok (refs s.shared b) := by
  obtain ⟨g1, _, g3, _⟩ := (Reachable.inv s hr b).1 blk hb
  refine ⟨g1, fun h x _ hxb => ?_⟩
  unfold SharedPtr.UseCount
  rw [hxb]
  simp only [block_of_blockAt s b blk hb, bind, Except.bind, pure, Except.pure]
  rw [g1, toSizeT_natCast _ (by rw [← g1]; exact g3)]

/-- C1, witness: after `SharedPtr a(p); SharedPtr b(a); SharedPtr c(b);` and the
destruction of `c`, the block is live with strong counter 2, two live owners,
and `a.UseCount() == 2`. -/
theorem C1_use_count_counts_owners_witness :
    Reachable C1_state ∧ C1_state.blockAt 0 = some ⟨2, 0, .Block (.obj 7)⟩ ∧
    refs C1_state.shared 0 = 2 ∧
    SharedPtr.UseCount C1_state ⟨.obj 7, some 0⟩ = .ok 2 :=
  have hr : Reachable C1_state :=
    Reachable.run State.init _
      [.sharedFromRaw (.obj 7), .sharedCopy 0, .sharedCopy 1, .sharedDtor 2]
      Reachable.init rfl
  have h := C1_use_count_counts_owners C1_state hr 0 ⟨2, 0, .Block (.obj 7)⟩ rfl
  ⟨hr, rfl, rfl, h.2 0 ⟨.obj 7, some 0⟩ rfl rfl⟩

/-- C6: in every reachable state, for every live `WeakPtr` bound to a control
block `b`, `Expired()` completes, and it returns `true` exactly when no live
`SharedPtr` object has `block_ == b`. -/
theorem C6_expired_iff_no_owner (s : State) (hr : Reachable s) (w b : Nat) (x : WeakPtr)
    (hw : s.weakAt w = some x) (hb : x.block_ = some b) :
    ∃ e, WeakPtr.Expired s x = .ok e ∧
      (e = true ↔ ∀ h y, s.sharedAt h = some y → y.block_ ≠ some b) := by
  obtain ⟨blk, hblk, _, g1, _, g3, _⟩ := Inv.live_of_weak s (Reachable.inv s hr) w b x hw hb
  refine ⟨refs s.shared b == 0, ?_, ?_⟩
  · unfold WeakPtr.Expired WeakPtr.UseCount
    rw [hb]
    simp only [block_of_blockAt s b blk hblk, bind, Except.bind, pure, Except.pure]
    rw [g1, toSizeT_natCast _ (by rw [← g1]; exact g3)]
  · have := refs_eq_zero_iff s.shared b
    unfold State.sharedAt
    rw [← this]
    simp

/-- C6, witness: after `SharedPtr a(p); WeakPtr w(a);` and the destruction of
`a`, the block is kept for `w`, no `SharedPtr` points to it, and
`w.Expired()` is `true`. -/
theorem C6_expired_iff_no_owner_witness :
    Reachable C6_state ∧ C6_state.weakAt 0 = some ⟨.obj 7, some 0⟩ ∧
    WeakPtr.Expired C6_state ⟨.obj 7, some 0⟩ = .ok true ∧
    ∀ h y, C6_state.sharedAt h = some y → y.block_ ≠ some 0 :=
  have hr : Reachable C6_state :=
    Reachable.run State.init _ [.sharedFromRaw (.obj 7), .weakFromShared 0, .sharedDtor 0]
      Reachable.init rfl
  have h := C6_expired_iff_no_owner C6_state hr 0 0 ⟨.obj 7, some 0⟩ rfl rfl
  have he : WeakPtr.Expired C6_state ⟨.obj 7, some 0⟩ = .ok true := rfl
  ⟨hr, rfl, he,
    match h with
    | ⟨_, h1, h2⟩ => h2.mp (Except.ok.inj (h1.symm.trans he))⟩

/-- C2: the program `auto sp = MakeShared<T>(); WeakPtr<T> w(sp);`, then the
destruction of `sp`, then the destruction of `w`.  The destructor `~T()` of
the embedded resource is run at the release of the last strong owner and a
second time when the last `WeakPtr` deletes the `BlockHolder`; the same
program over a `Block<T>` (`SharedPtr<T> sp(p)`) runs the destructor once. -/
theorem C2_block_holder_resource_destroyed_twice :
    (∃ s, run State.init [.makeShared, .weakFromShared 1, .sharedDtor 1] = .ok s ∧
      s.dtor_log = [.storage 0] ∧ s.free_log = []) ∧
    (∃ s, run State.init [.makeShared, .weakFromShared 1, .sharedDtor 1, .weakDtor 0] = .ok s ∧
      s.dtor_log = [.storage 0, .storage 0] ∧ s.free_log = [0]) ∧
    (∃ s, run State.init
        [.sharedFromRaw (.obj 7), .weakFromShared 0, .sharedDtor 0, .weakDtor 0] = .ok s ∧
      s.dtor_log = [.obj 7] ∧ s.free_log = [0]) :=
  ⟨⟨_, rfl, rfl, rfl⟩, ⟨_, rfl, rfl, rfl⟩, ⟨_, rfl, rfl, rfl⟩⟩

/-- C3: after `SharedPtr<T> a(p); WeakPtr<T> w(a);` and the destruction of `a`,
the handle `w` is expired (its block is kept with strong counter 0), yet the
constructor `SharedPtr<T>(w)` does not throw: it completes with a new owner of
the block whose resource is already destroyed. -/
theorem C3_from_expired_weak_does_not_throw :
    run State.init [.sharedFromRaw (.obj 7), .weakFromShared 0, .sharedDtor 0] = .ok C6_state ∧
    C6_state.weakAt 0 = some ⟨.obj 7, some 0⟩ ∧
    WeakPtr.Expired C6_state ⟨.obj 7, some 0⟩ = .ok true ∧
    SharedPtr.fromWeak C6_state 0
      = .ok ⟨[some ⟨1, 1, .Block .null⟩], [none, some ⟨.obj 7, some 0⟩],
          [some ⟨.obj 7, some 0⟩], [.obj 7], []⟩ :=
  ⟨rfl, rfl, rfl, rfl⟩

/-- C7: for the sole owner `a` of a resource `p`, the self assignment `a = a`
destroys the resource, deallocates the block and leaves `a` empty. -/
theorem C7_self_copy_assignment_releases :
    run State.init [.sharedFromRaw (.obj 7)]
      = .ok ⟨[some ⟨1, 0, .Block (.obj 7)⟩], [some ⟨.obj 7, some 0⟩], [], [], []⟩ ∧
    SharedPtr.copyAssign ⟨[some ⟨1, 0, .Block (.obj 7)⟩], [some ⟨.obj 7, some 0⟩], [], [], []⟩ 0 0
      = .ok ⟨[none], [some ⟨.null, none⟩], [], [.obj 7], [0]⟩ :=
  ⟨rfl, rfl⟩

/-- C9: for an empty `a` and the sole owner `b` of `p`, after `a = std::move(b)`
the source `b` still holds `p` and its block, and the strong counter is 2. -/
theorem C9_move_assignment_keeps_source :
    run State.init [.sharedDefault, .sharedFromRaw (.obj 7)]
      = .ok ⟨[some ⟨1, 0, .Block (.obj 7)⟩], [some ⟨.null, none⟩, some ⟨.obj 7, some 0⟩],
          [], [], []⟩ ∧
    SharedPtr.moveAssign
        ⟨[some ⟨1, 0, .Block (.obj 7)⟩], [some ⟨.null, none⟩, some ⟨.obj 7, some 0⟩],
          [], [], []⟩ 0 1
      = .ok ⟨[some ⟨2, 0, .Block (.obj 7)⟩],
          [some ⟨.obj 7, some 0⟩, some ⟨.obj 7, some 0⟩], [], [], []⟩ ∧
    SharedPtr.UseCount
        ⟨[some ⟨2, 0, .Block (.obj 7)⟩],
          [some ⟨.obj 7, some 0⟩, some ⟨.obj 7, some 0⟩], [], [], []⟩ ⟨.obj 7, some 0⟩
      = .ok 2 :=
  ⟨rfl, rfl, rfl⟩

/-- C10: with `SharedPtr<T> a(p); WeakPtr<T> w(a); WeakPtr<T> v;` the block has
weak counter 1.  Move construction from `w` leaves it at 1 and copy
construction makes it 2, but the move assignment `v = std::move(w)` makes it 2
as well, with `w` empty and `v` the only observer. -/
theorem C10_weak_move_assignment_overcounts :
    run State.init [.sharedFromRaw (.obj 7), .weakFromShared 0, .weakDefault]
      = .ok ⟨[some ⟨1, 1, .Block (.obj 7)⟩], [some ⟨.obj 7, some 0⟩],
          [some ⟨.obj 7, some 0⟩, some ⟨.null, none⟩], [], []⟩ ∧
    WeakPtr.move ⟨[some ⟨1, 1, .Block (.obj 7)⟩], [some ⟨.obj 7, some 0⟩],
          [some ⟨.obj 7, some 0⟩, some ⟨.null, none⟩], [], []⟩ 0
      = .ok ⟨[some ⟨1, 1, .Block (.obj 7)⟩], [some ⟨.obj 7, some 0⟩],
          [some ⟨.null, none⟩, some ⟨.null, none⟩, some ⟨.obj 7, some 0⟩], [], []⟩ ∧
    WeakPtr.copy ⟨[some ⟨1, 1, .Block (.obj 7)⟩], [some ⟨.obj 7, some 0⟩],
          [some ⟨.obj 7, some 0⟩, some ⟨.null, none⟩], [], []⟩ 0
      = .ok ⟨[some ⟨1, 2, .Block (.obj 7)⟩], [some ⟨.obj 7, some 0⟩],
          [some ⟨.obj 7, some 0⟩, some ⟨.null, none⟩, some ⟨.obj 7, some 0⟩], [], []⟩ ∧
    WeakPtr.moveAssign ⟨[some ⟨1, 1, .Block (.obj 7)⟩], [some ⟨.obj 7, some 0⟩],
          [some ⟨.obj 7, some 0⟩, some ⟨.null, none⟩], [], []⟩ 1 0
      = .ok ⟨[some ⟨1, 2, .Block (.obj 7)⟩], [some ⟨.obj 7, some 0⟩],
          [some ⟨.null, none⟩, some ⟨.obj 7, some 0⟩], [], []⟩ :=
  ⟨rfl, rfl, rfl, rfl⟩

theorem SharedPtr_UseCount_congr (s s2 : State) (y : SharedPtr)
    (h : ∀ c, s2.blockAt c = s.blockAt c) :
    SharedPtr.UseCount s2 y = SharedPtr.UseCount s y := by
  unfold SharedPtr.UseCount State.block
  cases y.block_ with
  | none => rfl
  | some b => simp only [h b]

theorem BlockBase.inc_dec (blk : BlockBase) :
    ({ ({ blk with shared_ref_counter_ := blk.shared_ref_counter_ + 1 } : BlockBase) with
        shared_ref_counter_ := blk.shared_ref_counter_ + 1 - 1 } : BlockBase) = blk := by
  cases blk
  simp

/-- C8: in every reachable state, move-constructing a new `SharedPtr` from a
live `SharedPtr` `a` (whose strong counter is below `INT_MAX`) completes; it
leaves `a` empty (`Get() == nullptr`, `UseCount() == 0`), gives the new object
(number `s.shared.length`) the raw pointer and the block of `a`, leaves every
control block, hence the strong count and `UseCount()`, as before, runs no
resource destructor and deallocates no block. -/
theorem C8_move_construct (s : State) (hr : Reachable s) (a : Nat) (x : SharedPtr)
    (ha : s.sharedAt a = some x)
    (hmax : ∀ b blk, x.block_ = some b → s.blockAt b = some blk →
      blk.shared_ref_counter_ < INT_MAX) :
    ∃ s2, SharedPtr.move s a = .ok s2 ∧
      s2.sharedAt a = some ⟨.null, none⟩ ∧
      SharedPtr.Get ⟨.null, none⟩ = .null ∧
      SharedPtr.UseCount s2 ⟨.null, none⟩ = .ok 0 ∧
      s2.sharedAt s.shared.length = some ⟨x.ptr_, x.block_⟩ ∧
      SharedPtr.UseCount s2 ⟨x.ptr_, x.block_⟩ = SharedPtr.UseCount s x ∧
      (∀ c, s2.blockAt c = s.blockAt c) ∧
      s2.dtor_log = s.dtor_log ∧ s2.free_log = s.free_log := by
  have hlt := slot_lt _ _ _ ha
  have hne : a ≠ s.shared.length := by omega
  have hne2 : s.shared.length ≠ a := by omega
  have hnew : (s.newShared ⟨x.ptr_, x.block_⟩).sharedAt s.shared.length
      = some ⟨x.ptr_, x.block_⟩ := by simp [sharedAt_newShared]
  have hold : (s.newShared ⟨x.ptr_, x.block_⟩).sharedAt a = some x := by
    simp [sharedAt_newShared, hne, ha]
  by_cases hb : x.block_ = none
  · have hInc := SharedPtr_IncreaseRefCounter_none (s.newShared ⟨x.ptr_, x.block_⟩)
      s.shared.length _ hnew hb
    have hClear := SharedPtr_Clear_none (s.newShared ⟨x.ptr_, x.block_⟩) a x hold hb
    refine ⟨(s.newShared ⟨x.ptr_, x.block_⟩).setShared a ⟨.null, none⟩, ?_, ?_, rfl, rfl, ?_, ?_,
      fun _ => rfl, rfl, rfl⟩
    · simp only [SharedPtr.move, sharedObj_of_sharedAt s a x ha, bind, Except.bind, hInc, hClear]
    · simp [sharedAt_setShared _ a a x _ hold]
    · rw [sharedAt_setShared _ a _ x _ hold, if_neg hne2]
      exact hnew
    · simp [SharedPtr.UseCount, hb]
  · obtain ⟨b, hb⟩ := Option.ne_none_iff_exists'.mp hb
    obtain ⟨blk, hblk, h1, _⟩ := Inv.live_of_shared s (Reachable.inv s hr) a b x ha hb
    have hm := hmax b blk hb hblk
    have hInc := SharedPtr_IncreaseRefCounter_some (s.newShared ⟨x.ptr_, x.block_⟩)
      s.shared.length b _ blk hnew hb hblk (by omega)
    have hblk2 := blockAt_setBlock (s.newShared ⟨x.ptr_, x.block_⟩) b b blk
      { blk with shared_ref_counter_ := blk.shared_ref_counter_ + 1 } hblk
    simp only [if_true] at hblk2
    have hClear := SharedPtr_Clear_dec _ a b x _ (by simpa using hold) hb hblk2
      (by simp only; omega)
    have hblocks : ∀ c, (((s.newShared ⟨x.ptr_, x.block_⟩).setBlock b
        { blk with shared_ref_counter_ := blk.shared_ref_counter_ + 1 }).setBlock b
        { ({ blk with shared_ref_counter_ := blk.shared_ref_counter_ + 1 } : BlockBase) with
          shared_ref_counter_ := blk.shared_ref_counter_ + 1 - 1 }).blockAt c
        = s.blockAt c := by
      intro c
      have hblk1 : (s.newShared ⟨x.ptr_, x.block_⟩).blockAt b = some blk := hblk
      rw [blockAt_setBlock _ b c _ _ hblk2, BlockBase.inc_dec,
        blockAt_setBlock _ b c blk _ hblk1]
      by_cases hc : c = b
      · simp [hc, hblk]
      · simp [hc]
    refine ⟨(((s.newShared ⟨x.ptr_, x.block_⟩).setBlock b
        { blk with shared_ref_counter_ := blk.shared_ref_counter_ + 1 }).setBlock b
        { ({ blk with shared_ref_counter_ := blk.shared_ref_counter_ + 1 } : BlockBase) with
          shared_ref_counter_ := blk.shared_ref_counter_ + 1 - 1 }).setShared a ⟨.null, none⟩,
      ?_, ?_, rfl, rfl, ?_, ?_, ?_, rfl, rfl⟩
    · simp only [SharedPtr.move, sharedObj_of_sharedAt s a x ha, bind, Except.bind, hInc, hClear]
    · rw [sharedAt_setShared _ a a x _ (by simpa using hold)]
      simp
    · rw [sharedAt_setShared _ a _ x _ (by simpa using hold), if_neg hne2]
      exact hnew
    · exact SharedPtr_UseCount_congr s _ _ (fun c => by simpa using hblocks c)
    · exact fun c => by simpa using hblocks c

/-- C8, witness: with two owners `a`, `b` of one resource, `SharedPtr c(std::move(a))`
leaves `a` empty, `c` with the pointer and the block, and `UseCount() == 2`. -/
theorem C8_move_construct_witness :
    Reachable C8_state ∧ C8_state.sharedAt 0 = some ⟨.obj 7, some 0⟩ ∧
    ∃ s2, SharedPtr.move C8_state 0 = .ok s2 ∧
      s2.sharedAt 0 = some ⟨.null, none⟩ ∧
      SharedPtr.Get ⟨.null, none⟩ = .null ∧
      SharedPtr.UseCount s2 ⟨.null, none⟩ = .ok 0 ∧
      s2.sharedAt 2 = some ⟨.obj 7, some 0⟩ ∧
      SharedPtr.UseCount s2 ⟨.obj 7, some 0⟩ = .ok 2 ∧
      (∀ c, s2.blockAt c = C8_state.blockAt c) ∧
      s2.dtor_log = [] ∧ s2.free_log = [] :=
  have hr : Reachable C8_state :=
    Reachable.run State.init _ [.sharedFromRaw (.obj 7), .sharedCopy 0] Reachable.init rfl
  ⟨hr, rfl, C8_move_construct C8_state hr 0 ⟨.obj 7, some 0⟩ rfl (by
    intro b blk hb hblk
    cases hb
    cases hblk
    decide)⟩

/-- `SharedPtr::Clear` on a handle of block `b` whose counters agree with the
handles of the state. -/
theorem SharedPtr_Clear_release (s : State) (h b : Nat) (x : SharedPtr) (blk : BlockBase)
    (hx : s.sharedAt h = some x) (hb : x.block_ = some b) (hblk : s.blockAt b = some blk)
    (hS : blk.shared_ref_counter_ = (refs s.shared b : Int))
    (hW : blk.weak_ref_counter_ = (refs s.weak b : Int)) :
    ∃ s1, SharedPtr.Clear s h = .ok s1 ∧
      (∀ j, s1.sharedAt j = if j = h then some ⟨.null, none⟩ else s.sharedAt j) ∧
      s1.weak = s.weak ∧ refs s1.shared b + 1 = refs s.shared b ∧
      s1.blocks.length = s.blocks.length ∧
      ((refs s.shared b = 1 ∧ refs s.weak b = 0 ∧
          s1.blockAt b = none ∧ s1.free_log = s.free_log ++ [b]) ∨
       (1 ≤ refs s1.shared b + refs s.weak b ∧ s1.free_log = s.free_log ∧
          ∃ blk1, s1.blockAt b = some blk1 ∧
            blk1.shared_ref_counter_ = (refs s1.shared b : Int) ∧
            blk1.weak_ref_counter_ = (refs s.weak b : Int))) := by
  have hpos := refs_shared_pos s h b x hx hb
  have hr : ∀ (s0 : State), s0.shared = s.shared →
      refs (s0.setShared h ⟨.null, none⟩).shared b + 1 = refs s.shared b := by
    intro s0 h0
    have hx0 : s0.sharedAt h = some x := by unfold State.sharedAt; rw [h0]; exact hx
    have := refs_setShared s0 h b x ⟨.null, none⟩ hx0
    simp [hb] at this
    rw [this, h0]
  have hat : ∀ (s0 : State), s0.shared = s.shared → ∀ j,
      (s0.setShared h ⟨.null, none⟩).sharedAt j
        = if j = h then some ⟨.null, none⟩ else s.sharedAt j := by
    intro s0 h0 j
    have hx0 : s0.sharedAt h = some x := by unfold State.sharedAt; rw [h0]; exact hx
    rw [sharedAt_setShared s0 h j x _ hx0]
    unfold State.sharedAt
    rw [h0]
  by_cases hc : 1 < blk.shared_ref_counter_
  · refine ⟨_, SharedPtr_Clear_dec s h b x blk hx hb hblk hc, hat _ rfl, rfl, hr _ rfl,
      by simp [State.setShared, State.setBlock], Or.inr ⟨?_, rfl,
        { blk with shared_ref_counter_ := blk.shared_ref_counter_ - 1 }, ?_, ?_, ?_⟩⟩
    · have := hr (s.setBlock b
        { blk with shared_ref_counter_ := blk.shared_ref_counter_ - 1 }) rfl
      omega
    · simp [blockAt_setBlock s b b blk _ hblk]
    · have := hr (s.setBlock b
        { blk with shared_ref_counter_ := blk.shared_ref_counter_ - 1 }) rfl
      simp only
      omega
    · exact hW
  · have hc1 : blk.shared_ref_counter_ ≤ 1 := by omega
    by_cases hwk : blk.weak_ref_counter_ < 1
    · refine ⟨_, SharedPtr_Clear_delete s h b x blk hx hb hblk hc1 hwk, hat _ (by simp),
        by simp, hr _ (by simp), ?_, Or.inl ⟨by omega, by omega, ?_, ?_⟩⟩
      · simp [State.setShared, deleted, cleared_blocks_length]
      · simp [blockAt_deleted s b b blk hblk]
      · simp [State.setShared, deleted, cleared_free_log]
    · have hmin : blk.shared_ref_counter_ ≠ INT_MIN := by unfold INT_MIN; omega
      have hbl0 := blockAt_cleared s b b blk hblk
      simp only [if_true] at hbl0
      refine ⟨_, SharedPtr_Clear_last s h b x blk hx hb hblk hc1 (by omega) hmin,
        hat _ (by simp), by simp, hr _ (by simp), ?_, Or.inr ⟨by omega, ?_,
          { blk.afterClear with shared_ref_counter_ := blk.shared_ref_counter_ - 1 },
          ?_, ?_, ?_⟩⟩
      · simp [State.setShared, State.setBlock, cleared_blocks_length]
      · simp [State.setShared, State.setBlock, cleared_free_log]
      · simp [blockAt_setBlock _ b b _ _ hbl0]
      · have := hr ((cleared s b blk).setBlock b
          { blk.afterClear with shared_ref_counter_ := blk.shared_ref_counter_ - 1 }) (by simp)
        simp only at this ⊢
        omega
      · simp only [afterClear_weak]
        exact hW

/-- `WeakPtr::Clear` on a handle of block `b` whose counters agree with the
handles of the state. -/
theorem WeakPtr_Clear_release (s : State) (h b : Nat) (x : WeakPtr) (blk : BlockBase)
    (hx : s.weakAt h = some x) (hb : x.block_ = some b) (hblk : s.blockAt b = some blk)
    (hS : blk.shared_ref_counter_ = (refs s.shared b : Int))
    (hW : blk.weak_ref_counter_ = (refs s.weak b : Int)) :
    ∃ s1, WeakPtr.Clear s h = .ok s1 ∧
      (∀ j, s1.weakAt j = if j = h then some ⟨.null, none⟩ else s.weakAt j) ∧
      s1.shared = s.shared ∧ refs s1.weak b + 1 = refs s.weak b ∧
      s1.blocks.length = s.blocks.length ∧
      ((refs s.weak b = 1 ∧ refs s.shared b = 0 ∧
          s1.blockAt b = none ∧ s1.free_log = s.free_log ++ [b]) ∨
       (1 ≤ refs s.shared b + refs s1.weak b ∧ s1.free_log = s.free_log ∧
          ∃ blk1, s1.blockAt b = some blk1 ∧
            blk1.shared_ref_counter_ = (refs s.shared b : Int) ∧
            blk1.weak_ref_counter_ = (refs s1.weak b : Int))) := by
  have hpos := refs_weak_pos s h b x hx hb
  have hr : ∀ (s0 : State), s0.weak = s.weak →
      refs (s0.setWeak h ⟨.null, none⟩).weak b + 1 = refs s.weak b := by
    intro s0 h0
    have hx0 : s0.weakAt h = some x := by unfold State.weakAt; rw [h0]; exact hx
    have := refs_setWeak s0 h b x ⟨.null, none⟩ hx0
    simp [hb] at this
    rw [this, h0]
  have hat : ∀ (s0 : State), s0.weak = s.weak → ∀ j,
      (s0.setWeak h ⟨.null, none⟩).weakAt j
        = if j = h then some ⟨.null, none⟩ else s.weakAt j := by
    intro s0 h0 j
    have hx0 : s0.weakAt h = some x := by unfold State.weakAt; rw [h0]; exact hx
    rw [weakAt_setWeak s0 h j x _ hx0]
    unfold State.weakAt
    rw [h0]
  have hdec : ∀ (hcase : 1 < blk.weak_ref_counter_ ∨ 1 ≤ blk.shared_ref_counter_),
      WeakPtr.Clear s h = .ok ((s.setBlock b
        { blk with weak_ref_counter_ := blk.weak_ref_counter_ - 1 }).setWeak h ⟨.null, none⟩) →
      ∃ s1, WeakPtr.Clear s h = .ok s1 ∧
      (∀ j, s1.weakAt j = if j = h then some ⟨.null, none⟩ else s.weakAt j) ∧
      s1.shared = s.shared ∧ refs s1.weak b + 1 = refs s.weak b ∧
      s1.blocks.length = s.blocks.length ∧
      ((refs s.weak b = 1 ∧ refs s.shared b = 0 ∧
          s1.blockAt b = none ∧ s1.free_log = s.free_log ++ [b]) ∨
       (1 ≤ refs s.shared b + refs s1.weak b ∧ s1.free_log = s.free_log ∧
          ∃ blk1, s1.blockAt b = some blk1 ∧
            blk1.shared_ref_counter_ = (refs s.shared b : Int) ∧
            blk1.weak_ref_counter_ = (refs s1.weak b : Int))) := by
    intro hcase heq
    have hrr := hr (s.setBlock b
      { blk with weak_ref_counter_ := blk.weak_ref_counter_ - 1 }) rfl
    refine ⟨_, heq, hat _ rfl, rfl, hrr,
      by simp [State.setWeak, State.setBlock], Or.inr ⟨by omega, rfl,
        { blk with weak_ref_counter_ := blk.weak_ref_counter_ - 1 }, ?_, hS, ?_⟩⟩
    · simp [blockAt_setBlock s b b blk _ hblk]
    · simp only
      omega
  by_cases hc : 1 < blk.weak_ref_counter_
  · exact hdec (Or.inl hc) (WeakPtr_Clear_dec s h b x blk hx hb hblk hc)
  · have hc1 : blk.weak_ref_counter_ ≤ 1 := by omega
    by_cases hsk : blk.shared_ref_counter_ < 1
    · refine ⟨_, WeakPtr_Clear_delete s h b x blk hx hb hblk hc1 hsk, hat _ (by simp),
        by simp, hr _ (by simp), ?_, Or.inl ⟨by omega, by omega, ?_, ?_⟩⟩
      · simp [State.setWeak, deleted, cleared_blocks_length]
      · simp [blockAt_deleted s b b blk hblk]
      · simp [State.setWeak, deleted, cleared_free_log]
    · have hmin : blk.weak_ref_counter_ ≠ INT_MIN := by unfold INT_MIN; omega
      exact hdec (Or.inr (by omega))
        (WeakPtr_Clear_last s h b x blk hx hb hblk hc1 (by omega) hmin)

theorem ReleasedOne.congr (s s1 s2 : State) (b : Nat) (h : ReleasedOne s s1 b)
    (hb : s2.blockAt b = s1.blockAt b) (hf : s2.free_log = s1.free_log)
    (hs : refs s2.shared b = refs s1.shared b) (hw : refs s2.weak b = refs s1.weak b) :
    ReleasedOne s s2 b := by
  unfold ReleasedOne at h ⊢
  rw [hb, hf, hs, hw]
  exact h

theorem releases_congr (s s1 : State) (b : Nat) (op : Op)
    (hsh : ∀ j, op.target = some (.inl j) → s1.sharedAt j = s.sharedAt j)
    (hwk : ∀ j, op.target = some (.inr j) → s1.weakAt j = s.weakAt j) :
    releases s1 b op = releases s b op := by
  cases op <;> simp [releases, Op.target] at hsh hwk ⊢ <;> simp [hsh, hwk]

theorem releases_pos (s : State) (b : Nat) (op : Op) (h : releases s b op = true) :
    1 ≤ refs s.shared b + refs s.weak b := by
  cases op <;> simp only [releases] at h <;> try cases h
  case sharedDtor j =>
    cases hx : s.sharedAt j with
    | none => simp [hx] at h
    | some x =>
      have := refs_shared_pos s j b x hx (by simpa [hx] using h)
      omega
  case sharedReset j p =>
    cases hx : s.sharedAt j with
    | none => simp [hx] at h
    | some x =>
      have := refs_shared_pos s j b x hx (by simp [hx] at h; exact h.1)
      omega
  case weakDtor j =>
    cases hx : s.weakAt j with
    | none => simp [hx] at h
    | some x =>
      have := refs_weak_pos s j b x hx (by simpa [hx] using h)
      omega
  case weakReset j =>
    cases hx : s.weakAt j with
    | none => simp [hx] at h
    | some x =>
      have := refs_weak_pos s j b x hx (by simpa [hx] using h)
      omega

theorem SharedPtr_Clear_releasedOne (s : State) (h b : Nat) (x : SharedPtr) (blk : BlockBase)
    (hx : s.sharedAt h = some x) (hb : x.block_ = some b) (hblk : s.blockAt b = some blk)
    (hS : blk.shared_ref_counter_ = (refs s.shared b : Int))
    (hW : blk.weak_ref_counter_ = (refs s.weak b : Int)) :
    ∃ s1, SharedPtr.Clear s h = .ok s1 ∧
      (∀ j, s1.sharedAt j = if j = h then some ⟨.null, none⟩ else s.sharedAt j) ∧
      s1.weak = s.weak ∧ s1.blocks.length = s.blocks.length ∧ ReleasedOne s s1 b := by
  obtain ⟨s1, h1, h2, h3, h4, h5, h6⟩ := SharedPtr_Clear_release s h b x blk hx hb hblk hS hW
  refine ⟨s1, h1, h2, h3, h5, ?_⟩
  unfold ReleasedOne
  rw [h3]
  refine ⟨by omega, ?_⟩
  rcases h6 with ⟨a1, a2, a3, a4⟩ | ⟨a1, a2, blk1, a3, a4, a5⟩
  · exact Or.inl ⟨a3, a4, by omega⟩
  · exact Or.inr ⟨a2, a1, blk1, a3, a4, a5⟩

theorem WeakPtr_Clear_releasedOne (s : State) (h b : Nat) (x : WeakPtr) (blk : BlockBase)
    (hx : s.weakAt h = some x) (hb : x.block_ = some b) (hblk : s.blockAt b = some blk)
    (hS : blk.shared_ref_counter_ = (refs s.shared b : Int))
    (hW : blk.weak_ref_counter_ = (refs s.weak b : Int)) :
    ∃ s1, WeakPtr.Clear s h = .ok s1 ∧
      (∀ j, s1.weakAt j = if j = h then some ⟨.null, none⟩ else s.weakAt j) ∧
      s1.shared = s.shared ∧ s1.blocks.length = s.blocks.length ∧ ReleasedOne s s1 b := by
  obtain ⟨s1, h1, h2, h3, h4, h5, h6⟩ := WeakPtr_Clear_release s h b x blk hx hb hblk hS hW
  refine ⟨s1, h1, h2, h3, h5, ?_⟩
  unfold ReleasedOne
  rw [h3]
  refine ⟨by omega, ?_⟩
  rcases h6 with ⟨a1, a2, a3, a4⟩ | ⟨a1, a2, blk1, a3, a4, a5⟩
  · exact Or.inl ⟨a3, a4, by omega⟩
  · exact Or.inr ⟨a2, a1, blk1, a3, a4, a5⟩

/-- One release operation on a handle of block `b`. -/
theorem release_step (s : State) (b : Nat) (blk : BlockBase) (op : Op)
    (hblk : s.blockAt b = some blk)
    (hS : blk.shared_ref_counter_ = (refs s.shared b : Int))
    (hW : blk.weak_ref_counter_ = (refs s.weak b : Int))
    (hrel : releases s b op = true) :
    ∃ s1, step s op = .ok s1 ∧ ReleasedOne s s1 b ∧
      ∀ op2, op2.target ≠ op.target → releases s1 b op2 = releases s b op2 := by
  have hblt := slot_lt _ _ _ hblk
  cases op <;> simp only [releases] at hrel <;> try cases hrel
  case sharedDtor h =>
    cases hx : s.sharedAt h with
    | none => simp [hx] at hrel
    | some x =>
      have hb : x.block_ = some b := by simpa [hx] using hrel
      obtain ⟨s1, h1, h2, h3, h4, h5⟩ :=
        SharedPtr_Clear_releasedOne s h b x blk hx hb hblk hS hW
      have hh := h2 h
      simp only [if_true] at hh
      refine ⟨s1.endShared h, ?_, ?_, ?_⟩
      · simp only [step, SharedPtr.dtor, h1, bind, Except.bind, pure, Except.pure]
      · exact ReleasedOne.congr s s1 _ b h5 rfl rfl
          (by simpa using refs_endShared s1 h b _ hh) rfl
      · intro op2 hne
        refine releases_congr s _ b op2 (fun j hj => ?_) (fun j _ => ?_)
        · have hjh : j ≠ h := by
            intro e; subst e; exact hne (hj.trans rfl)
          rw [sharedAt_endShared, if_neg hjh, h2 j, if_neg hjh]
        · show State.weakAt s1 j = s.weakAt j
          unfold State.weakAt; rw [h3]
  case sharedReset h ptr =>
    cases hx : s.sharedAt h with
    | none => simp [hx] at hrel
    | some x =>
      simp [hx] at hrel
      obtain ⟨hb, hp⟩ := hrel
      obtain ⟨s1, h1, h2, h3, h4, h5⟩ :=
        SharedPtr_Clear_releasedOne s h b x blk hx hb hblk hS hW
      have hh := h2 h
      simp only [if_true] at hh
      by_cases hnull : ptr = .null
      · refine ⟨s1, ?_, h5, ?_⟩
        · subst hnull
          simp [step, SharedPtr.Reset, sharedObj_of_sharedAt s h x hx, hp, h1,
            bind, Except.bind, pure, Except.pure]
        · intro op2 hne
          refine releases_congr s _ b op2 (fun j hj => ?_) (fun j _ => ?_)
          · have hjh : j ≠ h := by
              intro e; subst e; exact hne (hj.trans rfl)
            rw [h2 j, if_neg hjh]
          · unfold State.weakAt; rw [h3]
      · refine ⟨(s1.newBlock (.Block ptr)).setShared h ⟨ptr, some s1.blocks.length⟩, ?_, ?_, ?_⟩
        · simp [step, SharedPtr.Reset, sharedObj_of_sharedAt s h x hx, hp, h1, hnull,
            bind, Except.bind, pure, Except.pure]
        · have hbne : b ≠ s1.blocks.length := by omega
          refine ReleasedOne.congr s s1 _ b h5 ?_ rfl ?_ rfl
          · simp [blockAt_newBlock, hbne]
          · have := refs_setShared (s1.newBlock (.Block ptr)) h b _
              ⟨ptr, some s1.blocks.length⟩ (by simpa using hh)
            have hbne2 : ¬ s1.blocks.length = b := fun e => hbne e.symm
            simp [hbne2] at this
            exact this
        · intro op2 hne
          refine releases_congr s _ b op2 (fun j hj => ?_) (fun j _ => ?_)
          · have hjh : j ≠ h := by
              intro e; subst e; exact hne (hj.trans rfl)
            rw [sharedAt_setShared _ h j _ _ (by simpa using hh), if_neg hjh]
            simp [h2 j, hjh]
          · show State.weakAt s1 j = s.weakAt j
            unfold State.weakAt; rw [h3]
  case weakDtor h =>
    cases hx : s.weakAt h with
    | none => simp [hx] at hrel
    | some x =>
      have hb : x.block_ = some b := by simpa [hx] using hrel
      obtain ⟨s1, h1, h2, h3, h4, h5⟩ :=
        WeakPtr_Clear_releasedOne s h b x blk hx hb hblk hS hW
      have hh := h2 h
      simp only [if_true] at hh
      refine ⟨s1.endWeak h, ?_, ?_, ?_⟩
      · simp only [step, WeakPtr.dtor, h1, bind, Except.bind, pure, Except.pure]
      · exact ReleasedOne.congr s s1 _ b h5 rfl rfl rfl
          (by simpa using refs_endWeak s1 h b _ hh)
      · intro op2 hne
        refine releases_congr s _ b op2 (fun j _ => ?_) (fun j hj => ?_)
        · show State.sharedAt s1 j = s.sharedAt j
          unfold State.sharedAt; rw [h3]
        · have hjh : j ≠ h := by
            intro e; subst e; exact hne (hj.trans rfl)
          rw [weakAt_endWeak, if_neg hjh, h2 j, if_neg hjh]
  case weakReset h =>
    cases hx : s.weakAt h with
    | none => simp [hx] at hrel
    | some x =>
      have hb : x.block_ = some b := by simpa [hx] using hrel
      obtain ⟨s1, h1, h2, h3, h4, h5⟩ :=
        WeakPtr_Clear_releasedOne s h b x blk hx hb hblk hS hW
      refine ⟨s1, h1, h5, ?_⟩
      intro op2 hne
      refine releases_congr s _ b op2 (fun j _ => ?_) (fun j hj => ?_)
      · unfold State.sharedAt; rw [h3]
      · have hjh : j ≠ h := by
          intro e; subst e; exact hne (hj.trans rfl)
        rw [h2 j, if_neg hjh]

/-- A sequence of release operations on distinct handles of block `b`, from a
state in which the counters of `b` agree with its handles: the sequence
completes, every operation removes one handle, and the block is deallocated
once, exactly when no handle is left. -/
theorem release_run (b : Nat) (ops : List Op) :
    ∀ (s : State) (blk : BlockBase), s.blockAt b = some blk →
      blk.shared_ref_counter_ = (refs s.shared b : Int) →
      blk.weak_ref_counter_ = (refs s.weak b : Int) →
      1 ≤ refs s.shared b + refs s.weak b →
      (∀ op, op ∈ ops → releases s b op = true) →
      (ops.map Op.target).Nodup →
      ∃ s2, run s ops = .ok s2 ∧
        refs s2.shared b + refs s2.weak b + ops.length = refs s.shared b + refs s.weak b ∧
        ((refs s2.shared b + refs s2.weak b = 0 ∧ s2.blockAt b = none ∧
            s2.free_log = s.free_log ++ [b]) ∨
         (1 ≤ refs s2.shared b + refs s2.weak b ∧ (∃ blk2, s2.blockAt b = some blk2) ∧
            s2.free_log = s.free_log)) := by
  induction ops with
  | nil =>
    intro s blk hblk _ _ hpos _ _
    exact ⟨s, rfl, by simp, Or.inr ⟨hpos, ⟨blk, hblk⟩, rfl⟩⟩
  | cons op rest ih =>
    intro s blk hblk hS hW hpos hrel hnd
    obtain ⟨s1, h1, ⟨hcount, hcase⟩, hkeep⟩ :=
      release_step s b blk op hblk hS hW (hrel op (List.mem_cons_self _ _))
    have hnd2 : op.target ∉ rest.map Op.target ∧ (rest.map Op.target).Nodup := by
      simpa using hnd
    have hrel1 : ∀ op2, op2 ∈ rest → releases s1 b op2 = true := by
      intro op2 hmem
      rw [hkeep op2 (fun e => hnd2.1 (e ▸ List.mem_map_of_mem Op.target hmem))]
      exact hrel op2 (List.mem_cons_of_mem _ hmem)
    have hrun : ∀ s2, run s1 rest = .ok s2 → run s (op :: rest) = .ok s2 := by
      intro s2 h2
      simp only [run, h1, bind, Except.bind]
      exact h2
    rcases hcase with ⟨a1, a2, a3⟩ | ⟨a1, a2, blk1, a3, a4, a5⟩
    · cases rest with
      | nil =>
        exact ⟨s1, hrun s1 rfl, by simp; omega, Or.inl ⟨a3, a1, a2⟩⟩
      | cons op2 rest2 =>
        have := releases_pos s1 b op2 (hrel1 op2 (List.mem_cons_self _ _))
        omega
    · obtain ⟨s2, g1, g2, g3⟩ := ih s1 blk1 a3 a4 a5 a2 hrel1 hnd2.2
      refine ⟨s2, hrun s2 g1, by simp only [List.length_cons]; omega, ?_⟩
      rcases g3 with ⟨b1, b2, b3⟩ | ⟨b1, b2, b3⟩
      · exact Or.inl ⟨b1, b2, by rw [b3, a1]⟩
      · exact Or.inr ⟨b1, b2, by rw [b3, a1]⟩

/-- Release operations that are steps of the program (none of them runs inside
the destructor of a resource): for a live control block `b` whose strong
counter equals the number `s >= 1` of live `SharedPtr` objects pointing to it
and whose weak counter equals the number `w` of live `WeakPtr` objects
pointing to it, every sequence of `s + w` release operations (destruction,
`WeakPtr::Reset`, `SharedPtr::Reset(ptr)` with `ptr != Get()`) on pairwise
distinct handles of `b`, in any order, completes with `b` deallocated exactly
once (the log of deallocations grows by the single entry `b`), and after every
proper prefix of the sequence `b` is still allocated and nothing has been
deallocated. -/
theorem release_all_atomic (s : State) (b : Nat) (blk : BlockBase)
    (ops : List Op) (hblk : s.blockAt b = some blk)
    (hS : blk.shared_ref_counter_ = (refs s.shared b : Int))
    (hW : blk.weak_ref_counter_ = (refs s.weak b : Int))
    (hpos : 1 ≤ blk.shared_ref_counter_)
    (hrel : ∀ op, op ∈ ops → releases s b op = true)
    (hnd : (ops.map Op.target).Nodup)
    (hall : ops.length = refs s.shared b + refs s.weak b) :
    (∃ s2, run s ops = .ok s2 ∧ s2.blockAt b = none ∧ s2.free_log = s.free_log ++ [b]) ∧
    ∀ k, k < ops.length →
      ∃ sk blk2, run s (ops.take k) = .ok sk ∧ sk.blockAt b = some blk2 ∧
        sk.free_log = s.free_log := by
  have htot : 1 ≤ refs s.shared b + refs s.weak b := by omega
  constructor
  · obtain ⟨s2, g1, g2, g3⟩ := release_run b ops s blk hblk hS hW htot hrel hnd
    rcases g3 with ⟨_, b2, b3⟩ | ⟨b1, _, _⟩
    · exact ⟨s2, g1, b2, b3⟩
    · omega
  · intro k hk
    have hrelk : ∀ op, op ∈ ops.take k → releases s b op = true :=
      fun op hmem => hrel op (List.mem_of_mem_take hmem)
    have hndk : ((ops.take k).map Op.target).Nodup := by
      rw [List.map_take]
      exact hnd.sublist (List.take_sublist _ _)
    obtain ⟨sk, g1, g2, g3⟩ := release_run b (ops.take k) s blk hblk hS hW htot hrelk hndk
    have hlen : (ops.take k).length = k := by
      rw [List.length_take]; omega
    rcases g3 with ⟨b1, _, _⟩ | ⟨_, ⟨blk2, b2⟩, b3⟩
    · omega
    · exact ⟨sk, blk2, g1, b2, b3⟩

/-- Example: with `SharedPtr a(p); SharedPtr b(a); WeakPtr w(a);` (strong
counter 2, weak counter 1), the releases `a.~SharedPtr(); w.Reset(); b.Reset();`
deallocate the block once, at `b.Reset()`. -/
theorem release_all_atomic_example :
    release_example_state.blockAt 0 = some ⟨2, 1, .Block (.obj 7)⟩ ∧
    refs release_example_state.shared 0 = 2 ∧ refs release_example_state.weak 0 = 1 ∧
    (∃ s2, run release_example_state [.sharedDtor 0, .weakReset 0, .sharedReset 1 .null] = .ok s2 ∧
      s2.blockAt 0 = none ∧ s2.free_log = release_example_state.free_log ++ [0]) ∧
    ∀ k, k < 3 →
      ∃ sk blk2,
        run release_example_state ([Op.sharedDtor 0, .weakReset 0, .sharedReset 1 .null].take k) = .ok sk ∧
        sk.blockAt 0 = some blk2 ∧ sk.free_log = release_example_state.free_log :=
  ⟨rfl, rfl, rfl,
    release_all_atomic release_example_state 0 ⟨2, 1, .Block (.obj 7)⟩
      [.sharedDtor 0, .weakReset 0, .sharedReset 1 .null] rfl rfl rfl (by decide)
      (by decide) (by decide) rfl⟩

/-! ## Claims on construction, `Reset` and the sign of the counters -/

/-- In a state that satisfies the invariant, `SharedPtr::Clear` on a live
object completes. -/
theorem SharedPtr_Clear_total (s : State) (hinv : Inv s) (h : Nat) (x : SharedPtr)
    (hx : s.sharedAt h = some x) : ∃ s1, SharedPtr.Clear s h = .ok s1 := by
  by_cases hb : x.block_ = none
  · exact ⟨_, SharedPtr_Clear_none s h x hx hb⟩
  · obtain ⟨b, hb⟩ := Option.ne_none_iff_exists'.mp hb
    obtain ⟨blk, hblk, h1, _⟩ := Inv.live_of_shared s hinv h b x hx hb
    by_cases hc : 1 < blk.shared_ref_counter_
    · exact ⟨_, SharedPtr_Clear_dec s h b x blk hx hb hblk hc⟩
    · by_cases hwk : blk.weak_ref_counter_ < 1
      · exact ⟨_, SharedPtr_Clear_delete s h b x blk hx hb hblk (by omega) hwk⟩
      · exact ⟨_, SharedPtr_Clear_last s h b x blk hx hb hblk (by omega) (by omega)
          (by unfold INT_MIN; omega)⟩

theorem toSizeT_one : toSizeT 1 = 1 := toSizeT_natCast 1 (by decide)

/-- C17: in every reachable state, every live control block has
`shared_ref_counter_ >= 0` and `weak_ref_counter_ >= 0`, and the conversion of
the strong counter to `size_t` in `UseCount` keeps its value. -/
theorem C17_counters_nonneg (s : State) (hr : Reachable s) (b : Nat) (blk : BlockBase)
    (hb : s.blockAt b = some blk) :
    0 ≤ blk.shared_ref_counter_ ∧ 0 ≤ blk.weak_ref_counter_ ∧
    (toSizeT blk.shared_ref_counter_ : Int) = blk.shared_ref_counter_ := by
  obtain ⟨g1, g2, g3, _⟩ := (Reachable.inv s hr b).1 blk hb
  refine ⟨by omega, by omega, ?_⟩
  rw [g1, toSizeT_natCast _ (by rw [← g1]; exact g3)]

/-- C17, witness: after `SharedPtr a(p); WeakPtr w(a);` and the destruction of
`a`, the block kept for `w` has strong counter 0 and weak counter 1. -/
theorem C17_counters_nonneg_witness :
    Reachable C6_state ∧ C6_state.blockAt 0 = some ⟨0, 1, .Block .null⟩ ∧
    (0 : Int) ≤ 0 ∧ (0 : Int) ≤ 1 ∧ (toSizeT 0 : Int) = 0 :=
  have hr : Reachable C6_state :=
    Reachable.run State.init _ [.sharedFromRaw (.obj 7), .weakFromShared 0, .sharedDtor 0]
      Reachable.init rfl
  ⟨hr, rfl, C17_counters_nonneg C6_state hr 0 ⟨0, 1, .Block .null⟩ rfl⟩

/-- C16: in every state, for every raw pointer `p` (non-null included),
`SharedPtr(p)` completes; the new object (number `s.shared.length`) has
`Get() == p`, its block is a fresh `Block<T>` with strong counter 1 and weak
counter 0, and `UseCount() == 1`.  `MakeShared<T>(args...)` completes; its
result (object number `s.shared.length + 1`, the local `sp` being destroyed)
has a non-null `Get()` that points at the storage embedded in its block, the
block is a fresh `BlockHolder<T>` with strong counter 1 and weak counter 0,
and `UseCount() == 1`. -/
theorem C16_fresh_block_counts (s : State) (p : RawPtr) :
    (∃ s2, SharedPtr.fromRaw s p = .ok s2 ∧
      s2.sharedAt s.shared.length = some ⟨p, some s.blocks.length⟩ ∧
      SharedPtr.Get ⟨p, some s.blocks.length⟩ = p ∧
      s.blockAt s.blocks.length = none ∧
      s2.blockAt s.blocks.length = some ⟨1, 0, .Block p⟩ ∧
      SharedPtr.UseCount s2 ⟨p, some s.blocks.length⟩ = .ok 1) ∧
    (∃ s2, MakeShared s = .ok s2 ∧
      s2.sharedAt (s.shared.length + 1)
        = some ⟨.storage s.blocks.length, some s.blocks.length⟩ ∧
      SharedPtr.Get ⟨.storage s.blocks.length, some s.blocks.length⟩
        = .storage s.blocks.length ∧
      SharedPtr.Get ⟨.storage s.blocks.length, some s.blocks.length⟩ ≠ .null ∧
      s2.sharedAt s.shared.length = none ∧
      s.blockAt s.blocks.length = none ∧
      s2.blockAt s.blocks.length = some ⟨1, 0, .BlockHolder⟩ ∧
      SharedPtr.UseCount s2 ⟨.storage s.blocks.length, some s.blocks.length⟩ = .ok 1) := by
  have hfresh : s.blockAt s.blocks.length = none := by
    cases hx : s.blockAt s.blocks.length with
    | none => rfl
    | some blk => exact absurd (slot_lt _ _ _ hx) (by omega)
  constructor
  · have hblk : ((s.newBlock (.Block p)).newShared ⟨p, some s.blocks.length⟩).blockAt
        s.blocks.length = some ⟨1, 0, .Block p⟩ := by
      simp [blockAt_newBlock]
    refine ⟨_, rfl, by simp [sharedAt_newShared], rfl, hfresh, hblk, ?_⟩
    simp only [SharedPtr.UseCount, block_of_blockAt _ _ _ hblk, bind, Except.bind, pure,
      Except.pure, toSizeT_one]
  · -- SharedPtr<T> sp;  auto block = new BlockHolder<T>(...);  sp.block_ = ...; sp.ptr_ = ...
    have hsp0 : (s.newShared ⟨.null, none⟩).sharedAt s.shared.length = some ⟨.null, none⟩ := by
      simp [sharedAt_newShared]
    have hsp3 := sharedAt_setShared ((s.newShared ⟨.null, none⟩).newBlock .BlockHolder)
      s.shared.length s.shared.length ⟨.null, none⟩
      ⟨.storage s.blocks.length, some s.blocks.length⟩ (by simpa using hsp0)
    simp only [if_true] at hsp3
    have hblk3 : (((s.newShared ⟨.null, none⟩).newBlock .BlockHolder).setShared
        s.shared.length ⟨.storage s.blocks.length, some s.blocks.length⟩).blockAt
        s.blocks.length = some ⟨1, 0, .BlockHolder⟩ := by
      simp only [blockAt_setShared, blockAt_newBlock]
      simp [State.newShared]
    have hlen3 : (((s.newShared ⟨.null, none⟩).newBlock .BlockHolder).setShared
        s.shared.length ⟨.storage s.blocks.length, some s.blocks.length⟩).shared.length
        = s.shared.length + 1 := by
      simp [State.setShared, State.newBlock, State.newShared]
    -- return sp: the move constructor
    obtain ⟨s3, hs3⟩ : ∃ s3, s3 = ((s.newShared ⟨.null, none⟩).newBlock .BlockHolder).setShared
        s.shared.length ⟨.storage s.blocks.length, some s.blocks.length⟩ := ⟨_, rfl⟩
    rw [← hs3] at hsp3 hblk3 hlen3
    have hnew4 : (s3.newShared ⟨.storage s.blocks.length, some s.blocks.length⟩).sharedAt
        (s.shared.length + 1) = some ⟨.storage s.blocks.length, some s.blocks.length⟩ := by
      simp [sharedAt_newShared, hlen3]
    have hInc := SharedPtr_IncreaseRefCounter_some
      (s3.newShared ⟨.storage s.blocks.length, some s.blocks.length⟩) (s.shared.length + 1)
      s.blocks.length _ ⟨1, 0, .BlockHolder⟩ hnew4 rfl (by simpa using hblk3) (by decide)
    have hblk5 := blockAt_setBlock
      (s3.newShared ⟨.storage s.blocks.length, some s.blocks.length⟩) s.blocks.length
      s.blocks.length ⟨1, 0, .BlockHolder⟩ ⟨1 + 1, 0, .BlockHolder⟩ (by simpa using hblk3)
    simp only [if_true] at hblk5
    have hsp5 : ((s3.newShared ⟨.storage s.blocks.length, some s.blocks.length⟩).setBlock
        s.blocks.length ⟨1 + 1, 0, .BlockHolder⟩).sharedAt s.shared.length
        = some ⟨.storage s.blocks.length, some s.blocks.length⟩ := by
      simp [sharedAt_newShared, hlen3, hsp3]
    have hClear := SharedPtr_Clear_dec _ s.shared.length s.blocks.length _ _ hsp5 rfl hblk5
      (by decide)
    obtain ⟨s6, hs6⟩ : ∃ s6, s6 = (((s3.newShared
        ⟨.storage s.blocks.length, some s.blocks.length⟩).setBlock
        s.blocks.length ⟨1 + 1, 0, .BlockHolder⟩).setBlock s.blocks.length
        ⟨1 + 1 - 1, 0, .BlockHolder⟩).setShared s.shared.length ⟨.null, none⟩ := ⟨_, rfl⟩
    have hmove : SharedPtr.move s3 s.shared.length = .ok s6 := by
      simp only [SharedPtr.move, sharedObj_of_sharedAt s3 _ _ hsp3, bind, Except.bind, hlen3]
      rw [hInc]
      simp only
      rw [hClear, hs6]
    -- the destructor of the local sp
    have hsp6 : s6.sharedAt s.shared.length = some ⟨.null, none⟩ := by
      rw [hs6, sharedAt_setShared _ _ _ _ _ (by simpa using hsp5)]
      simp
    have hdtor : SharedPtr.dtor s6 s.shared.length = .ok (s6.endShared s.shared.length) := by
      simp only [SharedPtr.dtor, SharedPtr_Clear_none s6 _ _ hsp6 rfl, bind, Except.bind,
        pure, Except.pure]
      congr 1
      simp only [State.endShared, State.setShared, List.set_set]
    have hblk6 : (s6.endShared s.shared.length).blockAt s.blocks.length
        = some ⟨1, 0, .BlockHolder⟩ := by
      rw [hs6]
      simp only [blockAt_endShared, blockAt_setShared]
      rw [blockAt_setBlock _ _ _ _ _ hblk5]
      simp
    refine ⟨s6.endShared s.shared.length, ?_, ?_, rfl, by simp [SharedPtr.Get], ?_, hfresh,
      hblk6, ?_⟩
    · simp only [MakeShared, SharedPtr.default, bind, Except.bind, pure, Except.pure]
      rw [show (s.newShared ⟨.null, none⟩).blocks.length = s.blocks.length from rfl, ← hs3,
        hmove]
      exact hdtor
    · rw [sharedAt_endShared, if_neg (by omega), hs6,
        sharedAt_setShared _ _ _ _ _ (by simpa using hsp5), if_neg (by omega)]
      simpa using hnew4
    · rw [sharedAt_endShared, if_pos rfl]
    · simp only [SharedPtr.UseCount, block_of_blockAt _ _ _ hblk6, bind, Except.bind, pure,
        Except.pure, toSizeT_one]

/-- C11: in every reachable state, for every live `SharedPtr` `h` and every
raw pointer `p`: if `p == h.Get()`, `h.Reset(p)` completes and changes nothing;
if `p != h.Get()`, the call makes exactly one call of `Clear()` (one step of
the release state machine, to the state `s1`) and then, when `p` is non-null,
allocates a fresh `Block<T>` for `p` with strong counter 1 and weak counter 0
and makes `h` its owner with `Get() == p` and `UseCount() == 1`, every other
block staying as `Clear()` left it; when `p` is null the result is `s1`, in
which `h.Get() == nullptr` and `h.UseCount() == 0`. -/
theorem C11_reset (s : State) (hr : Reachable s) (h : Nat) (x : SharedPtr) (p : RawPtr)
    (hx : s.sharedAt h = some x) :
    (p = SharedPtr.Get x → SharedPtr.Reset s h p = .ok s) ∧
    (p ≠ SharedPtr.Get x →
      ∃ s1, SharedPtr.Clear s h = .ok s1 ∧
        (p ≠ .null →
          SharedPtr.Reset s h p
            = .ok ((s1.newBlock (.Block p)).setShared h ⟨p, some s1.blocks.length⟩) ∧
          ((s1.newBlock (.Block p)).setShared h ⟨p, some s1.blocks.length⟩).sharedAt h
            = some ⟨p, some s1.blocks.length⟩ ∧
          SharedPtr.Get ⟨p, some s1.blocks.length⟩ = p ∧
          s1.blockAt s1.blocks.length = none ∧
          ((s1.newBlock (.Block p)).setShared h ⟨p, some s1.blocks.length⟩).blockAt
            s1.blocks.length = some ⟨1, 0, .Block p⟩ ∧
          SharedPtr.UseCount ((s1.newBlock (.Block p)).setShared h ⟨p, some s1.blocks.length⟩)
            ⟨p, some s1.blocks.length⟩ = .ok 1 ∧
          ∀ c, c ≠ s1.blocks.length →
            ((s1.newBlock (.Block p)).setShared h ⟨p, some s1.blocks.length⟩).blockAt c
              = s1.blockAt c) ∧
        (p = .null →
          SharedPtr.Reset s h p = .ok s1 ∧ s1.sharedAt h = some ⟨.null, none⟩ ∧
          SharedPtr.Get ⟨.null, none⟩ = .null ∧
          SharedPtr.UseCount s1 ⟨.null, none⟩ = .ok 0)) := by
  constructor
  · intro hp
    simp [SharedPtr.Reset, sharedObj_of_sharedAt s h x hx, hp, bind, Except.bind, pure,
      Except.pure]
  · intro hp
    obtain ⟨s1, h1⟩ := SharedPtr_Clear_total s (Reachable.inv s hr) h x hx
    have hh := (SharedPtr_Clear_handles s s1 h h1).1 h
    simp only [if_true] at hh
    have hfresh : s1.blockAt s1.blocks.length = none := by
      cases hy : s1.blockAt s1.blocks.length with
      | none => rfl
      | some blk => exact absurd (slot_lt _ _ _ hy) (by omega)
    refine ⟨s1, h1, fun hnn => ?_, fun hn => ?_⟩
    · have hblk : ((s1.newBlock (.Block p)).setShared h ⟨p, some s1.blocks.length⟩).blockAt
          s1.blocks.length = some ⟨1, 0, .Block p⟩ := by
        simp [blockAt_newBlock]
      refine ⟨?_, ?_, rfl, hfresh, hblk, ?_, fun c hc => ?_⟩
      · simp [SharedPtr.Reset, sharedObj_of_sharedAt s h x hx, hp, h1, hnn, bind, Except.bind,
          pure, Except.pure]
      · rw [sharedAt_setShared _ h h _ _ (by simpa using hh)]
        simp
      · simp only [SharedPtr.UseCount, block_of_blockAt _ _ _ hblk, bind, Except.bind, pure,
          Except.pure, toSizeT_one]
      · simp [blockAt_newBlock, hc]
    · subst hn
      refine ⟨?_, hh, rfl, rfl⟩
      simp [SharedPtr.Reset, sharedObj_of_sharedAt s h x hx, hp, h1, bind, Except.bind,
        pure, Except.pure]

/-- C11, witness: with two owners `a`, `b` of `p`, `a.Reset(q)` for a new
non-null `q` decrements the old block to 1 and gives `a` a fresh block with
`UseCount() == 1`; `a.Reset(p)` on the state before changes nothing. -/
theorem C11_reset_witness :
    Reachable C8_state ∧ C8_state.sharedAt 0 = some ⟨.obj 7, some 0⟩ ∧
    SharedPtr.Reset C8_state 0 (.obj 7) = .ok C8_state ∧
    SharedPtr.Reset C8_state 0 (.obj 9)
      = .ok ⟨[some ⟨1, 0, .Block (.obj 7)⟩, some ⟨1, 0, .Block (.obj 9)⟩],
          [some ⟨.obj 9, some 1⟩, some ⟨.obj 7, some 0⟩], [], [], []⟩ :=
  have hr : Reachable C8_state :=
    Reachable.run State.init _ [.sharedFromRaw (.obj 7), .sharedCopy 0] Reachable.init rfl
  have h1 := C11_reset C8_state hr 0 ⟨.obj 7, some 0⟩ (.obj 7) rfl
  ⟨hr, rfl, h1.1 rfl, rfl⟩

/-- C19, counterexample: after `SharedPtr a(p); SharedPtr h(a, nullptr);` the
call `h.Reset()` changes nothing: `h` still holds the block and
`h.UseCount() == 2`. -/
theorem C19_reset_keeps_null_alias :
    run State.init [.sharedFromRaw (.obj 7), .sharedAlias 0 .null] = .ok C19_state ∧
    C19_state.sharedAt 1 = some ⟨.null, some 0⟩ ∧
    SharedPtr.Reset C19_state 1 .null = .ok C19_state ∧
    SharedPtr.UseCount C19_state ⟨.null, some 0⟩ = .ok 2 :=
  ⟨rfl, rfl, rfl, rfl⟩

/-- C19, amended: in every reachable state, for every live `SharedPtr` `h`,
`h.Reset()` completes.  If `h.Get() != nullptr`, afterwards `h` is empty
(`Get() == nullptr`, no block, `UseCount() == 0`).  If `h.Get() == nullptr`,
the call changes nothing: `h` keeps the block it had, if any, and its
`UseCount()`. -/
theorem C19_reset_no_argument (s : State) (hr : Reachable s) (h : Nat) (x : SharedPtr)
    (hx : s.sharedAt h = some x) :
    (SharedPtr.Get x ≠ .null →
      ∃ s2, SharedPtr.Reset s h .null = .ok s2 ∧ s2.sharedAt h = some ⟨.null, none⟩ ∧
        SharedPtr.Get ⟨.null, none⟩ = .null ∧ SharedPtr.UseCount s2 ⟨.null, none⟩ = .ok 0) ∧
    (SharedPtr.Get x = .null →
      SharedPtr.Reset s h .null = .ok s ∧ s.sharedAt h = some x) := by
  constructor
  · intro hp
    obtain ⟨s1, h1⟩ := SharedPtr_Clear_total s (Reachable.inv s hr) h x hx
    have hh := (SharedPtr_Clear_handles s s1 h h1).1 h
    simp only [if_true] at hh
    refine ⟨s1, ?_, hh, rfl, rfl⟩
    have hp2 : ¬ RawPtr.null = SharedPtr.Get x := fun e => hp e.symm
    simp [SharedPtr.Reset, sharedObj_of_sharedAt s h x hx, hp2, h1, bind, Except.bind,
      pure, Except.pure]
  · intro hp
    refine ⟨?_, hx⟩
    simp [SharedPtr.Reset, sharedObj_of_sharedAt s h x hx, hp, bind, Except.bind, pure,
      Except.pure]

/-- C19, witness: with two owners `a`, `b` of `p`, `a.Reset()` leaves `a`
empty and the block with strong counter 1. -/
theorem C19_reset_no_argument_witness :
    Reachable C8_state ∧ C8_state.sharedAt 0 = some ⟨.obj 7, some 0⟩ ∧
    SharedPtr.Reset C8_state 0 .null
      = .ok ⟨[some ⟨1, 0, .Block (.obj 7)⟩],
          [some ⟨.null, none⟩, some ⟨.obj 7, some 0⟩], [], [], []⟩ ∧
    ∃ s2, SharedPtr.Reset C8_state 0 .null = .ok s2 ∧ s2.sharedAt 0 = some ⟨.null, none⟩ ∧
      SharedPtr.Get ⟨.null, none⟩ = .null ∧ SharedPtr.UseCount s2 ⟨.null, none⟩ = .ok 0 :=
  have hr : Reachable C8_state :=
    Reachable.run State.init _ [.sharedFromRaw (.obj 7), .sharedCopy 0] Reachable.init rfl
  ⟨hr, rfl, rfl,
    (C19_reset_no_argument C8_state hr 0 ⟨.obj 7, some 0⟩ rfl).1 (by decide)⟩

/-! ## WeakPtr operations and strong ownership -/

theorem Quiet.refl (s : State) : Quiet s s := ⟨rfl, rfl, rfl, fun _ => rfl⟩

theorem Quiet.trans (s s1 s2 : State) (h1 : Quiet s s1) (h2 : Quiet s1 s2) : Quiet s s2 :=
  ⟨h2.1.trans h1.1, h2.2.1.trans h1.2.1, h2.2.2.1.trans h1.2.2.1,
    fun c => (h2.2.2.2 c).trans (h1.2.2.2 c)⟩

theorem StrongFrame.quiet_left (s s1 s2 : State) (h1 : Quiet s s1) (h2 : StrongFrame s1 s2) :
    StrongFrame s s2 := by
  rcases h2 with hq | ⟨hs, b, c, i, a1, a2, a3, a4, a5, a6⟩
  · exact Or.inl (Quiet.trans s s1 s2 h1 hq)
  · refine Or.inr ⟨hs.trans h1.1, b, c, i, ?_, a2, a3, fun d hd => ?_, ?_, ?_⟩
    · rw [← h1.2.2.2 b]; exact a1
    · rw [a4 d hd, h1.2.2.2 d]
    · rw [a5, h1.2.1]
    · rw [a6, h1.2.2.1]

theorem StrongFrame.quiet_right (s s1 s2 : State) (h1 : StrongFrame s s1) (h2 : Quiet s1 s2) :
    StrongFrame s s2 := by
  rcases h1 with hq | ⟨hs, b, c, i, a1, a2, a3, a4, a5, a6⟩
  · exact Or.inl (Quiet.trans s s1 s2 hq h2)
  · refine Or.inr ⟨h2.1.trans hs, b, c, i, a1, a2, ?_, fun d hd => ?_, ?_, ?_⟩
    · rw [h2.2.2.2 b]; exact a3
    · rw [h2.2.2.2 d, a4 d hd]
    · rw [h2.2.1, a5]
    · rw [h2.2.2.1, a6]

theorem cleared_dtor_log (s : State) (b : Nat) (blk : BlockBase) :
    (cleared s b blk).dtor_log = s.dtor_log ++ dtorRuns b blk.impl := by
  unfold cleared dtorRuns
  cases blk.impl with
  | Block p =>
    by_cases hp : p = RawPtr.null <;> simp [State.setBlock, hp]
  | BlockHolder => rfl

theorem strongView_setBlock_weak (s : State) (b c : Nat) (blk : BlockBase) (w : Int)
    (hblk : s.blockAt b = some blk) :
    strongView (s.setBlock b { blk with weak_ref_counter_ := w }) c = strongView s c := by
  unfold strongView
  rw [blockAt_setBlock s b c blk _ hblk]
  by_cases hc : c = b
  · subst hc
    simp [hblk]
  · simp [hc]

/-- `WeakPtr::IncreaseRefCounter` changes nothing that concerns strong
ownership. -/
theorem WeakPtr_IncreaseRefCounter_quiet (s s2 : State) (h : Nat)
    (hok : WeakPtr.IncreaseRefCounter s h = .ok s2) : Quiet s s2 := by
  obtain ⟨x, hx⟩ := WeakPtr_IncreaseRefCounter_live s s2 h hok
  by_cases hb : x.block_ = none
  · rw [WeakPtr_IncreaseRefCounter_none s h x hx hb] at hok
    cases hok
    exact Quiet.refl s
  · obtain ⟨b, hb⟩ := Option.ne_none_iff_exists'.mp hb
    cases hblk : s.blockAt b with
    | none =>
      simp [WeakPtr.IncreaseRefCounter, weakObj_of_weakAt s h x hx, hb,
        block_error_of_none s b hblk, bind, Except.bind] at hok
    | some blk =>
      by_cases hmax : blk.weak_ref_counter_ = INT_MAX
      · rw [WeakPtr_IncreaseRefCounter_overflow s h b x blk hx hb hblk hmax] at hok
        cases hok
      · rw [WeakPtr_IncreaseRefCounter_some s h b x blk hx hb hblk hmax] at hok
        cases hok
        exact ⟨rfl, rfl, rfl, fun c => strongView_setBlock_weak s b c blk _ hblk⟩

/-- `WeakPtr::Clear` either changes nothing that concerns strong ownership or
deallocates one block whose strong counter is below 1. -/
theorem WeakPtr_Clear_frame (s s2 : State) (h : Nat) (hok : WeakPtr.Clear s h = .ok s2) :
    StrongFrame s s2 := by
  obtain ⟨x, hx, hcase⟩ := WeakPtr_Clear_cases s s2 h hok
  rcases hcase with ⟨_, rfl⟩ | ⟨b, blk, _, hblk, ⟨_, hlt, rfl⟩ | ⟨_, rfl⟩⟩
  · exact Or.inl (Quiet.refl s)
  · refine Or.inr ⟨by simp, b, blk.shared_ref_counter_, blk.impl, ?_, hlt, ?_, fun d hd => ?_,
      ?_, ?_⟩
    · simp [strongView, hblk]
    · simp [strongView, blockAt_deleted s b b blk hblk]
    · simp [strongView, blockAt_deleted s b d blk hblk, hd]
    · show (cleared s b blk).dtor_log = _
      exact cleared_dtor_log s b blk
    · simp [State.setWeak, deleted, cleared_free_log]
  · exact Or.inl ⟨rfl, rfl, rfl, fun c => strongView_setBlock_weak s b c blk _ hblk⟩

theorem Quiet.of_handles (s s2 : State) (hb : s2.blocks = s.blocks) (hs : s2.shared = s.shared)
    (hd : s2.dtor_log = s.dtor_log) (hf : s2.free_log = s.free_log) : Quiet s s2 :=
  ⟨hs, hd, hf, fun c => by unfold strongView State.blockAt; rw [hb]⟩

/-- C15: every `WeakPtr` operation other than `Lock` (default construction,
construction from a `SharedPtr`, copy and move construction, copy and move
assignment, `Reset`, `Swap`, destruction) that completes leaves all `SharedPtr`
objects as they were, and either leaves every block with the same allocation
status, the same strong counter and the same resource, with no destructor run
and no deallocation, or deallocates exactly one block whose strong counter was
below 1, the destructor runs being those of that block and every other block
keeping its allocation status, strong counter and resource. -/
theorem C15_weak_ops_keep_strong_ownership (s s2 : State) (op : Op)
    (hop : op.weakNotLock = true) (hok : step s op = .ok s2) :
    s2.shared = s.shared ∧
    ((s2.dtor_log = s.dtor_log ∧ s2.free_log = s.free_log ∧
        ∀ c, strongView s2 c = strongView s c) ∨
     ∃ b c i, strongView s b = some (c, i) ∧ c < 1 ∧ strongView s2 b = none ∧
      (∀ d, d ≠ b → strongView s2 d = strongView s d) ∧
      s2.dtor_log = s.dtor_log ++ dtorRuns b i ∧ s2.free_log = s.free_log ++ [b]) := by
  have key : StrongFrame s s2 := by
    cases op <;> simp only [Op.weakNotLock] at hop <;> try cases hop
    case weakDefault =>
      cases hok
      exact Or.inl (Quiet.of_handles s _ rfl rfl rfl rfl)
    case weakCopy o =>
      obtain ⟨other, _, h1⟩ := bind_ok _ _ _ hok
      have q1 := WeakPtr_IncreaseRefCounter_quiet _ s2 _ h1
      exact Or.inl (Quiet.trans s _ s2 (Quiet.of_handles s _ rfl rfl rfl rfl) q1)
    case weakFromShared o =>
      obtain ⟨other, _, h1⟩ := bind_ok _ _ _ hok
      have q1 := WeakPtr_IncreaseRefCounter_quiet _ s2 _ h1
      exact Or.inl (Quiet.trans s _ s2 (Quiet.of_handles s _ rfl rfl rfl rfl) q1)
    case weakMove o =>
      obtain ⟨other, _, hrest⟩ := bind_ok _ _ _ hok
      obtain ⟨s1, h1, h2⟩ := bind_ok _ _ _ hrest
      have q1 := WeakPtr_IncreaseRefCounter_quiet _ s1 _ h1
      exact StrongFrame.quiet_left s s1 s2
        (Quiet.trans s _ s1 (Quiet.of_handles s _ rfl rfl rfl rfl) q1)
        (WeakPtr_Clear_frame s1 s2 o h2)
    case weakCopyAssign h o =>
      obtain ⟨s1, h1, h2⟩ := bind_ok _ _ _ hok
      obtain ⟨other, _, h4⟩ := bind_ok _ _ _ h2
      have q1 := WeakPtr_IncreaseRefCounter_quiet _ s2 _ h4
      exact StrongFrame.quiet_right s s1 s2 (WeakPtr_Clear_frame s s1 h h1)
        (Quiet.trans s1 _ s2 (Quiet.of_handles s1 _ rfl rfl rfl rfl) q1)
    case weakMoveAssign h o =>
      have hok0 : WeakPtr.moveAssign s h o = .ok s2 := hok
      have hok1 := hok0
      unfold WeakPtr.moveAssign at hok1
      obtain ⟨s1, h1, h2⟩ := bind_ok _ _ _ hok1
      obtain ⟨other, h3, _⟩ := bind_ok _ _ _ h2
      rw [WeakPtr_moveAssign_eq s s1 h o other h1 (weakAt_of_weakObj s1 o other h3)] at hok0
      have q1 := WeakPtr_IncreaseRefCounter_quiet _ s2 _ hok0
      exact StrongFrame.quiet_right s s1 s2 (WeakPtr_Clear_frame s s1 h h1)
        (Quiet.trans s1 _ s2 (Quiet.of_handles s1 _ rfl rfl rfl rfl) q1)
    case weakDtor h =>
      obtain ⟨s1, h1, h2⟩ := bind_ok _ _ _ hok
      cases h2
      exact StrongFrame.quiet_right s s1 _ (WeakPtr_Clear_frame s s1 h h1)
        (Quiet.of_handles s1 _ rfl rfl rfl rfl)
    case weakReset h => exact WeakPtr_Clear_frame s s2 h hok
    case weakSwap h o =>
      obtain ⟨self, _, h1⟩ := bind_ok _ _ _ hok
      obtain ⟨other, _, h3⟩ := bind_ok _ _ _ h1
      cases h3
      exact Or.inl (Quiet.of_handles s _ rfl rfl rfl rfl)
  rcases key with ⟨a1, a2, a3, a4⟩ | ⟨a1, a2⟩
  · exact ⟨a1, Or.inl ⟨a2, a3, a4⟩⟩
  · exact ⟨a1, Or.inr a2⟩

/-- C15, witness: with `SharedPtr a(p); WeakPtr w(a);` the destruction of `w`
leaves the block with strong counter 1 and its resource, and runs no
destructor. -/
theorem C15_weak_ops_keep_strong_ownership_witness :
    step C5_state (.weakDtor 0)
      = .ok ⟨[some ⟨1, 0, .Block (.obj 7)⟩], [some ⟨.obj 7, some 0⟩], [none], [], []⟩ ∧
    strongView ⟨[some ⟨1, 0, .Block (.obj 7)⟩], [some ⟨.obj 7, some 0⟩], [none], [], []⟩ 0
      = some (1, .Block (.obj 7)) ∧
    (⟨[some ⟨1, 0, .Block (.obj 7)⟩], [some ⟨.obj 7, some 0⟩], [none], [], []⟩ : State).shared
      = C5_state.shared :=
  ⟨rfl, rfl,
    (C15_weak_ops_keep_strong_ownership C5_state
      ⟨[some ⟨1, 0, .Block (.obj 7)⟩], [some ⟨.obj 7, some 0⟩], [none], [], []⟩
      (.weakDtor 0) rfl rfl).1⟩

/-! ## UniquePtr: what the operations compute -/

theorem uniqueAt_setUnique (s : UState) (u j : Nat) (old x : UniquePtr)
    (hu : s.uniqueAt u = some old) :
    (s.setUnique u x).uniqueAt j = if j = u then some x else s.uniqueAt j :=
  slot_set_some s.unique u j x (slot_lt _ _ _ hu)

theorem uniqueAt_newUnique (s : UState) (x : UniquePtr) (j : Nat) :
    (s.newUnique x).uniqueAt j = if j = s.unique.length then some x else s.uniqueAt j :=
  slot_append s.unique _ j

theorem uniqueAt_endUnique (s : UState) (u j : Nat) :
    (s.endUnique u).uniqueAt j = if j = u then none else s.uniqueAt j :=
  slot_set_none s.unique u j

theorem uniqueObj_of_uniqueAt (s : UState) (u : Nat) (x : UniquePtr)
    (hu : s.uniqueAt u = some x) : s.uniqueObj u = .ok x := by
  simp [UState.uniqueObj, hu]

theorem uniqueAt_calls (s : UState) (u : Nat) (c : List (Deleter × RawPtr)) :
    UState.uniqueAt { s with calls := c } u = s.uniqueAt u := rfl

theorem UniquePtr_Release_eq (s : UState) (u : Nat) (x : UniquePtr)
    (hu : s.uniqueAt u = some x) :
    UniquePtr.Release s u
      = .ok (UniquePtr.Get x, s.setUnique u ⟨{ x.ptr_pair_ with first := .null }⟩) := by
  simp [UniquePtr.Release, uniqueObj_of_uniqueAt s u x hu, bind, Except.bind, pure, Except.pure]

theorem UniquePtr_Reset_same (s : UState) (u : Nat) (x : UniquePtr) (ptr : RawPtr)
    (hu : s.uniqueAt u = some x) (hp : ptr = UniquePtr.Get x) :
    UniquePtr.Reset s u ptr = .ok s := by
  simp [UniquePtr.Reset, uniqueObj_of_uniqueAt s u x hu, hp, bind, Except.bind, pure,
    Except.pure]

theorem UniquePtr_Reset_diff (s : UState) (u : Nat) (x : UniquePtr) (ptr : RawPtr)
    (hu : s.uniqueAt u = some x) (hp : ptr ≠ UniquePtr.Get x) :
    UniquePtr.Reset s u ptr
      = .ok { s.setUnique u ⟨{ x.ptr_pair_ with first := ptr }⟩ with
          calls := s.calls ++ [(UniquePtr.GetDeleter x, UniquePtr.Get x)] } := by
  have h1 := uniqueAt_setUnique s u u x ⟨{ x.ptr_pair_ with first := ptr }⟩ hu
  simp only [if_true] at h1
  simp only [UniquePtr.Reset, uniqueObj_of_uniqueAt s u x hu, bind, Except.bind, hp,
    ne_eq, not_false_eq_true, if_true, uniqueObj_of_uniqueAt _ u _ h1, pure, Except.pure]
  rfl

/-- The release action calls of `Reset(ptr)`: none when `ptr == Get()`,
otherwise one call of the stored action on the previous pointer. -/
theorem UniquePtr_Reset_calls (s : UState) (u : Nat) (x : UniquePtr) (ptr : RawPtr)
    (hu : s.uniqueAt u = some x) :
    ∃ s2, UniquePtr.Reset s u ptr = .ok s2 ∧
      s2.uniqueAt u = some ⟨⟨ptr, UniquePtr.GetDeleter x⟩⟩ ∧
      (∀ j, j ≠ u → s2.uniqueAt j = s.uniqueAt j) ∧
      s2.calls = s.calls ++
        (if ptr = UniquePtr.Get x then [] else [(UniquePtr.GetDeleter x, UniquePtr.Get x)]) := by
  by_cases hp : ptr = UniquePtr.Get x
  · refine ⟨s, UniquePtr_Reset_same s u x ptr hu hp, ?_, fun _ _ => rfl, by simp [hp]⟩
    rw [hu, hp]
    rfl
  · refine ⟨_, UniquePtr_Reset_diff s u x ptr hu hp, ?_, fun j hj => ?_, by simp [hp]⟩
    · rw [uniqueAt_calls, uniqueAt_setUnique s u u x _ hu]
      simp [UniquePtr.GetDeleter, CompressedPair.GetSecond]
    · rw [uniqueAt_calls, uniqueAt_setUnique s u j x _ hu, if_neg hj]

/-- The destructor: `Reset()` and the end of the lifetime. -/
theorem UniquePtr_dtor_calls (s : UState) (u : Nat) (x : UniquePtr)
    (hu : s.uniqueAt u = some x) :
    ∃ s2, UniquePtr.dtor s u = .ok s2 ∧ s2.uniqueAt u = none ∧
      (∀ j, j ≠ u → s2.uniqueAt j = s.uniqueAt j) ∧
      s2.calls = s.calls ++
        (if UniquePtr.Get x = .null then []
          else [(UniquePtr.GetDeleter x, UniquePtr.Get x)]) := by
  obtain ⟨s1, h1, _, h3, h4⟩ := UniquePtr_Reset_calls s u x .null hu
  refine ⟨s1.endUnique u, ?_, ?_, fun j hj => ?_, ?_⟩
  · simp only [UniquePtr.dtor, h1, bind, Except.bind, pure, Except.pure]
  · rw [uniqueAt_endUnique, if_pos rfl]
  · rw [uniqueAt_endUnique, if_neg hj, h3 j hj]
  · show s1.calls = _
    rw [h4]
    by_cases hp : UniquePtr.Get x = .null
    · simp [hp]
    · have hp2 : ¬ RawPtr.null = UniquePtr.Get x := fun e => hp e.symm
      simp [hp, hp2]

/-- Move assignment between two distinct objects. -/
theorem UniquePtr_moveAssign_calls (s : UState) (a b : Nat) (x y : UniquePtr) (hab : a ≠ b)
    (ha : s.uniqueAt a = some x) (hb : s.uniqueAt b = some y) :
    ∃ s2, UniquePtr.moveAssign s a b = .ok s2 ∧
      s2.uniqueAt a = some ⟨⟨UniquePtr.Get y, UniquePtr.GetDeleter y⟩⟩ ∧
      s2.uniqueAt b = some ⟨⟨.null, UniquePtr.GetDeleter y⟩⟩ ∧
      s2.calls = s.calls ++
        (if UniquePtr.Get y = UniquePtr.Get x then []
          else [(UniquePtr.GetDeleter x, UniquePtr.Get x)]) := by
  have hrel := UniquePtr_Release_eq s b y hb
  have hb1 := uniqueAt_setUnique s b b y ⟨{ y.ptr_pair_ with first := .null }⟩ hb
  simp only [if_true] at hb1
  have ha1 := uniqueAt_setUnique s b a y ⟨{ y.ptr_pair_ with first := .null }⟩ hb
  rw [if_neg hab, ha] at ha1
  obtain ⟨s2, h1, h2, h3, h4⟩ := UniquePtr_Reset_calls _ a x (UniquePtr.Get y) ha1
  have hb2 : s2.uniqueAt b = some ⟨{ y.ptr_pair_ with first := .null }⟩ := by
    rw [h3 b (fun e => hab e.symm), hb1]
  refine ⟨s2.setUnique a ⟨⟨UniquePtr.Get y, UniquePtr.GetDeleter y⟩⟩, ?_, ?_, ?_, h4⟩
  · simp only [UniquePtr.moveAssign, hrel, bind, Except.bind, h1,
      uniqueObj_of_uniqueAt s2 b _ hb2, uniqueObj_of_uniqueAt s2 a _ h2, pure, Except.pure]
    rfl
  · rw [uniqueAt_setUnique s2 a a _ _ h2, if_pos rfl]
  · rw [uniqueAt_setUnique s2 a b _ _ h2, if_neg (fun e => hab e.symm), hb2]
    rfl

/-- Move assignment of an object to itself. -/
theorem UniquePtr_self_moveAssign_calls (s : UState) (u : Nat) (x : UniquePtr)
    (hu : s.uniqueAt u = some x) :
    ∃ s2, UniquePtr.moveAssign s u u = .ok s2 ∧ s2.uniqueAt u = some x ∧
      s2.calls = s.calls ++
        (if UniquePtr.Get x = .null then [] else [(UniquePtr.GetDeleter x, .null)]) := by
  have hrel := UniquePtr_Release_eq s u x hu
  have hu1 := uniqueAt_setUnique s u u x ⟨{ x.ptr_pair_ with first := .null }⟩ hu
  simp only [if_true] at hu1
  obtain ⟨s2, h1, h2, _, h4⟩ := UniquePtr_Reset_calls _ u _ (UniquePtr.Get x) hu1
  refine ⟨s2.setUnique u x, ?_, ?_, ?_⟩
  · simp only [UniquePtr.moveAssign, hrel, bind, Except.bind, h1,
      uniqueObj_of_uniqueAt s2 u _ h2, pure, Except.pure]
    cases x with
    | mk pp => cases pp; rfl
  · rw [uniqueAt_setUnique s2 u u _ _ h2, if_pos rfl]
  · show s2.calls = _
    rw [h4]
    have hc : (s.setUnique u ⟨{ x.ptr_pair_ with first := .null }⟩).calls = s.calls := rfl
    rw [hc]
    by_cases hp : x.ptr_pair_.first = .null
    · simp [hp, UniquePtr.Get, CompressedPair.GetFirst]
    · simp [hp, UniquePtr.Get, CompressedPair.GetFirst, UniquePtr.GetDeleter,
        CompressedPair.GetSecond]

/-! ## Claims on UniquePtr -/

/-- C12: for a `UniquePtr` that owns a non-null pointer `p` with the release
action `d`: `Release()` returns `p` and records no invocation, and neither
does the destruction that follows; `Reset()` records exactly one invocation,
of `d` on `p`, and the destruction that follows records no further one;
destruction without a prior `Reset()` or `Release()` records exactly one
invocation, of `d` on `p`. -/
theorem C12_recorded_invocations (s : UState) (u : Nat) (p : RawPtr) (d : Deleter)
    (hu : s.uniqueAt u = some ⟨⟨p, d⟩⟩) (hp : p ≠ .null) :
    (∃ s1 s2, UniquePtr.Release s u = .ok (p, s1) ∧ s1.calls = s.calls ∧
      UniquePtr.dtor s1 u = .ok s2 ∧ s2.calls = s.calls) ∧
    (∃ s1 s2, UniquePtr.Reset s u .null = .ok s1 ∧ s1.calls = s.calls ++ [(d, p)] ∧
      UniquePtr.dtor s1 u = .ok s2 ∧ s2.calls = s.calls ++ [(d, p)]) ∧
    (∃ s2, UniquePtr.dtor s u = .ok s2 ∧ s2.calls = s.calls ++ [(d, p)]) := by
  have hp2 : ¬ RawPtr.null = p := fun e => hp e.symm
  refine ⟨?_, ?_, ?_⟩
  · have h1 := uniqueAt_setUnique s u u _ ⟨⟨.null, d⟩⟩ hu
    simp only [if_true] at h1
    obtain ⟨s2, g1, _, _, g4⟩ := UniquePtr_dtor_calls _ u _ h1
    exact ⟨_, s2, UniquePtr_Release_eq s u _ hu, rfl, g1, by
      rw [g4]; simp [UniquePtr.Get, CompressedPair.GetFirst, UState.setUnique]⟩
  · obtain ⟨s1, g1, g2, _, g4⟩ := UniquePtr_Reset_calls s u _ .null hu
    obtain ⟨s2, k1, _, _, k4⟩ := UniquePtr_dtor_calls s1 u _ g2
    have e1 : s1.calls = s.calls ++ [(d, p)] := by
      rw [g4]
      simp [UniquePtr.Get, CompressedPair.GetFirst, UniquePtr.GetDeleter,
        CompressedPair.GetSecond, hp2]
    refine ⟨s1, s2, g1, e1, k1, ?_⟩
    rw [k4, e1]
    simp [UniquePtr.Get, CompressedPair.GetFirst]
  · obtain ⟨s2, k1, _, _, k4⟩ := UniquePtr_dtor_calls s u _ hu
    refine ⟨s2, k1, ?_⟩
    rw [k4]
    simp [UniquePtr.Get, CompressedPair.GetFirst, UniquePtr.GetDeleter,
      CompressedPair.GetSecond, hp]

/-- C12, witness: one `UniquePtr` that owns `p` with the release action 1. -/
theorem C12_recorded_invocations_witness :
    C12_state.uniqueAt 0 = some ⟨⟨.obj 7, 1⟩⟩ ∧ RawPtr.obj 7 ≠ .null ∧
    (∃ s1 s2, UniquePtr.Release C12_state 0 = .ok (.obj 7, s1) ∧ s1.calls = C12_state.calls ∧
      UniquePtr.dtor s1 0 = .ok s2 ∧ s2.calls = C12_state.calls) ∧
    (∃ s1 s2, UniquePtr.Reset C12_state 0 .null = .ok s1 ∧
      s1.calls = C12_state.calls ++ [(1, .obj 7)] ∧
      UniquePtr.dtor s1 0 = .ok s2 ∧ s2.calls = C12_state.calls ++ [(1, .obj 7)]) ∧
    (∃ s2, UniquePtr.dtor C12_state 0 = .ok s2 ∧
      s2.calls = C12_state.calls ++ [(1, .obj 7)]) :=
  ⟨rfl, by decide, C12_recorded_invocations C12_state 0 (.obj 7) 1 rfl (by decide)⟩

/-- C13: for every `UniquePtr` `u` with pointer `p` and release action `d`,
`q = u.Release()` returns `p`, and `v = UniquePtr(q, d)` (the new object
number `s.unique.length`) has `Get() == p` and the release action `d`, while
`u.Get() == nullptr`; no release action is invoked by the two calls; the
destruction of `u` and `v` afterwards, in either order, invokes `d` on `p`
exactly once when `p` is non-null and invokes nothing when `p` is null. -/
theorem C13_release_reconstruct (s : UState) (u : Nat) (p : RawPtr) (d : Deleter)
    (hu : s.uniqueAt u = some ⟨⟨p, d⟩⟩) :
    ∃ s1 s2, UniquePtr.Release s u = .ok (p, s1) ∧ UniquePtr.ctor s1 p d = .ok s2 ∧
      s2.uniqueAt s.unique.length = some ⟨⟨p, d⟩⟩ ∧
      UniquePtr.Get ⟨⟨p, d⟩⟩ = p ∧ UniquePtr.GetDeleter ⟨⟨p, d⟩⟩ = d ∧
      s2.uniqueAt u = some ⟨⟨.null, d⟩⟩ ∧ UniquePtr.Get ⟨⟨.null, d⟩⟩ = .null ∧
      s2.calls = s.calls ∧
      (∃ s3 s4, UniquePtr.dtor s2 u = .ok s3 ∧ UniquePtr.dtor s3 s.unique.length = .ok s4 ∧
        s4.calls = s.calls ++ (if p = .null then [] else [(d, p)])) ∧
      (∃ s3 s4, UniquePtr.dtor s2 s.unique.length = .ok s3 ∧ UniquePtr.dtor s3 u = .ok s4 ∧
        s4.calls = s.calls ++ (if p = .null then [] else [(d, p)])) := by
  have hlt := slot_lt _ _ _ hu
  have hne : u ≠ s.unique.length := by omega
  have hne2 : s.unique.length ≠ u := by omega
  have h1 := uniqueAt_setUnique s u u _ ⟨⟨.null, d⟩⟩ hu
  simp only [if_true] at h1
  have hlen : (s.setUnique u ⟨⟨.null, d⟩⟩).unique.length = s.unique.length := by
    simp [UState.setUnique]
  have hv : ((s.setUnique u ⟨⟨.null, d⟩⟩).newUnique ⟨⟨p, d⟩⟩).uniqueAt s.unique.length
      = some ⟨⟨p, d⟩⟩ := by
    rw [uniqueAt_newUnique, hlen, if_pos rfl]
  have hu2 : ((s.setUnique u ⟨⟨.null, d⟩⟩).newUnique ⟨⟨p, d⟩⟩).uniqueAt u
      = some ⟨⟨.null, d⟩⟩ := by
    rw [uniqueAt_newUnique, hlen, if_neg hne, h1]
  refine ⟨s.setUnique u ⟨⟨.null, d⟩⟩, (s.setUnique u ⟨⟨.null, d⟩⟩).newUnique ⟨⟨p, d⟩⟩,
    UniquePtr_Release_eq s u _ hu, rfl, hv, rfl, rfl, hu2, rfl, rfl, ?_, ?_⟩
  · obtain ⟨s3, g1, _, g3, g4⟩ := UniquePtr_dtor_calls _ u _ hu2
    have hv3 : s3.uniqueAt s.unique.length = some ⟨⟨p, d⟩⟩ := by
      rw [g3 _ hne2, hv]
    obtain ⟨s4, k1, _, _, k4⟩ := UniquePtr_dtor_calls s3 _ _ hv3
    refine ⟨s3, s4, g1, k1, ?_⟩
    rw [k4, g4]
    simp [UniquePtr.Get, CompressedPair.GetFirst, UniquePtr.GetDeleter,
      CompressedPair.GetSecond, UState.newUnique, UState.setUnique]
  · obtain ⟨s3, g1, _, g3, g4⟩ := UniquePtr_dtor_calls _ s.unique.length _ hv
    have hu3 : s3.uniqueAt u = some ⟨⟨.null, d⟩⟩ := by
      rw [g3 _ hne, hu2]
    obtain ⟨s4, k1, _, _, k4⟩ := UniquePtr_dtor_calls s3 _ _ hu3
    refine ⟨s3, s4, g1, k1, ?_⟩
    rw [k4, g4]
    simp [UniquePtr.Get, CompressedPair.GetFirst, UniquePtr.GetDeleter,
      CompressedPair.GetSecond, UState.newUnique, UState.setUnique]

/-- C13, witness: the round trip on one `UniquePtr` that owns `p`. -/
theorem C13_release_reconstruct_witness :
    C12_state.uniqueAt 0 = some ⟨⟨.obj 7, 1⟩⟩ ∧
    ∃ s1 s2, UniquePtr.Release C12_state 0 = .ok (.obj 7, s1) ∧
      UniquePtr.ctor s1 (.obj 7) 1 = .ok s2 ∧
      s2.uniqueAt 1 = some ⟨⟨.obj 7, 1⟩⟩ ∧
      UniquePtr.Get ⟨⟨.obj 7, 1⟩⟩ = .obj 7 ∧ UniquePtr.GetDeleter ⟨⟨.obj 7, 1⟩⟩ = 1 ∧
      s2.uniqueAt 0 = some ⟨⟨.null, 1⟩⟩ ∧ UniquePtr.Get ⟨⟨.null, 1⟩⟩ = .null ∧
      s2.calls = C12_state.calls ∧
      (∃ s3 s4, UniquePtr.dtor s2 0 = .ok s3 ∧ UniquePtr.dtor s3 1 = .ok s4 ∧
        s4.calls = C12_state.calls ++ [(1, .obj 7)]) ∧
      (∃ s3 s4, UniquePtr.dtor s2 1 = .ok s3 ∧ UniquePtr.dtor s3 0 = .ok s4 ∧
        s4.calls = C12_state.calls ++ [(1, .obj 7)]) :=
  ⟨rfl, C13_release_reconstruct C12_state 0 (.obj 7) 1 rfl⟩

/-- C14: for two distinct `UniquePtr` objects `a` (pointer `q`, release action
`da`) and `b` (pointer `r != q`, release action `db`), `a = std::move(b)`
completes with `a.Get() == r`, `b.Get() == nullptr`, the release action of `a`
equal to `db`, and exactly one release action invocation, of `da` on `q`. -/
theorem C14_move_assign (s : UState) (a b : Nat) (q r : RawPtr) (da db : Deleter)
    (hab : a ≠ b) (ha : s.uniqueAt a = some ⟨⟨q, da⟩⟩) (hb : s.uniqueAt b = some ⟨⟨r, db⟩⟩)
    (hrq : r ≠ q) :
    ∃ s2 x y, UniquePtr.moveAssign s a b = .ok s2 ∧
      s2.uniqueAt a = some x ∧ s2.uniqueAt b = some y ∧
      UniquePtr.Get x = r ∧ UniquePtr.Get y = .null ∧ UniquePtr.GetDeleter x = db ∧
      s2.calls = s.calls ++ [(da, q)] := by
  obtain ⟨s2, g1, g2, g3, g4⟩ := UniquePtr_moveAssign_calls s a b _ _ hab ha hb
  refine ⟨s2, _, _, g1, g2, g3, rfl, rfl, rfl, ?_⟩
  rw [g4]
  simp [UniquePtr.Get, CompressedPair.GetFirst, UniquePtr.GetDeleter,
    CompressedPair.GetSecond, hrq]

/-- C14, witness: `a` owns `obj 7` with action 1, `b` owns `obj 9` with action 2. -/
theorem C14_move_assign_witness :
    C14_state.uniqueAt 0 = some ⟨⟨.obj 7, 1⟩⟩ ∧ C14_state.uniqueAt 1 = some ⟨⟨.obj 9, 2⟩⟩ ∧
    UniquePtr.moveAssign C14_state 0 1
      = .ok ⟨[some ⟨⟨.obj 9, 2⟩⟩, some ⟨⟨.null, 2⟩⟩], [(1, .obj 7)]⟩ ∧
    ∃ s2 x y, UniquePtr.moveAssign C14_state 0 1 = .ok s2 ∧
      s2.uniqueAt 0 = some x ∧ s2.uniqueAt 1 = some y ∧
      UniquePtr.Get x = .obj 9 ∧ UniquePtr.Get y = .null ∧ UniquePtr.GetDeleter x = 2 ∧
      s2.calls = C14_state.calls ++ [(1, .obj 7)] :=
  ⟨rfl, rfl, rfl,
    C14_move_assign C14_state 0 1 (.obj 7) (.obj 9) 1 2 (by decide) rfl rfl (by decide)⟩

/-- C18, counterexample: `Reset(p)` with a non-null `p` on an empty
`UniquePtr` invokes the release action once, with the null pointer. -/
theorem C18_reset_on_empty_invokes_on_null :
    C18_state.uniqueAt 0 = some ⟨⟨.null, 1⟩⟩ ∧
    UniquePtr.Reset C18_state 0 (.obj 7) = .ok ⟨[some ⟨⟨.obj 7, 1⟩⟩], [(1, .null)]⟩ :=
  ⟨rfl, rfl⟩

/-- C18, amended: for every live `UniquePtr` with pointer `q` and release
action `d`: `Reset(ptr)` invokes nothing when `ptr == Get()` and otherwise
invokes `d` once on the previous pointer `q`, also when `q` is null; move
assignment from a distinct object with pointer `r` invokes nothing when
`r == q` and otherwise invokes `d` once on `q`, also when `q` is null; self
move assignment invokes nothing when `q` is null and otherwise invokes `d`
once, on the null pointer; assignment of `nullptr` and destruction invoke
nothing when `q` is null and otherwise invoke `d` once on the non-null `q`. -/
theorem C18_release_action_calls (s : UState) (u : Nat) (q : RawPtr) (d : Deleter)
    (hu : s.uniqueAt u = some ⟨⟨q, d⟩⟩) :
    (∀ ptr, ∃ s2, UniquePtr.Reset s u ptr = .ok s2 ∧
      s2.calls = s.calls ++ (if ptr = q then [] else [(d, q)])) ∧
    (∀ o r db, s.uniqueAt o = some ⟨⟨r, db⟩⟩ →
      ∃ s2, UniquePtr.moveAssign s u o = .ok s2 ∧
        s2.calls = s.calls ++
          (if o = u then (if q = .null then [] else [(d, .null)])
            else (if r = q then [] else [(d, q)]))) ∧
    (∃ s2, UniquePtr.assignNull s u = .ok s2 ∧
      s2.calls = s.calls ++ (if q = .null then [] else [(d, q)]) ∧
      ∀ e, e ∈ (if q = .null then [] else [(d, q)]) → e.2 ≠ .null) ∧
    (∃ s2, UniquePtr.dtor s u = .ok s2 ∧
      s2.calls = s.calls ++ (if q = .null then [] else [(d, q)]) ∧
      ∀ e, e ∈ (if q = .null then [] else [(d, q)]) → e.2 ≠ .null) := by
  have hnonnull : ∀ e : Deleter × RawPtr,
      e ∈ (if q = RawPtr.null then [] else [(d, q)]) → e.2 ≠ .null := by
    intro e he
    by_cases hq : q = .null
    · simp [hq] at he
    · simp [hq] at he
      rw [he]
      exact hq
  refine ⟨fun ptr => ?_, fun o r db ho => ?_, ?_, ?_⟩
  · obtain ⟨s2, g1, _, _, g4⟩ := UniquePtr_Reset_calls s u _ ptr hu
    exact ⟨s2, g1, g4⟩
  · by_cases hou : o = u
    · subst hou
      obtain ⟨s2, g1, _, g4⟩ := UniquePtr_self_moveAssign_calls s o _ hu
      refine ⟨s2, g1, ?_⟩
      rw [g4, if_pos rfl]
      rfl
    · obtain ⟨s2, g1, _, _, g4⟩ :=
        UniquePtr_moveAssign_calls s u o _ _ (fun e => hou e.symm) hu ho
      refine ⟨s2, g1, ?_⟩
      rw [g4, if_neg hou]
      rfl
  · obtain ⟨s2, g1, _, _, g4⟩ := UniquePtr_Reset_calls s u _ .null hu
    refine ⟨s2, g1, ?_, hnonnull⟩
    rw [g4]
    by_cases hq : q = .null
    · simp [hq, UniquePtr.Get, CompressedPair.GetFirst]
    · have hq2 : ¬ RawPtr.null = q := fun e => hq e.symm
      simp [hq, hq2, UniquePtr.Get, CompressedPair.GetFirst, UniquePtr.GetDeleter,
        CompressedPair.GetSecond]
  · obtain ⟨s2, g1, _, _, g4⟩ := UniquePtr_dtor_calls s u _ hu
    exact ⟨s2, g1, g4, hnonnull⟩

/-- C18, witness: on a `UniquePtr` that owns `obj 7` with the release action
1, `Reset(obj 9)` and the destruction each invoke the action once on `obj 7`,
`Reset(obj 7)` invokes nothing, and the self move assignment invokes the
action once on the null pointer. -/
theorem C18_release_action_calls_witness :
    C12_state.uniqueAt 0 = some ⟨⟨.obj 7, 1⟩⟩ ∧
    (∃ s2, UniquePtr.Reset C12_state 0 (.obj 9) = .ok s2 ∧
      s2.calls = C12_state.calls ++ [(1, .obj 7)]) ∧
    (∃ s2, UniquePtr.Reset C12_state 0 (.obj 7) = .ok s2 ∧ s2.calls = C12_state.calls ++ []) ∧
    (∃ s2, UniquePtr.moveAssign C12_state 0 0 = .ok s2 ∧
      s2.calls = C12_state.calls ++ [(1, .null)]) ∧
    (∃ s2, UniquePtr.dtor C12_state 0 = .ok s2 ∧
      s2.calls = C12_state.calls ++ [(1, .obj 7)] ∧
      ∀ e, e ∈ [((1 : Deleter), RawPtr.obj 7)] → e.2 ≠ .null) :=
  have h := C18_release_action_calls C12_state 0 (.obj 7) 1 rfl
  ⟨rfl, h.1 (.obj 9), h.1 (.obj 7), h.2.1 0 (.obj 7) 1 rfl, h.2.2.2⟩

/-- C20: for every live `UniquePtr` `u` with pointer `p` and release action
`d`, the self move assignment `u = std::move(u)` completes and leaves `u` with
the pointer `p` and the action `d`; the release action calls it makes (none
when `p` is null, one call on the null pointer otherwise) are not on `p`. -/
theorem C20_self_move_assign (s : UState) (u : Nat) (p : RawPtr) (d : Deleter)
    (hu : s.uniqueAt u = some ⟨⟨p, d⟩⟩) :
    ∃ s2 extra, UniquePtr.moveAssign s u u = .ok s2 ∧
      s2.uniqueAt u = some ⟨⟨p, d⟩⟩ ∧ UniquePtr.Get ⟨⟨p, d⟩⟩ = p ∧
      s2.calls = s.calls ++ extra ∧
      extra = (if p = .null then [] else [(d, .null)]) ∧
      ∀ e, e ∈ extra → e.2 ≠ p := by
  obtain ⟨s2, g1, g2, g4⟩ := UniquePtr_self_moveAssign_calls s u _ hu
  refine ⟨s2, if p = .null then [] else [(d, .null)], g1, g2, rfl, g4, rfl, ?_⟩
  intro e he
  by_cases hp : p = .null
  · simp [hp] at he
  · simp [hp] at he
    rw [he]
    exact fun e2 => hp e2.symm

/-- C20, witness: the self move assignment of a `UniquePtr` that owns `obj 7`. -/
theorem C20_self_move_assign_witness :
    C12_state.uniqueAt 0 = some ⟨⟨.obj 7, 1⟩⟩ ∧
    UniquePtr.moveAssign C12_state 0 0 = .ok ⟨[some ⟨⟨.obj 7, 1⟩⟩], [(1, .null)]⟩ ∧
    ∃ s2 extra, UniquePtr.moveAssign C12_state 0 0 = .ok s2 ∧
      s2.uniqueAt 0 = some ⟨⟨.obj 7, 1⟩⟩ ∧ UniquePtr.Get ⟨⟨.obj 7, 1⟩⟩ = .obj 7 ∧
      s2.calls = C12_state.calls ++ extra ∧
      extra = [(1, .null)] ∧
      ∀ e, e ∈ extra → e.2 ≠ .obj 7 :=
  ⟨rfl, rfl, C20_self_move_assign C12_state 0 (.obj 7) 1 rfl⟩

/-! ## Release from inside the destructor of the resource -/

/-- With the destructor of a resource type without handle members,
`BlockBase.ClearWith` is `BlockBase.Clear`. -/
theorem BlockBase_ClearWith_plain (s : State) (b : Nat) :
    BlockBase.ClearWith ResourceDtor.plain s b = BlockBase.Clear s b := by
  unfold BlockBase.ClearWith BlockBase.Clear
  cases hblk : s.blockAt b with
  | none => simp [block_error_of_none s b hblk, bind, Except.bind]
  | some blk =>
    rw [block_of_blockAt s b blk hblk]
    simp only [bind, Except.bind]
    cases himpl : blk.impl with
    | Block p =>
      by_cases hp : p = RawPtr.null
      · simp [hp, pure, Except.pure, block_of_blockAt s b blk hblk, himpl]
      · have hb2 : State.block { s with dtor_log := s.dtor_log ++ [p] } b = .ok blk :=
          block_of_blockAt _ b blk hblk
        simp [hp, pure, Except.pure, ResourceDtor.plain, hb2, himpl]
    | BlockHolder => rfl

/-- With the destructor of a resource type without handle members,
`SharedPtr.ClearWith` is `SharedPtr.Clear`. -/
theorem SharedPtr_ClearWith_plain (s : State) (h : Nat) :
    SharedPtr.ClearWith ResourceDtor.plain s h = SharedPtr.Clear s h := by
  unfold SharedPtr.ClearWith SharedPtr.Clear deleteBlockWith deleteBlock
  simp only [BlockBase_ClearWith_plain]

/-- With the destructor of a resource type without handle members,
`SharedPtr.dtorWith` is `SharedPtr.dtor`. -/
theorem SharedPtr_dtorWith_plain (s : State) (h : Nat) :
    SharedPtr.dtorWith ResourceDtor.plain s h = SharedPtr.dtor s h := by
  unfold SharedPtr.dtorWith SharedPtr.dtor
  rw [SharedPtr_ClearWith_plain]

/-- C4: the program `struct Node { WeakPtr<Node> self; };`
`SharedPtr<Node> a(new Node); WeakPtr<Node> w(a); a->self = w;`, then the
destruction of `w`, reaches a state in which the block has strong counter 1
with one live `SharedPtr` (`a`) and weak counter 1 with one live `WeakPtr`
(the member `self`).  The destruction of `a` runs `block_->Clear()`, hence
`~Node()` and the destructor of `self`, before `--shared_ref_counter_`: the
`WeakPtr` sees strong counter 1 and only decrements, then the strong counter
is decremented.  Both handles are released, both counters are 0, and the block
is still allocated: nothing was deallocated.  Releasing the same two handles
as two steps of the program, in either order, deallocates the block. -/
theorem C4_weak_member_release_leaks_block :
    run State.init [.weakDefault, .sharedFromRaw (.obj 7), .weakFromShared 0,
      .weakCopyAssign 0 1, .weakDtor 1] = .ok C4_node_state ∧
    C4_node_state.blockAt 0 = some ⟨1, 1, .Block (.obj 7)⟩ ∧
    refs C4_node_state.shared 0 = 1 ∧ refs C4_node_state.weak 0 = 1 ∧
    SharedPtr.dtorWith Node_dtor C4_node_state 0
      = .ok ⟨[some ⟨0, 0, .Block .null⟩], [none], [none, none], [.obj 7], []⟩ ∧
    run C4_node_state [.weakDtor 0, .sharedDtor 0]
      = .ok ⟨[none], [none], [none, none], [.obj 7], [0]⟩ ∧
    run C4_node_state [.sharedDtor 0, .weakDtor 0]
      = .ok ⟨[none], [none], [none, none], [.obj 7], [0]⟩ :=
  ⟨rfl, rfl, rfl, rfl, rfl, rfl, rfl⟩

end SmartPtr
